import Mathlib

/-!
# Tycho2 Schur-complement boundary coupling: a verification development

Shallow embedding of `src/SweeperSchur.cc` and `src/SweeperSchurBoundary.cc`.

Conventions of the embedding.

* `UINT` loop counters, sizes and indices are natural numbers, and so is the
  `int xArrayIndex` of the serialization: a boundary vector too long for the
  range of its counter is outside the embedding.  Where a `UINT` is copied to
  bytes (`memcpy` in `commSides`) the value is reduced modulo `2 ^ 64`
  explicitly.
* A `double *` (or any raw pointer into a buffer) is a function `Nat → α`
  from offsets to values; the value type `α` stands for `double` and is kept
  abstract, the code only copies and subtracts such values.
* `PsiBoundData` is a dense four-index array; it is embedded as a function of
  its four indices `(group, fvrtx, angle, side)`.
* A C `for (UINT i = 0; i < n; ++i) body` loop is `forLoop n body`, a left
  fold of the body over `0, 1, ..., n - 1` threading the mutable state.
* The mesh service (`TychoMesh`), the sweep kernel, the Krylov solver and the
  message-passing layer are external collaborators; they enter as parameters.
-/

namespace Tycho2

/-! ## Mesh service and global problem sizes -/

/-- The mesh queries and the global sizes the two source files consult.
`nCells` is `g_nCells` / `getNCells()`, `nAngles` is `g_nAngles` /
`g_quadrature->getNumAngles()`. -/
structure TychoMesh where
  nAngles : Nat
  nCells : Nat
  nGroups : Nat
  nFacePerCell : Nat
  nVrtxPerFace : Nat
  nVrtxPerCell : Nat
  BOUNDARY_FACE : Nat
  BAD_RANK : Nat
  isIncoming : Nat → Nat → Nat → Bool
  isOutgoing : Nat → Nat → Nat → Bool
  getAdjCell : Nat → Nat → Nat
  getAdjRank : Nat → Nat → Nat
  getSide : Nat → Nat → Nat
  getLGSide : Nat → Nat
  getGLSide : Nat → Nat

/-- The C loop `for (UINT i = 0; i < n; ++i) body(i)` acting on a state. -/
def forLoop {σ : Type} (n : Nat) (body : Nat → σ → σ) (s : σ) : σ :=
  (List.range n).foldl (fun st i => body i st) s

/-- Modelled from the spec: the class `PsiBoundData` is declared in
`PsiData.hh`, which is not among the source files; by the data model it is a
dense array "indexed by (group, vertex-on-face, angle, side)", so an element
access `psiBound(group, fvrtx, angle, side)` is the application of a function
of the four indices. -/
abbrev PsiBoundData (α : Type) := Nat → Nat → Nat → Nat → α

/-- The assignment `psiBound(group, fvrtx, angle, side) = v`. -/
def PsiBoundData.set {α : Type} (p : PsiBoundData α) (group fvrtx angle side : Nat) (v : α) :
    PsiBoundData α :=
  fun g fv a s => if g = group ∧ fv = fvrtx ∧ a = angle ∧ s = side then v else p g fv a s

/-- The assignment `x[i] = v` through a raw pointer. -/
def store {α : Type} (x : Nat → α) (i : Nat) (v : α) : Nat → α :=
  fun j => if j = i then v else x j

/-- The test `adjCell == BOUNDARY_FACE && adjRank != BAD_RANK` of
`SweeperSchur.cc` ("on internal boundary"). -/
def TychoMesh.onInternalBoundary (m : TychoMesh) (cell face : Nat) : Bool :=
  decide (m.getAdjCell cell face = m.BOUNDARY_FACE) && decide (m.getAdjRank cell face ≠ m.BAD_RANK)

/-! ## Boundary serialization (`SweeperSchur.cc`) -/

/-- `psiBoundToVec(double *x, const PsiBoundData &psiBound)`: returns the
buffer after the writes together with the final `xArrayIndex`. -/
def psiBoundToVec {α : Type} (m : TychoMesh) (x : Nat → α) (psiBound : PsiBoundData α) :
    (Nat → α) × Nat :=
  forLoop m.nAngles (fun angle =>
  forLoop m.nCells (fun cell =>
  forLoop m.nGroups (fun group =>
  forLoop m.nFacePerCell (fun face st =>
    if m.isIncoming angle cell face then
      if m.onInternalBoundary cell face then
        forLoop m.nVrtxPerFace (fun fvrtx st =>
          (store st.1 st.2 (psiBound group fvrtx angle (m.getSide cell face)), st.2 + 1)) st
      else st
    else st)))) (x, 0)

/-- `vecToPsiBound(const double *x, PsiBoundData &psiBound)`: returns the
boundary field after the writes together with the final `xArrayIndex`. -/
def vecToPsiBound {α : Type} (m : TychoMesh) (x : Nat → α) (psiBound : PsiBoundData α) :
    PsiBoundData α × Nat :=
  forLoop m.nAngles (fun angle =>
  forLoop m.nCells (fun cell =>
  forLoop m.nGroups (fun group =>
  forLoop m.nFacePerCell (fun face st =>
    if m.isIncoming angle cell face then
      if m.onInternalBoundary cell face then
        forLoop m.nVrtxPerFace (fun fvrtx st =>
          (st.1.set group fvrtx angle (m.getSide cell face) (x st.2), st.2 + 1)) st
      else st
    else st)))) (psiBound, 0)

/-- `getVecSize()`. -/
def getVecSize (m : TychoMesh) : Nat :=
  forLoop m.nAngles (fun angle =>
  forLoop m.nCells (fun cell =>
  forLoop m.nGroups (fun _group =>
  forLoop m.nFacePerCell (fun face size =>
    if m.isIncoming angle cell face then
      if m.onInternalBoundary cell face then
        forLoop m.nVrtxPerFace (fun _fvrtx size => size + 1) size
      else size
    else size)))) 0

/-! ## Enumeration of the serialized positions -/

/-- A loop iteration of the serialization that reaches the innermost body:
`(angle, cell, group, face, fvrtx)`. -/
abbrev Tuple := Nat × Nat × Nat × Nat × Nat

/-- The iterations `(angle, cell, group, face, fvrtx)` that pass both tests,
in the order the nested loops visit them. -/
def boundaryTuples (m : TychoMesh) : List Tuple :=
  (List.range m.nAngles).flatMap fun angle =>
  (List.range m.nCells).flatMap fun cell =>
  (List.range m.nGroups).flatMap fun group =>
  (List.range m.nFacePerCell).flatMap fun face =>
    if m.isIncoming angle cell face && m.onInternalBoundary cell face then
      (List.range m.nVrtxPerFace).map fun fvrtx => (angle, cell, group, face, fvrtx)
    else []

/-- The `psiBound` index `(group, fvrtx, angle, side)` an iteration touches. -/
def TychoMesh.slotOf (m : TychoMesh) (t : Tuple) : Nat × Nat × Nat × Nat :=
  (t.2.2.1, t.2.2.2.2, t.1, m.getSide t.2.1 t.2.2.2.1)

/-- Read a boundary field at a packed index. -/
def PsiBoundData.get {α : Type} (p : PsiBoundData α) (k : Nat × Nat × Nat × Nat) : α :=
  p k.1 k.2.1 k.2.2.1 k.2.2.2

/-- Write a boundary field at a packed index. -/
def PsiBoundData.setAt {α : Type} (p : PsiBoundData α) (k : Nat × Nat × Nat × Nat) (v : α) :
    PsiBoundData α :=
  p.set k.1 k.2.1 k.2.2.1 k.2.2.2 v

/-- The `(angle, cell, face)` triples that are incoming on an inter-partition
boundary face, in loop order. -/
def boundaryTriples (m : TychoMesh) : List (Nat × Nat × Nat) :=
  (List.range m.nAngles).flatMap fun angle =>
  (List.range m.nCells).flatMap fun cell =>
  ((List.range m.nFacePerCell).filter fun face =>
    m.isIncoming angle cell face && m.onInternalBoundary cell face).map fun face =>
      (angle, cell, face)

/-- The number `N` of `(angle, cell, face)` triples, within the loop bounds,
that are incoming with `adjCell == BOUNDARY_FACE` and `adjRank != BAD_RANK`. -/
def numBoundaryTriples (m : TychoMesh) : Nat :=
  ((Finset.range m.nAngles ×ˢ Finset.range m.nCells ×ˢ Finset.range m.nFacePerCell).filter
    fun t => m.isIncoming t.1 t.2.1 t.2.2 = true ∧
      m.getAdjCell t.2.1 t.2.2 = m.BOUNDARY_FACE ∧ m.getAdjRank t.2.1 t.2.2 ≠ m.BAD_RANK).card

/-- Distinct inter-partition boundary `(cell, face)` pairs have distinct side
ids. -/
def TychoMesh.DistinctSides (m : TychoMesh) : Prop :=
  ∀ c < m.nCells, ∀ f < m.nFacePerCell, ∀ c' < m.nCells, ∀ f' < m.nFacePerCell,
    m.onInternalBoundary c f = true → m.onInternalBoundary c' f' = true →
    m.getSide c f = m.getSide c' f' → c = c' ∧ f = f'

/-- The mesh has no inter-partition boundary face. -/
def TychoMesh.NoInternalBoundary (m : TychoMesh) : Prop :=
  ∀ c < m.nCells, ∀ f < m.nFacePerCell,
    ¬ (m.getAdjCell c f = m.BOUNDARY_FACE ∧ m.getAdjRank c f ≠ m.BAD_RANK)

instance TychoMesh.decidableDistinctSides (m : TychoMesh) : Decidable m.DistinctSides := by
  unfold TychoMesh.DistinctSides
  set_option synthInstance.maxSize 1000 in
  set_option synthInstance.maxHeartbeats 200000 in
  infer_instance

instance TychoMesh.decidableNoInternalBoundary (m : TychoMesh) :
    Decidable m.NoInternalBoundary := by
  unfold TychoMesh.NoInternalBoundary; infer_instance

/-- A two-cell rank: face 1 of cell 0 and face 0 of cell 1 are shared with
rank 1 and rank 2, face 0 of cell 0 is on the physical boundary, face 1 of
cell 1 is interior.  Face `f` is incoming for angle `a` when `a + f` is even. -/
def exampleMesh : TychoMesh where
  nAngles := 2
  nCells := 2
  nGroups := 2
  nFacePerCell := 2
  nVrtxPerFace := 2
  nVrtxPerCell := 3
  BOUNDARY_FACE := 18446744073709551615
  BAD_RANK := 18446744073709551615
  isIncoming := fun a _ f => (a + f) % 2 == 0
  isOutgoing := fun a _ f => (a + f) % 2 == 1
  getAdjCell := fun c f => if c = 1 ∧ f = 1 then 0 else 18446744073709551615
  getAdjRank := fun c f =>
    if c = 0 ∧ f = 1 then 1 else if c = 1 ∧ f = 0 then 2 else 18446744073709551615
  getSide := fun c f => 2 * c + f
  getLGSide := fun s => s + 100
  getGLSide := fun g => g - 100

/-- A single-rank mesh: every boundary face is a physical one. -/
def serialMesh : TychoMesh :=
  { exampleMesh with getAdjRank := fun _ _ => 18446744073709551615 }

/-- All tuples `(angle, cell, group, face, fvrtx)` within the loop bounds. -/
def allTuples (m : TychoMesh) : List Tuple :=
  List.product (List.range m.nAngles) (List.product (List.range m.nCells)
    (List.product (List.range m.nGroups) (List.product (List.range m.nFacePerCell)
      (List.range m.nVrtxPerFace))))

/-- The lexicographic order on tuples `(angle, cell, group, face, fvrtx)`. -/
def tupleLt (s t : Tuple) : Prop :=
  s.1 < t.1 ∨ (s.1 = t.1 ∧ (s.2.1 < t.2.1 ∨ (s.2.1 = t.2.1 ∧ (s.2.2.1 < t.2.2.1 ∨
    (s.2.2.1 = t.2.2.1 ∧ (s.2.2.2.1 < t.2.2.2.1 ∨
      (s.2.2.2.1 = t.2.2.2.1 ∧ s.2.2.2.2 < t.2.2.2.2)))))))

/-- The `(angle, cell, face)` of the tuple is incoming with
`adjCell == BOUNDARY_FACE` and `adjRank != BAD_RANK`. -/
def TychoMesh.serialized (m : TychoMesh) (t : Tuple) : Bool :=
  m.isIncoming t.1 t.2.1 t.2.2.2.1 && m.onInternalBoundary t.2.1 t.2.2.2.1

/-- The tuples of the canonical order: all tuples in lexicographically
increasing order, those kept whose `(angle, cell, face)` is serialized. -/
def canonicalTuples (m : TychoMesh) : List Tuple :=
  (allTuples m).filter m.serialized

/-- One write of `psiBoundToVec`: `x[xArrayIndex] = psiBound(..); xArrayIndex++`. -/
def toVecStep {α : Type} (m : TychoMesh) (p : PsiBoundData α) (st : (Nat → α) × Nat) (t : Tuple) :
    (Nat → α) × Nat :=
  (store st.1 st.2 (p.get (m.slotOf t)), st.2 + 1)

/-- One write of `vecToPsiBound`: `psiBound(..) = x[xArrayIndex]; xArrayIndex++`. -/
def fromVecStep {α : Type} (m : TychoMesh) (x : Nat → α) (st : PsiBoundData α × Nat) (t : Tuple) :
    PsiBoundData α × Nat :=
  (st.1.setAt (m.slotOf t) (x st.2), st.2 + 1)

/-! ## The Schur operators (`SweeperSchur.cc`) -/

/-- Modelled from the spec: the class `PsiData` is declared in `PsiData.hh`,
which is not among the source files; by the data model it is a dense array
"indexed by (vertex-within-cell, angle, cell, energy-group)". -/
abbrev PsiData (α : Type) := Nat → Nat → Nat → Nat → α

/-- Modelled from the spec: `setToValue` is a member of `PsiData` and
`PsiBoundData` (`PsiData.hh`, not among the source files); `setToValue(0.0)`
is how the operator is to "reset the volumetric source to zero", so
`setToValue(v)` gives every entry the value `v`. -/
def setToValue {α : Type} (v : α) : Nat → Nat → Nat → Nat → α := fun _ _ _ _ => v

/-- What the pointers of `struct SchurData` refer to.  `world` stands for
everything behind `commSides`, `priorities` and `sweeperSchurOuter` that the
external calls may read or change (exchange metadata, message-passing layer). -/
structure SchurData (α W : Type) where
  world : W
  psi : PsiData α
  psiBound : PsiBoundData α
  source : PsiData α
  sourceIts : List Nat

/-- The external collaborators called by the operators.  Each receives the
objects it is handed by reference and returns their new contents.
`traverseGraph` takes `(world, psi, source, psiBound)` (the source is passed
`const`), `commSides` takes `(world, psi, psiBound)`; `fixedPoint` and `krylov`
take `(world, psi, source, flag, psiBound)`, where `flag` is the fourth argument
of `SourceIteration::fixedPoint` and `SourceIteration::krylov` and the boundary
field is reached through the sweeper they are handed. -/
structure Collaborators (α W : Type) where
  traverseGraph : W → PsiData α → PsiData α → PsiBoundData α → W × PsiData α × PsiBoundData α
  commSides : W → PsiData α → PsiBoundData α → W × PsiData α × PsiBoundData α
  fixedPoint : W → PsiData α → PsiData α → Bool → PsiBoundData α →
    Nat × W × PsiData α × PsiBoundData α
  krylov : W → PsiData α → PsiData α → Bool → PsiBoundData α →
    Nat × W × PsiData α × PsiBoundData α
  useSourceIteration : Bool

/-- The loop `for (i = 0; i < vecSize; i++) b[i] = x[i] - b[i];`. -/
def residualLoop {α : Type} [Sub α] (vecSize : Nat) (x b : Nat → α) : Nat → α :=
  forLoop vecSize (fun i b => store b i (x i - b i)) b

/-- `Schur`, up to and including the call of `commSides`: deserialize `x`,
`traverseGraph`, `commSides`. -/
def schurExchange {α W : Type} (m : TychoMesh) (env : Collaborators α W) (x : Nat → α)
    (data : SchurData α W) : SchurData α W :=
  let psiBound1 := (vecToPsiBound m x data.psiBound).1
  let swept := env.traverseGraph data.world data.psi data.source psiBound1
  let exchanged := env.commSides swept.1 swept.2.1 swept.2.2
  { data with world := exchanged.1, psi := exchanged.2.1, psiBound := exchanged.2.2 }

/-- `Schur(const double *x, double *b, void *voidData)`: returns the buffer
`b` and the data after the call. -/
def Schur {α W : Type} [Sub α] (m : TychoMesh) (env : Collaborators α W) (x b : Nat → α)
    (data : SchurData α W) : (Nat → α) × SchurData α W :=
  let data1 := schurExchange m env x data
  let b1 := (psiBoundToVec m b data1.psiBound).1
  let vecSize := getVecSize m
  (residualLoop vecSize x b1, data1)

/-- `SchurOuter`, up to and including the call of `commSides`: deserialize
`x`, zero the source, run the inner source iteration, record its count,
`commSides`. -/
def schurOuterExchange {α W : Type} [Zero α] (m : TychoMesh) (env : Collaborators α W)
    (x : Nat → α) (data : SchurData α W) : SchurData α W :=
  let psiBound1 := (vecToPsiBound m x data.psiBound).1
  let source1 : PsiData α := setToValue 0
  let inner :=
    if env.useSourceIteration then env.fixedPoint data.world data.psi source1 true psiBound1
    else env.krylov data.world data.psi source1 true psiBound1
  let sourceIts1 := data.sourceIts ++ [inner.1]
  let exchanged := env.commSides inner.2.1 inner.2.2.1 inner.2.2.2
  { world := exchanged.1, psi := exchanged.2.1, psiBound := exchanged.2.2,
    source := source1, sourceIts := sourceIts1 }

/-- `SchurOuter(const double *x, double *b, void *voidData)`. -/
def SchurOuter {α W : Type} [Zero α] [Sub α] (m : TychoMesh) (env : Collaborators α W)
    (x b : Nat → α) (data : SchurData α W) : (Nat → α) × SchurData α W :=
  let data1 := schurOuterExchange m env x data
  let b1 := (psiBoundToVec m b data1.psiBound).1
  (residualLoop (getVecSize m) x b1, data1)

/-- Collaborators for the examples: the sweep adds one to every boundary
value, the exchange doubles it, the inner iterations add one and report 3 or 5
sweeps. -/
def exampleCollaborators : Collaborators Int Unit where
  traverseGraph := fun w psi _ pb => (w, psi, fun g v a s => pb g v a s + 1)
  commSides := fun w psi pb => (w, psi, fun g v a s => 2 * pb g v a s)
  fixedPoint := fun w psi _ _ pb => (3, w, psi, fun g v a s => pb g v a s + 1)
  krylov := fun w psi _ _ pb => (5, w, psi, fun g v a s => pb g v a s + 1)
  useSourceIteration := true

/-- Operator data for the examples. -/
def exampleData : SchurData Int Unit where
  world := ()
  psi := setToValue 0
  psiBound := setToValue 0
  source := setToValue 0
  sourceIts := []

/-- One invocation of the inner source iteration as a log records it: which
routine ran, the source and the flag it was given, and the count it returned. -/
structure InnerCall (α : Type) where
  usedFixedPoint : Bool
  source : PsiData α
  flag : Bool
  its : Nat

/-- The same collaborators with a log added to the world: every invocation of
`fixedPoint` or `krylov` appends one `InnerCall`; nothing else touches the
log. -/
def Collaborators.logged {α W : Type} (env : Collaborators α W) :
    Collaborators α (W × List (InnerCall α)) where
  traverseGraph := fun w psi source pb =>
    let r := env.traverseGraph w.1 psi source pb
    ((r.1, w.2), r.2.1, r.2.2)
  commSides := fun w psi pb =>
    let r := env.commSides w.1 psi pb
    ((r.1, w.2), r.2.1, r.2.2)
  fixedPoint := fun w psi source flag pb =>
    let r := env.fixedPoint w.1 psi source flag pb
    (r.1, (r.2.1, w.2 ++ [InnerCall.mk true source flag r.1]), r.2.2.1, r.2.2.2)
  krylov := fun w psi source flag pb =>
    let r := env.krylov w.1 psi source flag pb
    (r.1, (r.2.1, w.2 ++ [InnerCall.mk false source flag r.1]), r.2.2.1, r.2.2.2)
  useSourceIteration := env.useSourceIteration

/-- Successive applications of `SchurOuter`, one for each pair `(x, b)` of
input and output buffer, in list order: the operator data after the last. -/
def schurOuterRun {α W : Type} [Zero α] [Sub α] (m : TychoMesh) (env : Collaborators α W)
    (inputs : List ((Nat → α) × (Nat → α))) (data : SchurData α W) : SchurData α W :=
  inputs.foldl (fun d xb => (SchurOuter m env xb.1 xb.2 d).2) data

/-- The sweep-then-exchange step of `Schur` as a map on the boundary field:
the field `commSides` leaves when `traverseGraph` starts from the field `pb`,
with the world, `psi` and source of `data`. -/
def sweepThenExchange {α W : Type} (env : Collaborators α W) (data : SchurData α W)
    (pb : PsiBoundData α) : PsiBoundData α :=
  let swept := env.traverseGraph data.world data.psi data.source pb
  (env.commSides swept.1 swept.2.1 swept.2.2).2.2

/-- The sweep-then-exchange step acts as a linear map on the boundary
field. -/
def LinearOnBoundary {α W : Type} [Add α] [Mul α] (env : Collaborators α W)
    (data : SchurData α W) : Prop :=
  ∀ (a b : α) (p q : PsiBoundData α),
    sweepThenExchange env data (fun g v n s => a * p g v n s + b * q g v n s) =
      fun g v n s =>
        a * sweepThenExchange env data p g v n s + b * sweepThenExchange env data q g v n s

/-- The boundary field is zero at every slot that `vecToPsiBound` does not
write. -/
def ZeroOffSlots {α : Type} [Zero α] (m : TychoMesh) (pb : PsiBoundData α) : Prop :=
  ∀ k : Nat × Nat × Nat × Nat, (∀ t ∈ boundaryTuples m, m.slotOf t ≠ k) → pb.get k = 0

/-- Collaborators whose sweep copies the boundary value of side 99, a side
the example mesh does not serialize, into every slot; the exchange changes
nothing. -/
def offSlotCollaborators : Collaborators Int Unit where
  traverseGraph := fun w psi _ pb => (w, psi, fun _ _ _ _ => pb 0 0 0 99)
  commSides := fun w psi pb => (w, psi, pb)
  fixedPoint := fun w psi _ _ pb => (1, w, psi, pb)
  krylov := fun w psi _ _ pb => (1, w, psi, pb)
  useSourceIteration := true

/-- Operator data whose boundary field holds 1 everywhere. -/
def offSlotData : SchurData Int Unit :=
  { exampleData with psiBound := setToValue 1 }

/-- Collaborators whose sweep triples and whose exchange doubles every
boundary value. -/
def linearCollaborators : Collaborators Int Unit where
  traverseGraph := fun w psi _ pb => (w, psi, fun g v n s => 3 * pb g v n s)
  commSides := fun w psi pb => (w, psi, fun g v n s => 2 * pb g v n s)
  fixedPoint := fun w psi _ _ pb => (1, w, psi, pb)
  krylov := fun w psi _ _ pb => (1, w, psi, pb)
  useSourceIteration := true

/-! ## The plain driver `SweeperSchur::sweep` (`SweeperSchur.cc`) -/

/-- What `KrylovSolver::solve()` leaves behind: the vectors `x` and `b`, the
iteration count, the residual norm, and the operator data after the operator
applications it made. -/
structure KrylovResult (α W : Type) where
  x : Nat → α
  b : Nat → α
  its : Nat
  rnorm : α
  data : SchurData α W

/-- The external Krylov solver: `solve` receives the operator bound at
construction, the vectors `x` (initial guess) and `b` (right-hand side) and the
operator data set with `setData`. -/
structure KrylovSolver (α W : Type) where
  solve : ((Nat → α) → (Nat → α) → SchurData α W → (Nat → α) × SchurData α W) →
    (Nat → α) → (Nat → α) → SchurData α W → KrylovResult α W

/-- The members of a `SweeperSchur` object that `sweep` uses: `world` stands
for `c_commSides` and the message-passing layer, `krylovX` and `krylovB` for
the vectors held by `c_krylovSolver`. -/
structure SweeperSchur (α W : Type) where
  c_psiBoundPrev : PsiBoundData α
  c_iters : Nat
  world : W
  krylovX : Nat → α
  krylovB : Nat → α

/-- The result of one call of `SweeperSchur::sweep`: the object and `psi`
after the call, and the vectors the call handed to and got from the solver. -/
structure SweepOutcome (α W : Type) where
  self : SweeperSchur α W
  psi : PsiData α
  initialGuess : Nat → α
  rhs : Nat → α
  solution : Nat → α
  its : Nat

/-- `SweeperSchur::sweep(PsiData &psi, const PsiData &source)`. -/
def SweeperSchur.sweep {α W : Type} [Zero α] [Sub α] (m : TychoMesh)
    (env : Collaborators α W) (ks : KrylovSolver α W) (self : SweeperSchur α W)
    (psi source : PsiData α) : SweepOutcome α W :=
  let zeroSource : PsiData α := setToValue 0
  let x := (psiBoundToVec m self.krylovX self.c_psiBoundPrev).1
  let psiBound : PsiBoundData α := setToValue 0
  let swept := env.traverseGraph self.world psi source psiBound
  let exchanged := env.commSides swept.1 swept.2.1 swept.2.2
  let b := (psiBoundToVec m self.krylovB exchanged.2.2).1
  let data : SchurData α W :=
    { world := exchanged.1, psi := exchanged.2.1, psiBound := exchanged.2.2,
      source := zeroSource, sourceIts := [] }
  let res := ks.solve (Schur m env) x b data
  let its := res.its
  let psiBound := (vecToPsiBound m res.x res.data.psiBound).1
  let psiBoundPrev := (vecToPsiBound m res.x self.c_psiBoundPrev).1
  let final := env.traverseGraph res.data.world res.data.psi source psiBound
  { self :=
      { c_psiBoundPrev := psiBoundPrev, c_iters := self.c_iters + (2 + its),
        world := final.1, krylovX := res.x, krylovB := res.b }
    psi := final.2.1
    initialGuess := x
    rhs := b
    solution := res.x
    its := its }

/-- A solver for the examples: one operator application, then the solution
`x[i] = b[i] + 3 * i`. -/
def exampleSolver : KrylovSolver Int Unit where
  solve := fun op x b data =>
    { x := fun i => b i + 3 * i, b := b, its := 4, rnorm := 0, data := (op x b data).2 }

/-- A `SweeperSchur` object for the examples. -/
def exampleSweeper : SweeperSchur Int Unit where
  c_psiBoundPrev := setToValue 0
  c_iters := 0
  world := ()
  krylovX := fun _ => 0
  krylovB := fun _ => 0

/-! ## The plain driver `SweeperSchur::solve` (`SweeperSchur.cc`) -/

/-- What an external source iteration does with the sweeper it is handed: a
finite sequence of calls `sweeper->sweep(psi, source)`, each next step chosen
from the `psi` the call left behind. -/
inductive SweepCalls (α : Type) where
  | done : SweepCalls α
  | call (psi source : PsiData α) (next : PsiData α → SweepCalls α) : SweepCalls α

/-- The external `SourceIteration` of the plain driver: the sweep calls
`fixedPoint(this, psi, source)` and `krylov(this, psi, source)` make, and the
problem source `getProblemSource` yields. -/
structure SourceIteration (α : Type) where
  getProblemSource : PsiData α
  fixedPoint : PsiData α → PsiData α → SweepCalls α
  krylov : PsiData α → PsiData α → SweepCalls α

/-- The sweep calls of a source iteration run on a `SweeperSchur` object:
the object after the last call and the Krylov iteration count of every call,
in call order. -/
def SweeperSchur.runCalls {α W : Type} [Zero α] [Sub α] (m : TychoMesh)
    (env : Collaborators α W) (ks : KrylovSolver α W) :
    SweepCalls α → SweeperSchur α W → SweeperSchur α W × List Nat
  | .done, self => (self, [])
  | .call psi source next, self =>
    let o := SweeperSchur.sweep m env ks self psi source
    let r := SweeperSchur.runCalls m env ks (next o.psi) o.self
    (r.1, o.its :: r.2)

/-- `SweeperSchur::solve()`: `freshX` and `freshB` are the vectors of the
newly created `KrylovSolver`.  Returns the object after the solve, whose
`c_iters` is the printed total, and the Krylov iteration counts of the sweep
calls made. -/
def SweeperSchur.solve {α W : Type} [Zero α] [Sub α] (m : TychoMesh)
    (env : Collaborators α W) (ks : KrylovSolver α W) (si : SourceIteration α)
    (freshX freshB : Nat → α) (self : SweeperSchur α W) : SweeperSchur α W × List Nat :=
  let self := { self with krylovX := freshX, krylovB := freshB }
  let self := { self with c_iters := 0 }
  let c_source := si.getProblemSource
  let c_psi : PsiData α := setToValue 0
  if env.useSourceIteration then
    SweeperSchur.runCalls m env ks (si.fixedPoint c_psi c_source) self
  else
    SweeperSchur.runCalls m env ks (si.krylov c_psi c_source) self

/-- A source iteration for the examples: `fixedPoint` sweeps three times,
`krylov` twice. -/
def exampleSourceIteration : SourceIteration Int where
  getProblemSource := setToValue 1
  fixedPoint := fun psi source =>
    .call psi source fun psi => .call psi source fun psi => .call psi source fun _ => .done
  krylov := fun psi source => .call psi source fun psi => .call psi source fun _ => .done

/-! ## Packets of `commSides` (`SweeperSchurBoundary.cc`) -/

/-- A `char` of a send or receive buffer. -/
abbrev Byte := Nat

/-- `struct MetaData` of the packet lists. -/
structure MetaData where
  gSide : Nat
  angle : Nat
  cell : Nat
  face : Nat
deriving DecidableEq

/-- `sizeof(UINT)`: `UINT` is a 64-bit unsigned integer (`SweeperSchur.cc`
initialises a `UINT` with `std::numeric_limits<uint64_t>::max()` and prints
`UINT` values with `PRIu64`). -/
def sizeofUINT : Nat := 8

/-- The low `n` bytes of `v`, least significant first. -/
def bytesLE : Nat → Nat → List Byte
  | 0, _ => []
  | n + 1, v => v % 256 :: bytesLE n (v / 256)

/-- The number whose bytes, least significant first, are `bs`. -/
def valueLE : List Byte → Nat
  | [] => 0
  | b :: bs => b + 256 * valueLE bs

/-- The bytes `memcpy(ptr, &v, sizeof(UINT))` copies: the object
representation of the `UINT` `v` (its value modulo `2 ^ 64`), which sender and
receiver share. -/
def encodeUINT (v : Nat) : List Byte := bytesLE sizeofUINT v

/-- The `UINT` that `memcpy(&v, ptr, sizeof(UINT))` leaves in `v`. -/
def decodeUINT (bs : List Byte) : Nat := valueLE bs

/-- `memcpy(&buf[off], src, src.size())` into a `std::vector<char>`; `none`
when the destination range leaves the vector. -/
def memcpy (buf : List Byte) (off : Nat) (src : List Byte) : Option (List Byte) :=
  if off + src.length ≤ buf.length then
    some (buf.take off ++ src ++ buf.drop (off + src.length))
  else none

/-- The `n` bytes of `buf` from offset `off` on. -/
def readBytes (buf : List Byte) (off n : Nat) : List Byte := (buf.drop off).take n

/-- The interface of `SweepDataSchur` used by `commSides`, over the state `σ`
of the flux fields it wraps.  `getData` yields a pointer (offset to byte);
`setSideData` receives the `getDataSize()` bytes its pointer argument
addresses. -/
structure SweepDataSchur (σ : Type) where
  getDataSize : Nat
  getData : σ → Nat → Nat → Nat → Nat → Byte
  setSideData : Nat → Nat → List Byte → σ → σ

/-- `packetSize = 2 * sizeof(UINT) + sweepData.getDataSize()`. -/
def packetSize {σ : Type} (sd : SweepDataSchur σ) : Nat := 2 * sizeofUINT + sd.getDataSize

/-- The `getDataSize()` bytes at `getData(cell, face, angle)` of a record. -/
def payload {σ : Type} (sd : SweepDataSchur σ) (st : σ) (r : MetaData) : List Byte :=
  (List.range sd.getDataSize).map (sd.getData st r.cell r.face r.angle)

/-- Body of the packing loop of `commSides` for one `metaDataIndex`. -/
def packRecord {σ : Type} (sd : SweepDataSchur σ) (st : σ) (md : List MetaData)
    (metaDataIndex : Nat) (buf : Option (List Byte)) : Option (List Byte) :=
  buf.bind fun buf =>
  (md[metaDataIndex]?).bind fun r =>
    let ptr := metaDataIndex * packetSize sd
    (memcpy buf ptr (encodeUINT r.gSide)).bind fun buf =>
    let ptr := ptr + sizeofUINT
    (memcpy buf ptr (encodeUINT r.angle)).bind fun buf =>
    let ptr := ptr + sizeofUINT
    memcpy buf ptr (payload sd st r)

/-- The packing loop of `commSides` over `sendMetaData[rankIndex]`. -/
def packSendBuffer {σ : Type} (sd : SweepDataSchur σ) (st : σ) (md : List MetaData)
    (buf : List Byte) : Option (List Byte) :=
  forLoop md.length (packRecord sd st md) (some buf)

/-- What the receive loop of `commSides` reads from packet `packetIndex`:
`(gSide, angle, payload bytes)`. -/
def unpackPacket {σ : Type} (sd : SweepDataSchur σ) (buf : List Byte) (packetIndex : Nat) :
    Nat × Nat × List Byte :=
  let ptr := packetIndex * packetSize sd
  let gSide := decodeUINT (readBytes buf ptr sizeofUINT)
  let ptr := ptr + sizeofUINT
  let angle := decodeUINT (readBytes buf ptr sizeofUINT)
  let ptr := ptr + sizeofUINT
  (gSide, angle, readBytes buf ptr sd.getDataSize)

/-- The "Process Data" loop of `commSides` on one received buffer. -/
def processRecvBuffer {σ : Type} (m : TychoMesh) (sd : SweepDataSchur σ) (buf : List Byte)
    (st : σ) : σ :=
  let numPackets := buf.length / packetSize sd
  forLoop numPackets (fun packetIndex st =>
    let p := unpackPacket sd buf packetIndex
    let side := m.getGLSide p.1
    sd.setSideData side p.2.1 p.2.2 st) st

/-- The packets the receive loop unpacks from a buffer, in order. -/
def receivedPackets {σ : Type} (sd : SweepDataSchur σ) (buf : List Byte) :
    List (Nat × Nat × List Byte) :=
  (List.range (buf.length / packetSize sd)).map (unpackPacket sd buf)

/-- The bytes of one packet: `gSide`, then `angle`, then the payload. -/
def packetBytes {σ : Type} (sd : SweepDataSchur σ) (st : σ) (r : MetaData) : List Byte :=
  encodeUINT r.gSide ++ encodeUINT r.angle ++ payload sd st r

/-! ## The exchange `commSides` (`SweeperSchurBoundary.cc`) -/

/-- The transport primitives `commSides` calls. -/
inductive MpiCall where
  | Irecv (rankIndex : Nat)
  | Isend (rankIndex : Nat)
  | Waitany
  | Waitall
deriving DecidableEq

/-- The message-passing layer as one invocation of `commSides` observes it:
`code k` is the value returned by the `k`-th transport call of the invocation,
`waitIndex n` the index `MPI_Waitany` reports in iteration `numWaits = n`,
`recvByte i off` the byte at offset `off` of the message that arrives in
`dataToRecv[i]`. -/
structure Transport where
  code : Nat → Int
  waitIndex : Nat → Nat
  recvByte : Nat → Nat → Byte

/-- `MPI_SUCCESS`. -/
def MPI_SUCCESS : Int := 0

/-- How far an invocation of `commSides` got: still executing, aborted by
`Insist`, or past an out-of-range `memcpy` (behaviour undefined). -/
inductive Status where
  | running
  | aborted
  | undefined
deriving DecidableEq

/-- The local variables of `commSides`, the list of transport calls made so
far, and the sweep data. A request is `true` when it is not
`MPI_REQUEST_NULL`. -/
structure CommRun (σ : Type) where
  status : Status
  calls : List MpiCall
  numToRecv : Nat
  mpiRecvRequests : Nat → Bool
  mpiSendRequests : Nat → Bool
  dataToSend : Nat → List Byte
  dataToRecv : Nat → List Byte
  sweepData : σ

/-- Skip a statement once the process has stopped. -/
def whenRunning {σ : Type} (f : CommRun σ → CommRun σ) (r : CommRun σ) : CommRun σ :=
  match r.status with
  | .running => f r
  | _ => r

/-- Modelled from the spec: the macro `Insist` comes from `Assert.hh`, which is
not among the source files; by the failure policy of the exchange ("any
transport-primitive failure is fatal (process abort with diagnostic); there is
no retry") `Insist(cond, msg)` aborts the process when `cond` is false and has
no effect otherwise. -/
def Insist {σ : Type} (cond : Bool) (r : CommRun σ) : CommRun σ :=
  { r with status := if cond then r.status else .aborted }

/-- A transport call followed by `Insist(mpiError == MPI_SUCCESS, "")`. -/
def transportCall {σ : Type} (code : Nat → Int) (c : MpiCall) (r : CommRun σ) : CommRun σ :=
  let mpiError := code r.calls.length
  Insist (decide (mpiError = MPI_SUCCESS)) { r with calls := r.calls ++ [c] }

/-- The loop "Data structures to send/recv packets". -/
def resizePhase {σ : Type} (sd : SweepDataSchur σ) (numAdjRanks : Nat)
    (numSendPackets numRecvPackets : Nat → Nat) (r : CommRun σ) : CommRun σ :=
  forLoop numAdjRanks (fun rankIndex r =>
    { r with
      dataToSend := store r.dataToSend rankIndex
        (List.replicate (packetSize sd * numSendPackets rankIndex) 0)
      dataToRecv := store r.dataToRecv rankIndex
        (List.replicate (packetSize sd * numRecvPackets rankIndex) 0) }) r

/-- The loop "Irecv data". -/
def irecvPhase {σ : Type} (code : Nat → Int) (numAdjRanks : Nat) (r : CommRun σ) :
    CommRun σ :=
  forLoop numAdjRanks (fun rankIndex => whenRunning fun r =>
    if (r.dataToRecv rankIndex).length > 0 then
      let r := transportCall code (.Irecv rankIndex) r
      whenRunning (fun r =>
        { r with
          mpiRecvRequests := store r.mpiRecvRequests rankIndex true
          numToRecv := r.numToRecv + 1 }) r
    else
      { r with mpiRecvRequests := store r.mpiRecvRequests rankIndex false })
    { r with numToRecv := 0 }

/-- The loop "Update data to send and Isend it". -/
def isendPhase {σ : Type} (sd : SweepDataSchur σ) (code : Nat → Int) (numAdjRanks : Nat)
    (sendMetaData : Nat → List MetaData) (r : CommRun σ) : CommRun σ :=
  forLoop numAdjRanks (fun rankIndex => whenRunning fun r =>
    if (r.dataToSend rankIndex).length > 0 then
      match packSendBuffer sd r.sweepData (sendMetaData rankIndex) (r.dataToSend rankIndex) with
      | none => { r with status := .undefined }
      | some buf =>
        let r := { r with dataToSend := store r.dataToSend rankIndex buf }
        let r := transportCall code (.Isend rankIndex) r
        whenRunning (fun r =>
          { r with mpiSendRequests := store r.mpiSendRequests rankIndex true }) r
    else
      { r with mpiSendRequests := store r.mpiSendRequests rankIndex false }) r

/-- The content of `dataToRecv[rankIndex]`, of `size` bytes, once its receive
has completed. -/
def Transport.delivered (tr : Transport) (rankIndex size : Nat) : List Byte :=
  (List.range size).map (tr.recvByte rankIndex)

/-- One iteration of the loop "Get data from Irecv". -/
def waitanyStep {σ : Type} (m : TychoMesh) (sd : SweepDataSchur σ) (tr : Transport)
    (numWaits : Nat) (r : CommRun σ) : CommRun σ :=
  let r := transportCall tr.code .Waitany r
  whenRunning (fun r =>
    let rankIndex := tr.waitIndex numWaits
    let buf := tr.delivered rankIndex (r.dataToRecv rankIndex).length
    { r with
      dataToRecv := store r.dataToRecv rankIndex buf
      mpiRecvRequests := store r.mpiRecvRequests rankIndex false
      sweepData := processRecvBuffer m sd buf r.sweepData }) r

/-- The loop "Get data from Irecv". -/
def waitanyPhase {σ : Type} (m : TychoMesh) (sd : SweepDataSchur σ) (tr : Transport)
    (r : CommRun σ) : CommRun σ :=
  forLoop r.numToRecv (fun numWaits => whenRunning (waitanyStep m sd tr numWaits)) r

/-- The final "Wait on send to complete". -/
def waitallPhase {σ : Type} (code : Nat → Int) (numAdjRanks : Nat) (r : CommRun σ) :
    CommRun σ :=
  whenRunning (fun r =>
    if numAdjRanks > 0 then transportCall code .Waitall r else r) r

/-- `commSides(adjRanks, sendMetaData, numSendPackets, numRecvPackets,
sweepData)`. -/
def commSides {σ : Type} (m : TychoMesh) (sd : SweepDataSchur σ) (tr : Transport)
    (adjRanks : List Nat) (sendMetaData : Nat → List MetaData)
    (numSendPackets numRecvPackets : Nat → Nat) (st : σ) : CommRun σ :=
  let numAdjRanks := adjRanks.length
  let r : CommRun σ :=
    { status := .running, calls := [], numToRecv := 0,
      mpiRecvRequests := fun _ => false, mpiSendRequests := fun _ => false,
      dataToSend := fun _ => [], dataToRecv := fun _ => [], sweepData := st }
  let r := resizePhase sd numAdjRanks numSendPackets numRecvPackets r
  let r := irecvPhase tr.code numAdjRanks r
  let r := isendPhase sd tr.code numAdjRanks sendMetaData r
  let r := whenRunning (waitanyPhase m sd tr) r
  waitallPhase tr.code numAdjRanks r

/-- Every transport call made so far that returned a code other than
`MPI_SUCCESS` is the last call made, and the process aborted at it. -/
def FaultsFatal {σ : Type} (code : Nat → Int) (r : CommRun σ) : Prop :=
  ∀ k < r.calls.length, code k ≠ MPI_SUCCESS → r.status = .aborted ∧ r.calls.length = k + 1

/-- The size `commSides` gives `dataToRecv[rankIndex]`. -/
def recvSize {σ : Type} (sd : SweepDataSchur σ) (numAdjRanks : Nat) (numRecvPackets : Nat → Nat)
    (rankIndex : Nat) : Nat :=
  if rankIndex < numAdjRanks then packetSize sd * numRecvPackets rankIndex else 0

/-- The number of receives `commSides` posts: the neighbors with a non-empty
receive buffer. -/
def postedReceives {σ : Type} (sd : SweepDataSchur σ) (numAdjRanks : Nat)
    (numRecvPackets : Nat → Nat) : Nat :=
  ((List.range numAdjRanks).filter fun i =>
    decide (0 < recvSize sd numAdjRanks numRecvPackets i)).length

/-- The order in which `MPI_Waitany` reports the completed receives. -/
def completionOrder {σ : Type} (sd : SweepDataSchur σ) (tr : Transport) (numAdjRanks : Nat)
    (numRecvPackets : Nat → Nat) : List Nat :=
  (List.range (postedReceives sd numAdjRanks numRecvPackets)).map tr.waitIndex

/-- The packets that arrive from neighbor `rankIndex`. -/
def arrivingPackets {σ : Type} (sd : SweepDataSchur σ) (tr : Transport) (numAdjRanks : Nat)
    (numRecvPackets : Nat → Nat) (rankIndex : Nat) : List (Nat × Nat × List Byte) :=
  receivedPackets sd (tr.delivered rankIndex (recvSize sd numAdjRanks numRecvPackets rankIndex))

/-- Global side ids identify faces uniquely: no global side id arrives from two
distinct neighbors. -/
def DistinctGlobalSides {σ : Type} (sd : SweepDataSchur σ) (tr : Transport) (numAdjRanks : Nat)
    (numRecvPackets : Nat → Nat) : Prop :=
  ∀ i < numAdjRanks, ∀ j < numAdjRanks, i ≠ j →
    ∀ p ∈ arrivingPackets sd tr numAdjRanks numRecvPackets i,
    ∀ q ∈ arrivingPackets sd tr numAdjRanks numRecvPackets j, p.1 ≠ q.1

/-- The map `getGLSide` is injective on the global side ids that arrive. -/
def GLSideInjective {σ : Type} (m : TychoMesh) (sd : SweepDataSchur σ) (tr : Transport)
    (numAdjRanks : Nat) (numRecvPackets : Nat → Nat) : Prop :=
  ∀ i < numAdjRanks, ∀ j < numAdjRanks,
    ∀ p ∈ arrivingPackets sd tr numAdjRanks numRecvPackets i,
    ∀ q ∈ arrivingPackets sd tr numAdjRanks numRecvPackets j,
      m.getGLSide p.1 = m.getGLSide q.1 → p.1 = q.1

instance decidableDistinctGlobalSides {σ : Type} (sd : SweepDataSchur σ) (tr : Transport)
    (n : Nat) (nr : Nat → Nat) : Decidable (DistinctGlobalSides sd tr n nr) := by
  unfold DistinctGlobalSides; infer_instance

instance decidableGLSideInjective {σ : Type} (m : TychoMesh) (sd : SweepDataSchur σ)
    (tr : Transport) (n : Nat) (nr : Nat → Nat) : Decidable (GLSideInjective m sd tr n nr) := by
  unfold GLSideInjective; infer_instance

/-- Two calls of `setSideData` for different `(side, angle)` slots can be
exchanged: each writes its own slot only. -/
def SlotWritesCommute {σ : Type} (sd : SweepDataSchur σ) : Prop :=
  ∀ (side angle side' angle' : Nat) (d d' : List Byte) (st : σ),
    (side, angle) ≠ (side', angle') →
    sd.setSideData side' angle' d' (sd.setSideData side angle d st) =
      sd.setSideData side angle d (sd.setSideData side' angle' d' st)

/-- The records two neighbors of the example rank pack for it: the neighbor
at index 0 sends its outgoing data on global side 101, the one at index 1 on
global side 102. -/
def exampleArrivals (rankIndex : Nat) : List MetaData :=
  if rankIndex = 0 then [{ gSide := 101, angle := 1, cell := 5, face := 2 }]
  else [{ gSide := 102, angle := 0, cell := 7, face := 0 }]

/-- A transport layer for the examples: every call succeeds, the two
receives complete in index order, and the packets of `exampleArrivals`
arrive. -/
def exampleTransport : Transport where
  code := fun _ => 0
  waitIndex := fun n => n
  recvByte := fun i off =>
    ((exampleArrivals i).flatMap fun r =>
      encodeUINT r.gSide ++ encodeUINT r.angle ++ [r.cell + r.face, r.angle]).getD off 0

/-- A transport layer whose second call fails. -/
def faultyTransport : Transport :=
  { exampleTransport with code := fun k => if k = 1 then 5 else 0 }

/-- The state of `commSides` when the receive loop starts: buffers sized,
receives posted, sends packed and posted. -/
def afterSends {σ : Type} (sd : SweepDataSchur σ) (code : Nat → Int) (numAdjRanks : Nat)
    (sendMetaData : Nat → List MetaData) (numSendPackets numRecvPackets : Nat → Nat) (st : σ) :
    CommRun σ :=
  isendPhase sd code numAdjRanks sendMetaData
    (irecvPhase code numAdjRanks
      (resizePhase sd numAdjRanks numSendPackets numRecvPackets
        { status := .running, calls := [], numToRecv := 0,
          mpiRecvRequests := fun _ => false, mpiSendRequests := fun _ => false,
          dataToSend := fun _ => [], dataToRecv := fun _ => [], sweepData := st }))

/-- The same transport layer with the first `n` completions reported in the
opposite order. -/
def Transport.reversed (tr : Transport) (n : Nat) : Transport :=
  { tr with waitIndex := fun k => tr.waitIndex (n - 1 - k) }

/-! ## The build phase of `SweeperSchurBoundary::sweep` -/

/-- The loop "Get adjacent ranks". -/
def getAdjRanks (m : TychoMesh) : List Nat :=
  forLoop m.nCells (fun cell =>
  forLoop m.nFacePerCell (fun face adjRanks =>
    let adjRank := m.getAdjRank cell face
    let adjCell := m.getAdjCell cell face
    if adjCell = m.BOUNDARY_FACE ∧ adjRank ≠ m.BAD_RANK ∧ adjRanks.count adjRank = 0 then
      adjRanks ++ [adjRank]
    else adjRanks)) []

/-- The three vectors the build phase fills, indexed by `rankIndex`. -/
structure PacketLists where
  sendMetaData : Nat → List MetaData
  numSendPackets : Nat → Nat
  numRecvPackets : Nat → Nat

/-- The loop "Populate sendMetaData, numSendPackets, and numRecvPackets". -/
def buildPacketLists (m : TychoMesh) (adjRanks : List Nat) : PacketLists :=
  forLoop adjRanks.length (fun rankIndex pl =>
    let pl : PacketLists :=
      { pl with
        numSendPackets := store pl.numSendPackets rankIndex 0
        numRecvPackets := store pl.numRecvPackets rankIndex 0 }
    forLoop m.nCells (fun cell =>
    forLoop m.nFacePerCell (fun face pl =>
      let adjRank := m.getAdjRank cell face
      if some adjRank = adjRanks[rankIndex]? then
        forLoop m.nAngles (fun angle pl =>
          if m.isOutgoing angle cell face then
            let side := m.getSide cell face
            let md : MetaData :=
              { gSide := m.getLGSide side, angle := angle, cell := cell, face := face }
            { pl with
              sendMetaData := store pl.sendMetaData rankIndex (pl.sendMetaData rankIndex ++ [md])
              numSendPackets := store pl.numSendPackets rankIndex
                (pl.numSendPackets rankIndex + 1) }
          else
            { pl with
              numRecvPackets := store pl.numRecvPackets rankIndex
                (pl.numRecvPackets rankIndex + 1) }) pl
      else pl)) pl)
    { sendMetaData := fun _ => [], numSendPackets := fun _ => 0, numRecvPackets := fun _ => 0 }

/-- All `(cell, face, angle)` within the loop bounds, cell-major, then face,
then angle. -/
def cellFaceAngles (m : TychoMesh) : List (Nat × Nat × Nat) :=
  List.product (List.range m.nCells)
    (List.product (List.range m.nFacePerCell) (List.range m.nAngles))

/-- The record the build phase makes for `(cell, face, angle)`. -/
def TychoMesh.metaDataOf (m : TychoMesh) (t : Nat × Nat × Nat) : MetaData :=
  { gSide := m.getLGSide (m.getSide t.1 t.2.1), angle := t.2.2, cell := t.1, face := t.2.1 }

/-- The innermost body of the build phase for `rankIndex`, at one
`(cell, face, angle)`. -/
def buildStep (m : TychoMesh) (rankIndex : Nat) (pl : PacketLists) (t : Nat × Nat × Nat) :
    PacketLists :=
  if m.isOutgoing t.2.2 t.1 t.2.1 then
    { pl with
      sendMetaData := store pl.sendMetaData rankIndex
        (pl.sendMetaData rankIndex ++ [m.metaDataOf t])
      numSendPackets := store pl.numSendPackets rankIndex (pl.numSendPackets rankIndex + 1) }
  else
    { pl with
      numRecvPackets := store pl.numRecvPackets rankIndex (pl.numRecvPackets rankIndex + 1) }

/-- The body of the build phase for one `rankIndex`. -/
def buildRank (m : TychoMesh) (adjRanks : List Nat) (rankIndex : Nat) (pl : PacketLists) :
    PacketLists :=
  let pl : PacketLists :=
    { pl with
      numSendPackets := store pl.numSendPackets rankIndex 0
      numRecvPackets := store pl.numRecvPackets rankIndex 0 }
  forLoop m.nCells (fun cell =>
  forLoop m.nFacePerCell (fun face pl =>
    let adjRank := m.getAdjRank cell face
    if some adjRank = adjRanks[rankIndex]? then
      forLoop m.nAngles (fun angle pl => buildStep m rankIndex pl (cell, face, angle)) pl
    else pl)) pl

/-- Within the loop bounds the mesh reports a face as incoming for an angle
exactly when it does not report it as outgoing. -/
def TychoMesh.IncomingIffNotOutgoing (m : TychoMesh) : Prop :=
  ∀ c < m.nCells, ∀ f < m.nFacePerCell, ∀ a < m.nAngles,
    m.isIncoming a c f = !m.isOutgoing a c f

instance TychoMesh.decidableIncomingIffNotOutgoing (m : TychoMesh) :
    Decidable m.IncomingIffNotOutgoing := by
  unfold TychoMesh.IncomingIffNotOutgoing; infer_instance

/-- The three entries of the build-phase vectors at one `rankIndex`. -/
def PacketLists.entry (pl : PacketLists) (i : Nat) : List MetaData × Nat × Nat :=
  (pl.sendMetaData i, pl.numSendPackets i, pl.numRecvPackets i)

/-- A sweep-data interface for the examples: the state maps `(side, angle)`
to a payload of two bytes; a face's outgoing data is `cell + face` and
`angle`. -/
def exampleSweepData : SweepDataSchur (Nat → Nat → List Byte) where
  getDataSize := 2
  getData := fun _ cell face angle off => if off = 0 then cell + face else angle
  setSideData := fun side angle data st =>
    fun s a => if s = side ∧ a = angle then data else st s a

/-- A send list for the examples. -/
def exampleMetaData : List MetaData :=
  [{ gSide := 101, angle := 1, cell := 0, face := 1 },
   { gSide := 300, angle := 0, cell := 1, face := 0 }]

/-! ## The boundary vector of `SweeperSchurBoundary.cc` -/

/-- The test `adjCell == TychoMesh::BOUNDARY_FACE &&
g_spTychoMesh->isIncoming(angle, cell, face)` of `SweeperSchurBoundary.cc`. -/
def TychoMesh.onBoundaryIncoming (m : TychoMesh) (angle cell face : Nat) : Bool :=
  decide (m.getAdjCell cell face = m.BOUNDARY_FACE) && m.isIncoming angle cell face

/-- The assignment `psi(vertex, angle, cell, group) = v`. -/
def PsiData.set {α : Type} (psi : PsiData α) (vertex angle cell group : Nat) (v : α) :
    PsiData α :=
  fun vt a c g => if vt = vertex ∧ a = angle ∧ c = cell ∧ g = group then v else psi vt a c g

/-- Read a flux field at a packed index `(vertex, angle, cell, group)`. -/
def PsiData.get {α : Type} (psi : PsiData α) (k : Nat × Nat × Nat × Nat) : α :=
  psi k.1 k.2.1 k.2.2.1 k.2.2.2

/-- Write a flux field at a packed index `(vertex, angle, cell, group)`. -/
def PsiData.setAt {α : Type} (psi : PsiData α) (k : Nat × Nat × Nat × Nat) (v : α) :
    PsiData α :=
  psi.set k.1 k.2.1 k.2.2.1 k.2.2.2 v

/-- The loop "Get vec size" of `SweeperSchurBoundary::sweep`: the final
`VecSize`. -/
def SweeperSchurBoundary.vecSize (m : TychoMesh) : Nat :=
  forLoop m.nGroups (fun _group =>
  forLoop m.nCells (fun cell =>
  forLoop m.nFacePerCell (fun face =>
  forLoop m.nAngles (fun angle VecSize =>
    if m.onBoundaryIncoming angle cell face then
      forLoop m.nVrtxPerCell (fun _vertex VecSize => VecSize + 1) VecSize
    else VecSize)))) 0

/-- The loop "Input psi into XIn" of `SweeperSchurBoundary::sweep`: the array
`XIn` after the loop and the final `count`. -/
def SweeperSchurBoundary.inputXIn {α : Type} (m : TychoMesh) (XIn : Nat → α) (psi : PsiData α) :
    (Nat → α) × Nat :=
  forLoop m.nGroups (fun group =>
  forLoop m.nCells (fun cell =>
  forLoop m.nFacePerCell (fun face =>
  forLoop m.nAngles (fun angle st =>
    if m.onBoundaryIncoming angle cell face then
      forLoop m.nVrtxPerCell (fun vertex st =>
        let p := psi vertex angle cell group
        (store st.1 st.2 p, st.2 + 1)) st
    else st)))) (XIn, 0)

/-- The loop "Input source into tempb" of `SweeperSchurBoundary::sweep`: the
array `BIn` after the loop and the final `count`. -/
def SweeperSchurBoundary.inputBIn {α : Type} (m : TychoMesh) (BIn : Nat → α)
    (source : PsiData α) : (Nat → α) × Nat :=
  forLoop m.nGroups (fun group =>
  forLoop m.nCells (fun cell =>
  forLoop m.nFacePerCell (fun face =>
  forLoop m.nAngles (fun angle st =>
    if m.onBoundaryIncoming angle cell face then
      forLoop m.nVrtxPerCell (fun vertex st =>
        let pb := source vertex angle cell group
        (store st.1 st.2 pb, st.2 + 1)) st
    else st)))) (BIn, 0)

/-- The loop "Output the answer from temp to psi" of
`SweeperSchurBoundary::sweep`: `psi` after the loop and the final `count`. -/
def SweeperSchurBoundary.outputXOut {α : Type} (m : TychoMesh) (XOut : Nat → α)
    (psi : PsiData α) : PsiData α × Nat :=
  forLoop m.nGroups (fun group =>
  forLoop m.nCells (fun cell =>
  forLoop m.nFacePerCell (fun face =>
  forLoop m.nAngles (fun angle st =>
    if m.onBoundaryIncoming angle cell face then
      forLoop m.nVrtxPerCell (fun vertex st =>
        (st.1.set vertex angle cell group (XOut st.2), st.2 + 1)) st
    else st)))) (psi, 0)

/-- The array `Out` of the operator: `size` entries were allocated; `overrun`
records that a write `Out[count]` fell outside them. -/
structure OutArray (α : Type) where
  Out : Nat → α
  count : Nat
  overrun : Bool

/-- The loop "Take the values of s_psi from the sweep and put them in b" of
the operator `Schur` of `SweeperSchurBoundary.cc`, on an array `Out` of `size`
entries. -/
def SweeperSchurBoundary.takeOut {α : Type} (m : TychoMesh) (size : Nat) (Out : Nat → α)
    (s_psi : PsiData α) : OutArray α :=
  forLoop m.nGroups (fun group =>
  forLoop m.nCells (fun cell =>
  forLoop m.nFacePerCell (fun face =>
  forLoop m.nAngles (fun angle st =>
    if m.onBoundaryIncoming angle cell face then
      forLoop m.nVrtxPerCell (fun vertex (st : OutArray α) =>
        { Out := store st.Out st.count (s_psi vertex angle cell group)
          count := st.count + 1
          overrun := st.overrun || decide (size ≤ st.count) }) st
    else st)))) { Out := Out, count := 0, overrun := false }

/-- The iterations `(group, cell, face, angle, vertex)` of the five loops
that pass the test, in loop order. -/
def boundaryPositions (m : TychoMesh) : List Tuple :=
  (List.range m.nGroups).flatMap fun group =>
  (List.range m.nCells).flatMap fun cell =>
  (List.range m.nFacePerCell).flatMap fun face =>
  (List.range m.nAngles).flatMap fun angle =>
    if m.onBoundaryIncoming angle cell face then
      (List.range m.nVrtxPerCell).map fun vertex => (group, cell, face, angle, vertex)
    else []

/-- The `psi` index `(vertex, angle, cell, group)` an iteration
`(group, cell, face, angle, vertex)` touches. -/
def positionOf (t : Tuple) : Nat × Nat × Nat × Nat :=
  (t.2.2.2.2, t.2.2.2.1, t.2.1, t.1)

/-- The number of `(cell, face, angle)` triples, within the loop bounds, with
`adjCell == BOUNDARY_FACE` that are incoming, whatever their `adjRank`. -/
def numBoundaryIncoming (m : TychoMesh) : Nat :=
  (cellFaceAngles m).countP fun t => m.onBoundaryIncoming t.2.2 t.1 t.2.1

/-- One gathering step: `array[count] = field(position); count++`. -/
def gatherStep {α : Type} (field : PsiData α) (st : (Nat → α) × Nat) (t : Tuple) :
    (Nat → α) × Nat :=
  (store st.1 st.2 (field.get (positionOf t)), st.2 + 1)

/-- One scattering step: `psi(position) = array[count]; count++`. -/
def scatterStep {α : Type} (array : Nat → α) (st : PsiData α × Nat) (t : Tuple) :
    PsiData α × Nat :=
  (st.1.setAt (positionOf t) (array st.2), st.2 + 1)

/-- One step of the `Out` loop. -/
def takeOutStep {α : Type} (size : Nat) (s_psi : PsiData α) (st : OutArray α) (t : Tuple) :
    OutArray α :=
  { Out := store st.Out st.count (s_psi.get (positionOf t))
    count := st.count + 1
    overrun := st.overrun || decide (size ≤ st.count) }

/-- No cell has two faces with `adjCell == BOUNDARY_FACE` that are incoming
for the same angle. -/
def TychoMesh.OneIncomingBoundaryFace (m : TychoMesh) : Prop :=
  ∀ c < m.nCells, ∀ a < m.nAngles, ∀ f < m.nFacePerCell, ∀ f' < m.nFacePerCell,
    m.onBoundaryIncoming a c f = true → m.onBoundaryIncoming a c f' = true → f = f'

instance TychoMesh.decidableOneIncomingBoundaryFace (m : TychoMesh) :
    Decidable m.OneIncomingBoundaryFace := by
  unfold TychoMesh.OneIncomingBoundaryFace
  set_option synthInstance.maxSize 1000 in
  set_option synthInstance.maxHeartbeats 200000 in
  infer_instance

/-- A one-cell mesh at a corner of the domain: both faces of the cell are
physical boundary faces and both are incoming for the single angle. -/
def cornerMesh : TychoMesh where
  nAngles := 1
  nCells := 1
  nGroups := 1
  nFacePerCell := 2
  nVrtxPerFace := 1
  nVrtxPerCell := 1
  BOUNDARY_FACE := 18446744073709551615
  BAD_RANK := 18446744073709551615
  isIncoming := fun _ _ _ => true
  isOutgoing := fun _ _ _ => false
  getAdjCell := fun _ _ => 18446744073709551615
  getAdjRank := fun _ _ => 18446744073709551615
  getSide := fun _ f => f
  getLGSide := fun s => s
  getGLSide := fun g => g

/-! ## The operator `Schur` of `SweeperSchurBoundary.cc` -/

/-- The file-scope fields `s_psi`, `s_psiSource`, `s_psiBound` and
`s_sigmaTotal`, which `s_sweepData` wraps by reference. -/
structure SweepFields (α : Type) where
  s_psi : PsiData α
  s_psiSource : PsiData α
  s_psiBound : PsiData α
  s_sigmaTotal : α

/-- The file-scope `s_adjRanks`, `s_sendMetaData`, `s_numSendPackets` and
`s_numRecvPackets`. -/
structure PacketStatics where
  s_adjRanks : List Nat
  s_sendMetaData : Nat → List MetaData
  s_numSendPackets : Nat → Nat
  s_numRecvPackets : Nat → Nat

/-- What a call of the operator leaves behind: how it ended, the file-scope
fields, the array `Out` with the final `count`, and the vector `b`. -/
structure SchurRun (α : Type) where
  status : Status
  fields : SweepFields α
  Out : Nat → α
  count : Nat
  b : Nat → α

/-- The operator `Schur(Mat mat, Vec x, Vec b)` of `SweeperSchurBoundary.cc`.
`size` and `In` are the local size and the array of `x`, `Out0` the content of
the freshly allocated `Out`, `fields` the file-scope fields at the call;
`traverseGraph` is external.  The status is `undefined` when a write
`Out[count]` fell outside the `size` entries of `Out`. -/
def SweeperSchurBoundary.Schur {α : Type} [Sub α] (m : TychoMesh)
    (sd : SweepDataSchur (SweepFields α)) (tr : Transport)
    (traverseGraph : SweepFields α → SweepFields α) (s : PacketStatics)
    (size : Nat) (In Out0 b : Nat → α) (fields : SweepFields α) : SchurRun α :=
  let swept := traverseGraph fields
  let exchanged := commSides m sd tr s.s_adjRanks s.s_sendMetaData s.s_numSendPackets
    s.s_numRecvPackets swept
  match exchanged.status with
  | .running =>
    let out := SweeperSchurBoundary.takeOut m size Out0 exchanged.sweepData.s_psi
    { status := if out.overrun then .undefined else .running
      fields := exchanged.sweepData
      Out := out.Out
      count := out.count
      b := if out.overrun then b else
        forLoop out.count (fun ind b =>
          let tempOut := In ind - out.Out ind
          store b ind tempOut) b }
  | stopped =>
    { status := stopped, fields := exchanged.sweepData, Out := Out0, count := 0, b := b }

/-- What the operator would return if it deserialized `x` into the flux field
before the sweep: `x - serialize(S(deserialize(x)))`, with the write-back and
read enumerations of `SweeperSchurBoundary::sweep`. -/
def residualOfGuess {α : Type} [Sub α] (m : TychoMesh)
    (sd : SweepDataSchur (SweepFields α)) (tr : Transport)
    (traverseGraph : SweepFields α → SweepFields α) (s : PacketStatics)
    (In Out0 : Nat → α) (fields : SweepFields α) (ind : Nat) : α :=
  let guess := { fields with s_psi := (SweeperSchurBoundary.outputXOut m In fields.s_psi).1 }
  let exchanged := commSides m sd tr s.s_adjRanks s.s_sendMetaData s.s_numSendPackets
    s.s_numRecvPackets (traverseGraph guess)
  In ind - (SweeperSchurBoundary.inputXIn m Out0 exchanged.sweepData.s_psi).1 ind

/-- A sweep-data interface over the file-scope fields, for the examples: a
face's outgoing data is `cell + face` and `angle`; an arriving payload's first
byte goes to `s_psiBound(0, angle, side, 0)`. -/
def exampleFieldsData : SweepDataSchur (SweepFields Int) where
  getDataSize := 2
  getData := fun _ cell face angle off => if off = 0 then cell + face else angle
  setSideData := fun side angle data st =>
    { st with s_psiBound := st.s_psiBound.set 0 angle side 0 (Int.ofNat (data.getD 0 0)) }

/-- The packet data the build phase leaves for `exampleMesh`. -/
def exampleStatics : PacketStatics where
  s_adjRanks := getAdjRanks exampleMesh
  s_sendMetaData := (buildPacketLists exampleMesh (getAdjRanks exampleMesh)).sendMetaData
  s_numSendPackets := (buildPacketLists exampleMesh (getAdjRanks exampleMesh)).numSendPackets
  s_numRecvPackets := (buildPacketLists exampleMesh (getAdjRanks exampleMesh)).numRecvPackets

/-- File-scope fields that are zero everywhere. -/
def zeroFields : SweepFields Int where
  s_psi := setToValue 0
  s_psiSource := setToValue 0
  s_psiBound := setToValue 0
  s_sigmaTotal := 0

/-! ## Two neighboring ranks -/

/-- The `(cell, face)` pairs, within the loop bounds, with
`getAdjRank(cell, face) == r`, cell-major, then face. -/
def sharedFaces (m : TychoMesh) (r : Nat) : List (Nat × Nat) :=
  (List.product (List.range m.nCells) (List.range m.nFacePerCell)).filter fun cf =>
    decide (m.getAdjRank cf.1 cf.2 = r)

/-- The meshes of rank `rankA` and of rank `rankB` agree on every shared face:
both use the same angles, `φ` takes the faces that `A` assigns `adjRank`
`rankB` one-to-one onto the faces that `B` assigns `adjRank` `rankA`, and a
shared face is outgoing for an angle on `A` exactly when it is not outgoing for
that angle on `B`. -/
def MeshesAgree (A B : TychoMesh) (rankA rankB : Nat) (φ : Nat × Nat → Nat × Nat) : Prop :=
  A.nAngles = B.nAngles ∧
  ((sharedFaces A rankB).map φ).Perm (sharedFaces B rankA) ∧
  ∀ cf ∈ sharedFaces A rankB, ∀ a < A.nAngles,
    A.isOutgoing a cf.1 cf.2 = !B.isOutgoing a (φ cf).1 (φ cf).2

/-- The mesh of rank 1 next to `exampleMesh`, taken as the mesh of rank 0:
face 1 of cell 0 of `exampleMesh` is face 0 of the only cell here. -/
def neighborMesh : TychoMesh :=
  { exampleMesh with
    nCells := 1
    getAdjCell := fun _ _ => 18446744073709551615
    getAdjRank := fun _ f => if f = 0 then 0 else 18446744073709551615 }

/-! ## Theorems: loops as folds -/

theorem foldl_flatMap_eq {σ κ ι : Type} (step : σ → κ → σ) (f : ι → List κ) (l : List ι) (s : σ) :
    l.foldl (fun st i => (f i).foldl step st) s = (l.flatMap f).foldl step s := by
  induction l generalizing s with
  | nil => rfl
  | cons a t ih => simp [List.flatMap_cons, List.foldl_append, ih]

theorem psiBoundToVec_eq_foldl {α : Type} (m : TychoMesh) (x : Nat → α) (p : PsiBoundData α) :
    psiBoundToVec m x p = (boundaryTuples m).foldl (toVecStep m p) (x, 0) := by
  unfold psiBoundToVec boundaryTuples forLoop
  simp only [← foldl_flatMap_eq]
  congr 1; funext st angle; congr 1; funext st cell; congr 1; funext st group
  congr 1; funext st face
  cases h1 : m.isIncoming angle cell face <;> cases h2 : m.onInternalBoundary cell face <;>
    simp [List.foldl_map, toVecStep, TychoMesh.slotOf, PsiBoundData.get]

theorem vecToPsiBound_eq_foldl {α : Type} (m : TychoMesh) (x : Nat → α) (p : PsiBoundData α) :
    vecToPsiBound m x p = (boundaryTuples m).foldl (fromVecStep m x) (p, 0) := by
  unfold vecToPsiBound boundaryTuples forLoop
  simp only [← foldl_flatMap_eq]
  congr 1; funext st angle; congr 1; funext st cell; congr 1; funext st group
  congr 1; funext st face
  cases h1 : m.isIncoming angle cell face <;> cases h2 : m.onInternalBoundary cell face <;>
    simp [List.foldl_map, fromVecStep, TychoMesh.slotOf, PsiBoundData.setAt]

theorem foldl_succ_eq_length {κ : Type} (l : List κ) (n : Nat) :
    l.foldl (fun size _ => size + 1) n = n + l.length := by
  induction l generalizing n with
  | nil => rfl
  | cons a t ih => simp [ih]; omega

theorem getVecSize_eq_length (m : TychoMesh) : getVecSize m = (boundaryTuples m).length := by
  have h : getVecSize m = (boundaryTuples m).foldl (fun size _ => size + 1) 0 := by
    unfold getVecSize boundaryTuples forLoop
    simp only [← foldl_flatMap_eq]
    congr 1; funext st angle; congr 1; funext st cell; congr 1; funext st group
    congr 1; funext st face
    cases h1 : m.isIncoming angle cell face <;> cases h2 : m.onInternalBoundary cell face <;>
      simp [List.foldl_map]
  rw [h, foldl_succ_eq_length]; simp

/-! ## Theorems: what the two folds compute -/

theorem toVec_foldl_index {α : Type} (m : TychoMesh) (p : PsiBoundData α) (l : List Tuple)
    (x : Nat → α) (i : Nat) : (l.foldl (toVecStep m p) (x, i)).2 = i + l.length := by
  induction l generalizing x i with
  | nil => rfl
  | cons a t ih => simp [List.foldl_cons, toVecStep, ih]; omega

theorem toVec_foldl_below {α : Type} (m : TychoMesh) (p : PsiBoundData α) (l : List Tuple)
    (x : Nat → α) (i j : Nat) (hj : j < i) : (l.foldl (toVecStep m p) (x, i)).1 j = x j := by
  induction l generalizing x i with
  | nil => rfl
  | cons a t ih =>
    simp only [List.foldl_cons, toVecStep]
    rw [ih _ _ (by omega)]
    simp [store]; omega

theorem toVec_foldl_above {α : Type} (m : TychoMesh) (p : PsiBoundData α) (l : List Tuple)
    (x : Nat → α) (i j : Nat) (hj : i + l.length ≤ j) :
    (l.foldl (toVecStep m p) (x, i)).1 j = x j := by
  induction l generalizing x i with
  | nil => rfl
  | cons a t ih =>
    simp only [List.foldl_cons, toVecStep]
    simp only [List.length_cons] at hj
    rw [ih _ _ (by omega)]
    simp [store]; omega

theorem toVec_foldl_at {α : Type} (m : TychoMesh) (p : PsiBoundData α) (l : List Tuple)
    (x : Nat → α) (i k : Nat) (t : Tuple) (hk : l[k]? = some t) :
    (l.foldl (toVecStep m p) (x, i)).1 (i + k) = p.get (m.slotOf t) := by
  induction l generalizing x i k with
  | nil => simp at hk
  | cons a r ih =>
    simp only [List.foldl_cons, toVecStep]
    cases k with
    | zero =>
      simp only [List.getElem?_cons_zero, Option.some.injEq] at hk
      subst hk
      rw [toVec_foldl_below _ _ _ _ _ _ (by omega)]
      simp [store]
    | succ k =>
      simp only [List.getElem?_cons_succ] at hk
      have := ih (store x i (p.get (m.slotOf a))) (i + 1) k hk
      rw [show i + (k + 1) = i + 1 + k by omega]
      exact this

theorem fromVec_foldl_index {α : Type} (m : TychoMesh) (x : Nat → α) (l : List Tuple)
    (p : PsiBoundData α) (i : Nat) : (l.foldl (fromVecStep m x) (p, i)).2 = i + l.length := by
  induction l generalizing p i with
  | nil => rfl
  | cons a t ih => simp [List.foldl_cons, fromVecStep, ih]; omega

theorem setAt_get_same {α : Type} (p : PsiBoundData α) (k : Nat × Nat × Nat × Nat) (v : α) :
    (p.setAt k v).get k = v := by
  simp [PsiBoundData.setAt, PsiBoundData.get, PsiBoundData.set]

theorem setAt_get_other {α : Type} (p : PsiBoundData α) (k k' : Nat × Nat × Nat × Nat) (v : α)
    (h : k' ≠ k) : (p.setAt k v).get k' = p.get k' := by
  obtain ⟨a, b, c, d⟩ := k
  obtain ⟨a', b', c', d'⟩ := k'
  simp only [PsiBoundData.setAt, PsiBoundData.get, PsiBoundData.set]
  rw [if_neg]
  rintro ⟨rfl, rfl, rfl, rfl⟩
  exact h rfl

theorem setAt_self {α : Type} (p : PsiBoundData α) (k : Nat × Nat × Nat × Nat) :
    p.setAt k (p.get k) = p := by
  funext g fv a s
  simp only [PsiBoundData.setAt, PsiBoundData.get, PsiBoundData.set]
  split
  · rename_i h; obtain ⟨rfl, rfl, rfl, rfl⟩ := h; rfl
  · rfl

theorem fromVec_foldl_frame {α : Type} (m : TychoMesh) (x : Nat → α) (l : List Tuple)
    (p : PsiBoundData α) (i : Nat) (k : Nat × Nat × Nat × Nat)
    (hk : ∀ t ∈ l, m.slotOf t ≠ k) :
    (l.foldl (fromVecStep m x) (p, i)).1.get k = p.get k := by
  induction l generalizing p i with
  | nil => rfl
  | cons a t ih =>
    simp only [List.foldl_cons, fromVecStep]
    rw [ih _ _ (fun t ht => hk t (List.mem_cons_of_mem _ ht))]
    exact setAt_get_other _ _ _ _ (fun h => hk a (List.mem_cons_self _ _) h.symm)

theorem fromVec_foldl_fixed {α : Type} (m : TychoMesh) (x : Nat → α) (l : List Tuple)
    (p : PsiBoundData α) (i : Nat)
    (hx : ∀ k t, l[k]? = some t → x (i + k) = p.get (m.slotOf t)) :
    (l.foldl (fromVecStep m x) (p, i)).1 = p := by
  induction l generalizing i with
  | nil => rfl
  | cons a t ih =>
    simp only [List.foldl_cons, fromVecStep]
    have h0 := hx 0 a (by simp)
    simp only [Nat.add_zero] at h0
    rw [h0, setAt_self]
    apply ih
    intro k t' hk
    have := hx (k + 1) t' (by simpa using hk)
    rw [← this]; congr 1; omega

theorem fromVec_foldl_at {α : Type} (m : TychoMesh) (x : Nat → α) (l : List Tuple)
    (p : PsiBoundData α) (i k : Nat) (t : Tuple) (hnd : (l.map m.slotOf).Nodup)
    (hk : l[k]? = some t) :
    (l.foldl (fromVecStep m x) (p, i)).1.get (m.slotOf t) = x (i + k) := by
  induction l generalizing p i k with
  | nil => simp at hk
  | cons a r ih =>
    simp only [List.foldl_cons, fromVecStep]
    simp only [List.map_cons, List.nodup_cons, List.mem_map, not_exists, not_and] at hnd
    cases k with
    | zero =>
      simp only [List.getElem?_cons_zero, Option.some.injEq] at hk
      subst hk
      rw [fromVec_foldl_frame _ _ _ _ _ _ (fun t ht => hnd.1 t ht)]
      simp [setAt_get_same]
    | succ k =>
      simp only [List.getElem?_cons_succ] at hk
      rw [ih _ (i + 1) k hnd.2 hk]
      congr 1; omega

/-! ## Theorems: the enumeration has no repetition -/

theorem nodup_flatMap_of_key {ι κ : Type} (key : κ → ι) (f : ι → List κ) (l : List ι)
    (hl : l.Nodup) (hf : ∀ i ∈ l, (f i).Nodup) (hkey : ∀ i ∈ l, ∀ k ∈ f i, key k = i) :
    (l.flatMap f).Nodup := by
  rw [List.nodup_flatMap]
  refine ⟨hf, ?_⟩
  refine List.Pairwise.imp_of_mem ?_ hl
  intro a b ha hb hab k hka hkb
  exact hab ((hkey a ha k hka).symm.trans (hkey b hb k hkb))

theorem mem_boundaryTuples (m : TychoMesh) (t : Tuple) :
    t ∈ boundaryTuples m ↔
      t.1 < m.nAngles ∧ t.2.1 < m.nCells ∧ t.2.2.1 < m.nGroups ∧ t.2.2.2.1 < m.nFacePerCell ∧
      t.2.2.2.2 < m.nVrtxPerFace ∧ m.isIncoming t.1 t.2.1 t.2.2.2.1 = true ∧
      m.onInternalBoundary t.2.1 t.2.2.2.1 = true := by
  obtain ⟨a, c, g, f, v⟩ := t
  simp only [boundaryTuples, List.mem_flatMap, List.mem_range]
  constructor
  · rintro ⟨a', ha, c', hc, g', hg, f', hf, h⟩
    split at h
    · rename_i hp
      simp only [List.mem_map, List.mem_range, Prod.mk.injEq] at h
      obtain ⟨v', hv, rfl, rfl, rfl, rfl, rfl⟩ := h
      simp only [Bool.and_eq_true] at hp
      exact ⟨ha, hc, hg, hf, hv, hp.1, hp.2⟩
    · simp at h
  · rintro ⟨ha, hc, hg, hf, hv, h1, h2⟩
    refine ⟨a, ha, c, hc, g, hg, f, hf, ?_⟩
    simp [h1, h2, hv]

theorem boundaryTuples_nodup (m : TychoMesh) : (boundaryTuples m).Nodup := by
  unfold boundaryTuples
  refine nodup_flatMap_of_key (fun t => t.1) _ _ (List.nodup_range _) (fun a _ => ?_) ?_
  · refine nodup_flatMap_of_key (fun t => t.2.1) _ _ (List.nodup_range _) (fun c _ => ?_) ?_
    · refine nodup_flatMap_of_key (fun t => t.2.2.1) _ _ (List.nodup_range _) (fun g _ => ?_) ?_
      · refine nodup_flatMap_of_key (fun t => t.2.2.2.1) _ _ (List.nodup_range _)
          (fun f _ => ?_) ?_
        · split
          · refine List.Nodup.map ?_ (List.nodup_range _)
            intro v v' h
            simpa using h
          · exact List.nodup_nil
        · intro f _ k hk
          split at hk
          · simp only [List.mem_map] at hk
            obtain ⟨v, _, rfl⟩ := hk
            rfl
          · simp at hk
      · intro g _ k hk
        simp only [List.mem_flatMap] at hk
        obtain ⟨f, _, hk⟩ := hk
        split at hk
        · simp only [List.mem_map] at hk
          obtain ⟨v, _, rfl⟩ := hk
          rfl
        · simp at hk
    · intro c _ k hk
      simp only [List.mem_flatMap] at hk
      obtain ⟨g, _, f, _, hk⟩ := hk
      split at hk
      · simp only [List.mem_map] at hk
        obtain ⟨v, _, rfl⟩ := hk
        rfl
      · simp at hk
  · intro a _ k hk
    simp only [List.mem_flatMap] at hk
    obtain ⟨c, _, g, _, f, _, hk⟩ := hk
    split at hk
    · simp only [List.mem_map] at hk
      obtain ⟨v, _, rfl⟩ := hk
      rfl
    · simp at hk

theorem boundarySlots_nodup (m : TychoMesh) (hd : m.DistinctSides) :
    ((boundaryTuples m).map m.slotOf).Nodup := by
  refine List.Nodup.map_on ?_ (boundaryTuples_nodup m)
  intro t ht t' ht' h
  rw [mem_boundaryTuples] at ht ht'
  obtain ⟨a, c, g, f, v⟩ := t
  obtain ⟨a', c', g', f', v'⟩ := t'
  simp only [TychoMesh.slotOf, Prod.mk.injEq] at h
  obtain ⟨rfl, rfl, rfl, hs⟩ := h
  obtain ⟨rfl, rfl⟩ := hd c ht.2.1 f ht.2.2.2.1 c' ht'.2.1 f' ht'.2.2.2.1 ht.2.2.2.2.2.2
    ht'.2.2.2.2.2.2 hs
  rfl

/-! ## Theorems: counting the serialized positions -/

theorem length_flatMap_mul {ι κ κ' : Type} (l : List ι) (f : ι → List κ) (g : ι → List κ')
    (c : Nat) (h : ∀ i ∈ l, (f i).length = c * (g i).length) :
    (l.flatMap f).length = c * (l.flatMap g).length := by
  induction l with
  | nil => simp
  | cons a t ih =>
    simp only [List.flatMap_cons, List.length_append, Nat.mul_add]
    rw [h a (List.mem_cons_self _ _), ih (fun i hi => h i (List.mem_cons_of_mem _ hi))]

theorem length_flatMap_const {ι κ : Type} (l : List ι) (f : ι → List κ) (c : Nat)
    (h : ∀ i ∈ l, (f i).length = c) : (l.flatMap f).length = l.length * c := by
  induction l with
  | nil => simp
  | cons a t ih =>
    simp only [List.flatMap_cons, List.length_append, List.length_cons]
    rw [h a (List.mem_cons_self _ _), ih (fun i hi => h i (List.mem_cons_of_mem _ hi))]
    ring

theorem length_flatMap_ite {κ : Type} (l : List Nat) (P : Nat → Bool) (n : Nat)
    (h : Nat → Nat → κ) :
    (l.flatMap fun f => if P f then (List.range n).map (h f) else []).length =
      n * (l.filter P).length := by
  induction l with
  | nil => simp
  | cons a t ih =>
    simp only [List.flatMap_cons, List.length_append, ih, List.filter_cons]
    cases P a <;> simp [Nat.mul_add, Nat.add_comm]

theorem boundaryTuples_length (m : TychoMesh) :
    (boundaryTuples m).length = m.nGroups * m.nVrtxPerFace * (boundaryTriples m).length := by
  unfold boundaryTuples boundaryTriples
  refine length_flatMap_mul _ _ _ _ (fun a _ => ?_)
  refine length_flatMap_mul _ _ _ _ (fun c _ => ?_)
  rw [length_flatMap_const _ _ (m.nVrtxPerFace * ((List.range m.nFacePerCell).filter fun face =>
    m.isIncoming a c face && m.onInternalBoundary c face).length)]
  · simp [Nat.mul_assoc]
  · intro g _
    exact length_flatMap_ite _ _ _ _

theorem mem_boundaryTriples (m : TychoMesh) (t : Nat × Nat × Nat) :
    t ∈ boundaryTriples m ↔
      t.1 < m.nAngles ∧ t.2.1 < m.nCells ∧ t.2.2 < m.nFacePerCell ∧
      m.isIncoming t.1 t.2.1 t.2.2 = true ∧ m.onInternalBoundary t.2.1 t.2.2 = true := by
  obtain ⟨a, c, f⟩ := t
  simp only [boundaryTriples, List.mem_flatMap, List.mem_range, List.mem_map, List.mem_filter,
    Prod.mk.injEq, Bool.and_eq_true]
  constructor
  · rintro ⟨a', ha, c', hc, f', ⟨hf, h1, h2⟩, rfl, rfl, rfl⟩
    exact ⟨ha, hc, hf, h1, h2⟩
  · rintro ⟨ha, hc, hf, h1, h2⟩
    exact ⟨a, ha, c, hc, f, ⟨hf, h1, h2⟩, rfl, rfl, rfl⟩

theorem boundaryTriples_nodup (m : TychoMesh) : (boundaryTriples m).Nodup := by
  unfold boundaryTriples
  refine nodup_flatMap_of_key (fun t => t.1) _ _ (List.nodup_range _) (fun a _ => ?_) ?_
  · refine nodup_flatMap_of_key (fun t => t.2.1) _ _ (List.nodup_range _) (fun c _ => ?_) ?_
    · refine List.Nodup.map ?_ ((List.nodup_range _).filter _)
      intro f f' h
      simpa using h
    · intro c _ k hk
      simp only [List.mem_map] at hk
      obtain ⟨f, _, rfl⟩ := hk
      rfl
  · intro a _ k hk
    simp only [List.mem_flatMap, List.mem_map] at hk
    obtain ⟨c, _, f, _, rfl⟩ := hk
    rfl

theorem boundaryTriples_length (m : TychoMesh) :
    (boundaryTriples m).length = numBoundaryTriples m := by
  rw [← List.toFinset_card_of_nodup (boundaryTriples_nodup m)]
  unfold numBoundaryTriples
  congr 1
  ext t
  simp only [List.mem_toFinset, mem_boundaryTriples, Finset.mem_filter, Finset.mem_product,
    Finset.mem_range, TychoMesh.onInternalBoundary, Bool.and_eq_true, decide_eq_true_eq]
  tauto

theorem getVecSize_eq_zero_of_noInternalBoundary (m : TychoMesh) (h : m.NoInternalBoundary) :
    getVecSize m = 0 := by
  rw [getVecSize_eq_length, List.length_eq_zero, List.eq_nil_iff_forall_not_mem]
  intro t ht
  rw [mem_boundaryTuples] at ht
  have := h t.2.1 ht.2.1 t.2.2.2.1 ht.2.2.2.1
  apply this
  simpa [TychoMesh.onInternalBoundary] using ht.2.2.2.2.2.2

/-! ## Claims C1 to C3: the serialization -/

/-- C1. Serialization round trip: for every mesh and every boundary field `p`,
writing `p` into a buffer with `psiBoundToVec` and then reading that buffer back
into `p` with `vecToPsiBound` leaves `p` exactly unchanged. -/
theorem serialization_round_trip {α : Type} (m : TychoMesh) (x0 : Nat → α)
    (p : PsiBoundData α) :
    (vecToPsiBound m (psiBoundToVec m x0 p).1 p).1 = p := by
  rw [vecToPsiBound_eq_foldl, psiBoundToVec_eq_foldl]
  apply fromVec_foldl_fixed
  intro k t hk
  exact toVec_foldl_at m p _ x0 0 k t hk

theorem psiBoundToVec_vecToPsiBound {α : Type} (m : TychoMesh) (hd : m.DistinctSides)
    (q : PsiBoundData α) (v x0 : Nat → α) (i : Nat) (hi : i < getVecSize m) :
    (psiBoundToVec m x0 (vecToPsiBound m v q).1).1 i = v i := by
  rw [getVecSize_eq_length] at hi
  rw [vecToPsiBound_eq_foldl, psiBoundToVec_eq_foldl]
  have hk : (boundaryTuples m)[i]? = some (boundaryTuples m)[i] := List.getElem?_eq_getElem hi
  have h1 := toVec_foldl_at m ((boundaryTuples m).foldl (fromVecStep m v) (q, 0)).1
    (boundaryTuples m) x0 0 i _ hk
  have h2 := fromVec_foldl_at m v (boundaryTuples m) q 0 i _ (boundarySlots_nodup m hd) hk
  simp only [Nat.zero_add] at h1 h2
  rw [h1, h2]

/-- C2. Inverse direction: on a mesh whose inter-partition boundary
`(cell, face)` pairs have pairwise distinct side ids, for every boundary field
`q` and every vector `v`, `vecToPsiBound` of `v` into `q` followed by
`psiBoundToVec` returns `v` at every index below `getVecSize()`. -/
theorem deserialize_then_serialize {α : Type} (m : TychoMesh) (hd : m.DistinctSides)
    (q : PsiBoundData α) (v x0 : Nat → α) (i : Nat) (hi : i < getVecSize m) :
    (psiBoundToVec m x0 (vecToPsiBound m v q).1).1 i = v i :=
  psiBoundToVec_vecToPsiBound m hd q v x0 i hi

/-- C3. Vector-size agreement: the number of entries `psiBoundToVec` writes and
the number `vecToPsiBound` reads both equal `getVecSize()`, which is
`g_nGroups * g_nVrtxPerFace * N` for `N` the number of incoming
inter-partition-boundary `(angle, cell, face)` triples, and which is `0` when
the mesh has no inter-partition boundary face. -/
theorem vector_size_agreement {α : Type} (m : TychoMesh) (x : Nat → α) (p : PsiBoundData α) :
    (psiBoundToVec m x p).2 = getVecSize m ∧
    (vecToPsiBound m x p).2 = getVecSize m ∧
    getVecSize m = m.nGroups * m.nVrtxPerFace * numBoundaryTriples m ∧
    (m.NoInternalBoundary → getVecSize m = 0) := by
  refine ⟨?_, ?_, ?_, getVecSize_eq_zero_of_noInternalBoundary m⟩
  · rw [psiBoundToVec_eq_foldl, toVec_foldl_index, getVecSize_eq_length]; simp
  · rw [vecToPsiBound_eq_foldl, fromVec_foldl_index, getVecSize_eq_length]; simp
  · rw [getVecSize_eq_length, boundaryTuples_length, boundaryTriples_length]

theorem deserialize_then_serialize_witness :
    exampleMesh.DistinctSides ∧ 5 < getVecSize exampleMesh ∧
    (psiBoundToVec exampleMesh (fun _ => (0 : Int))
      (vecToPsiBound exampleMesh (fun i => (10 : Int) + i) (fun _ _ _ _ => 0)).1).1 5 = 15 :=
  ⟨by decide, by decide,
    deserialize_then_serialize exampleMesh (by decide) _ _ _ 5 (by decide)⟩

theorem vector_size_agreement_witness :
    serialMesh.NoInternalBoundary ∧ getVecSize serialMesh = 0 :=
  ⟨by decide,
    (vector_size_agreement serialMesh (fun _ => (0 : Int)) (fun _ _ _ _ => 0)).2.2.2
      (by decide)⟩

/-! ## Claim C4: residual form of the operators -/

theorem residualLoop_spec {α : Type} [Sub α] (n : Nat) (x b : Nat → α) (i : Nat) :
    residualLoop n x b i = if i < n then x i - b i else b i := by
  induction n with
  | zero => simp [residualLoop, forLoop]
  | succ n ih =>
    have hstep : residualLoop (n + 1) x b =
        store (residualLoop n x b) n (x n - residualLoop n x b n) := by
      simp [residualLoop, forLoop, List.range_succ, List.foldl_append]
    rw [hstep]
    simp only [store]
    by_cases hin : i = n
    · subst hin
      simp [ih]
    · rw [if_neg hin, ih]
      by_cases h : i < n
      · rw [if_pos h, if_pos (by omega)]
      · rw [if_neg h, if_neg (by omega)]

/-- C4. Residual form: for `Schur` and for `SchurOuter` and every index `i`
below `getVecSize()`, the output is `b[i] = x[i] - y[i]`, where `y` is
`psiBoundToVec` of the boundary field reached by deserializing `x`, running the
sweep step and then `commSides`; when the two post-exchange boundary fields are
equal the two operators return the same `b`. -/
theorem schur_residual_form {α W : Type} [Zero α] [Sub α] (m : TychoMesh)
    (env : Collaborators α W) (x b : Nat → α) (data dataOuter : SchurData α W) (i : Nat)
    (hi : i < getVecSize m) :
    (Schur m env x b data).1 i =
      x i - (psiBoundToVec m b (schurExchange m env x data).psiBound).1 i ∧
    (SchurOuter m env x b dataOuter).1 i =
      x i - (psiBoundToVec m b (schurOuterExchange m env x dataOuter).psiBound).1 i ∧
    ((schurExchange m env x data).psiBound = (schurOuterExchange m env x dataOuter).psiBound →
      (Schur m env x b data).1 = (SchurOuter m env x b dataOuter).1) := by
  refine ⟨?_, ?_, ?_⟩
  · simp only [Schur, residualLoop_spec, if_pos hi]
  · simp only [SchurOuter, residualLoop_spec, if_pos hi]
  · intro h
    simp only [Schur, SchurOuter, h]

theorem schur_residual_form_witness :
    (Schur exampleMesh exampleCollaborators (fun i => 10 + i) (fun _ => 0) exampleData).1 5
      = 15 - 32 ∧
    (Schur exampleMesh exampleCollaborators (fun i => 10 + i) (fun _ => 0) exampleData).1
      = (SchurOuter exampleMesh exampleCollaborators (fun i => 10 + i) (fun _ => 0)
          exampleData).1 := by
  have h := schur_residual_form exampleMesh exampleCollaborators (fun i => 10 + i)
    (fun _ => 0) exampleData exampleData 5 (by decide)
  refine ⟨?_, h.2.2 rfl⟩
  rw [h.1]
  decide

/-! ## Claim C5: packing and unpacking -/

theorem bytesLE_length (n v : Nat) : (bytesLE n v).length = n := by
  induction n generalizing v with
  | zero => rfl
  | succ n ih => simp [bytesLE, ih]

theorem valueLE_bytesLE (n v : Nat) : valueLE (bytesLE n v) = v % 256 ^ n := by
  induction n generalizing v with
  | zero => simp [bytesLE, valueLE, Nat.mod_one]
  | succ n ih =>
    simp only [bytesLE, valueLE, ih]
    rw [pow_succ', Nat.mod_mul]

theorem decode_encodeUINT (v : Nat) (hv : v < 2 ^ 64) : decodeUINT (encodeUINT v) = v := by
  unfold decodeUINT encodeUINT sizeofUINT
  rw [valueLE_bytesLE]
  exact Nat.mod_eq_of_lt (by norm_num at hv ⊢; exact hv)

theorem encodeUINT_length (v : Nat) : (encodeUINT v).length = sizeofUINT :=
  bytesLE_length _ _

theorem payload_length {σ : Type} (sd : SweepDataSchur σ) (st : σ) (r : MetaData) :
    (payload sd st r).length = sd.getDataSize := by
  simp [payload]

theorem packetBytes_length {σ : Type} (sd : SweepDataSchur σ) (st : σ) (r : MetaData) :
    (packetBytes sd st r).length = packetSize sd := by
  simp [packetBytes, packetSize, encodeUINT_length, payload_length]; ring

theorem packets_length {σ : Type} (sd : SweepDataSchur σ) (st : σ) (md : List MetaData) :
    (md.flatMap (packetBytes sd st)).length = md.length * packetSize sd :=
  length_flatMap_const _ _ _ (fun r _ => packetBytes_length sd st r)

theorem memcpy_append (P R src : List Byte) (off : Nat) (hoff : off = P.length)
    (hlen : src.length ≤ R.length) :
    memcpy (P ++ R) off src = some (P ++ src ++ R.drop src.length) := by
  subst hoff
  unfold memcpy
  rw [if_pos (by simp; omega)]
  simp [List.take_append_eq_append_take, List.drop_append_eq_append_drop]

theorem packRecord_append {σ : Type} (sd : SweepDataSchur σ) (st : σ) (md : List MetaData)
    (k : Nat) (r : MetaData) (P R : List Byte) (hr : md[k]? = some r)
    (hP : P.length = k * packetSize sd) (hR : packetSize sd ≤ R.length) :
    packRecord sd st md k (some (P ++ R)) =
      some (P ++ packetBytes sd st r ++ R.drop (packetSize sd)) := by
  have hps : packetSize sd = sizeofUINT + sizeofUINT + sd.getDataSize := by
    unfold packetSize; ring
  have h1 := memcpy_append P R (encodeUINT r.gSide) (k * packetSize sd) hP.symm
    (by rw [encodeUINT_length]; omega)
  have h2 := memcpy_append (P ++ encodeUINT r.gSide) (R.drop (encodeUINT r.gSide).length)
    (encodeUINT r.angle) (k * packetSize sd + sizeofUINT)
    (by simp [hP, encodeUINT_length])
    (by simp only [encodeUINT_length, List.length_drop]; omega)
  have h3 := memcpy_append (P ++ encodeUINT r.gSide ++ encodeUINT r.angle)
    ((R.drop (encodeUINT r.gSide).length).drop (encodeUINT r.angle).length)
    (payload sd st r) (k * packetSize sd + sizeofUINT + sizeofUINT)
    (by simp [hP, encodeUINT_length]; ring)
    (by simp only [encodeUINT_length, List.length_drop, payload_length]; omega)
  simp only [packRecord, Option.some_bind, Option.bind_eq_bind, hr, h1, h2, h3]
  simp only [packetBytes, List.drop_drop, encodeUINT_length, payload_length, hps,
    List.append_assoc]

theorem forLoop_succ {σ : Type} (n : Nat) (body : Nat → σ → σ) (s : σ) :
    forLoop (n + 1) body s = body n (forLoop n body s) := by
  simp [forLoop, List.range_succ, List.foldl_append]

theorem packLoop_invariant {σ : Type} (sd : SweepDataSchur σ) (st : σ) (md : List MetaData)
    (buf : List Byte) (hbuf : buf.length = md.length * packetSize sd) (k : Nat)
    (hk : k ≤ md.length) :
    forLoop k (packRecord sd st md) (some buf) =
      some ((md.take k).flatMap (packetBytes sd st) ++ buf.drop (k * packetSize sd)) := by
  induction k with
  | zero => simp [forLoop]
  | succ k ih =>
    rw [forLoop_succ, ih (by omega)]
    have hlt : k < md.length := by omega
    have hr : md[k]? = some md[k] := List.getElem?_eq_getElem hlt
    rw [packRecord_append sd st md k md[k] _ _ hr]
    · rw [List.take_succ, hr]
      simp only [Option.toList_some, List.flatMap_append, List.flatMap_cons, List.flatMap_nil,
        List.append_nil, List.drop_drop]
      congr 2
      ring_nf
    · rw [packets_length, List.length_take, Nat.min_eq_left (by omega)]
    · rw [List.length_drop, hbuf]
      have : (k + 1) * packetSize sd ≤ md.length * packetSize sd :=
        Nat.mul_le_mul_right _ hlt
      have h2 : (k + 1) * packetSize sd = k * packetSize sd + packetSize sd := by ring
      omega

theorem packSendBuffer_eq {σ : Type} (sd : SweepDataSchur σ) (st : σ) (md : List MetaData)
    (buf : List Byte) (hbuf : buf.length = md.length * packetSize sd) :
    packSendBuffer sd st md buf = some (md.flatMap (packetBytes sd st)) := by
  unfold packSendBuffer
  rw [packLoop_invariant sd st md buf hbuf md.length (le_refl _), List.take_length,
    List.drop_eq_nil_of_le (by omega)]
  simp

theorem readBytes_mid (P X S : List Byte) (off n : Nat) (hoff : off = P.length)
    (hn : n = X.length) : readBytes (P ++ X ++ S) off n = X := by
  subst hoff hn
  simp [readBytes, List.append_assoc]

theorem unpackPacket_at {σ : Type} (sd : SweepDataSchur σ) (st : σ) (P S : List Byte)
    (r : MetaData) (i : Nat) (hP : P.length = i * packetSize sd) (hg : r.gSide < 2 ^ 64)
    (ha : r.angle < 2 ^ 64) :
    unpackPacket sd (P ++ packetBytes sd st r ++ S) i = (r.gSide, r.angle, payload sd st r) := by
  have e1 : P ++ packetBytes sd st r ++ S =
      P ++ encodeUINT r.gSide ++ (encodeUINT r.angle ++ payload sd st r ++ S) := by
    simp [packetBytes, List.append_assoc]
  have e2 : P ++ packetBytes sd st r ++ S =
      (P ++ encodeUINT r.gSide) ++ encodeUINT r.angle ++ (payload sd st r ++ S) := by
    simp [packetBytes, List.append_assoc]
  have e3 : P ++ packetBytes sd st r ++ S =
      (P ++ encodeUINT r.gSide ++ encodeUINT r.angle) ++ payload sd st r ++ S := by
    simp [packetBytes, List.append_assoc]
  have r1 : readBytes (P ++ packetBytes sd st r ++ S) (i * packetSize sd) sizeofUINT =
      encodeUINT r.gSide := by
    rw [e1]; exact readBytes_mid _ _ _ _ _ hP.symm (encodeUINT_length _).symm
  have r2 : readBytes (P ++ packetBytes sd st r ++ S) (i * packetSize sd + sizeofUINT)
      sizeofUINT = encodeUINT r.angle := by
    rw [e2]
    exact readBytes_mid _ _ _ _ _ (by simp [hP, encodeUINT_length]) (encodeUINT_length _).symm
  have r3 : readBytes (P ++ packetBytes sd st r ++ S)
      (i * packetSize sd + sizeofUINT + sizeofUINT) sd.getDataSize = payload sd st r := by
    rw [e3]
    exact readBytes_mid _ _ _ _ _ (by simp [hP, encodeUINT_length, Nat.add_assoc])
      (payload_length _ _ _).symm
  simp only [unpackPacket, r1, r2, r3, decode_encodeUINT _ hg, decode_encodeUINT _ ha]

theorem packetSize_pos {σ : Type} (sd : SweepDataSchur σ) : 0 < packetSize sd := by
  unfold packetSize sizeofUINT; omega

theorem receivedPackets_packets {σ : Type} (sd : SweepDataSchur σ) (st : σ)
    (md : List MetaData) (hU : ∀ r ∈ md, r.gSide < 2 ^ 64 ∧ r.angle < 2 ^ 64) :
    receivedPackets sd (md.flatMap (packetBytes sd st)) =
      md.map fun r => (r.gSide, r.angle, payload sd st r) := by
  have hlen : (md.flatMap (packetBytes sd st)).length / packetSize sd = md.length := by
    rw [packets_length, Nat.mul_div_cancel _ (packetSize_pos sd)]
  apply List.ext_getElem
  · simp only [receivedPackets, List.length_map, List.length_range, hlen]
  · intro i h1 h2
    have hi : i < md.length := by simpa using h2
    simp only [receivedPackets, List.getElem_map, List.getElem_range]
    have hsplit : md = md.take i ++ md[i] :: md.drop (i + 1) := by
      rw [← List.drop_eq_getElem_cons hi, List.take_append_drop]
    have hb : md.flatMap (packetBytes sd st) =
        (md.take i).flatMap (packetBytes sd st) ++ packetBytes sd st md[i] ++
          (md.drop (i + 1)).flatMap (packetBytes sd st) := by
      have := congrArg (fun l => l.flatMap (packetBytes sd st)) hsplit
      simpa only [List.flatMap_append, List.flatMap_cons, List.append_assoc] using this
    rw [hb]
    have hu := hU md[i] (List.getElem_mem _)
    exact unpackPacket_at sd st _ _ md[i] i
      (by rw [packets_length, List.length_take, Nat.min_eq_left (by omega)]) hu.1 hu.2

theorem processRecvBuffer_eq_foldl {σ : Type} (m : TychoMesh) (sd : SweepDataSchur σ)
    (buf : List Byte) (st : σ) :
    processRecvBuffer m sd buf st =
      (receivedPackets sd buf).foldl
        (fun st p => sd.setSideData (m.getGLSide p.1) p.2.1 p.2.2 st) st := by
  simp [processRecvBuffer, receivedPackets, forLoop, List.foldl_map]

/-- C5. Packet round trip: when the send count `n` of a neighbor equals the
length of its metadata list (whose `gSide` and `angle` are `UINT` values), the
packing loop fills the `n * packetSize` bytes of the send buffer with the `n`
packets in list order, each `gSide`, then `angle`, then the payload of its
`(cell, face, angle)`; the receive loop run on a buffer holding those bytes
unpacks exactly `n` packets and hands `setSideData` the same `gSide` (mapped by
`getGLSide`), `angle` and payload bytes, in the same order. -/
theorem packet_round_trip {σ : Type} (m : TychoMesh) (sd : SweepDataSchur σ) (st st' : σ)
    (md : List MetaData) (numSend : Nat) (hn : numSend = md.length)
    (hU : ∀ r ∈ md, r.gSide < 2 ^ 64 ∧ r.angle < 2 ^ 64) :
    packSendBuffer sd st md (List.replicate (packetSize sd * numSend) 0) =
      some (md.flatMap (packetBytes sd st)) ∧
    (md.flatMap (packetBytes sd st)).length = numSend * packetSize sd ∧
    (∀ r, packetBytes sd st r = encodeUINT r.gSide ++ encodeUINT r.angle ++ payload sd st r) ∧
    (∀ recvBuf : List Byte, recvBuf = md.flatMap (packetBytes sd st) →
      recvBuf.length / packetSize sd = numSend ∧
      receivedPackets sd recvBuf = md.map (fun r => (r.gSide, r.angle, payload sd st r)) ∧
      processRecvBuffer m sd recvBuf st' =
        md.foldl (fun s r => sd.setSideData (m.getGLSide r.gSide) r.angle (payload sd st r) s)
          st') := by
  subst hn
  refine ⟨?_, packets_length sd st md, fun _ => rfl, ?_⟩
  · exact packSendBuffer_eq sd st md _ (by simp [Nat.mul_comm])
  · rintro recvBuf rfl
    refine ⟨?_, receivedPackets_packets sd st md hU, ?_⟩
    · rw [packets_length, Nat.mul_div_cancel _ (packetSize_pos sd)]
    · rw [processRecvBuffer_eq_foldl, receivedPackets_packets sd st md hU, List.foldl_map]

theorem packet_round_trip_witness :
    receivedPackets exampleSweepData
      (exampleMetaData.flatMap (packetBytes exampleSweepData (fun _ _ => []))) =
      [(101, 1, [1, 1]), (300, 0, [1, 0])] :=
  ((packet_round_trip exampleMesh exampleSweepData (fun _ _ => []) (fun _ _ => [])
    exampleMetaData 2 rfl (by decide)).2.2.2 _ rfl).2.1

/-! ## Claims C7 and C8: the build phase -/

theorem buildPacketLists_eq (m : TychoMesh) (adjRanks : List Nat) :
    buildPacketLists m adjRanks =
      forLoop adjRanks.length (buildRank m adjRanks)
        { sendMetaData := fun _ => [], numSendPackets := fun _ => 0,
          numRecvPackets := fun _ => 0 } := rfl

theorem foldl_filter_eq {σ κ : Type} (step : σ → κ → σ) (p : κ → Bool) (l : List κ) (s : σ) :
    (l.filter p).foldl step s = l.foldl (fun s x => if p x then step s x else s) s := by
  induction l generalizing s with
  | nil => rfl
  | cons a t ih =>
    simp only [List.filter_cons, List.foldl_cons]
    cases p a <;> simp [ih]

theorem foldl_id {σ κ : Type} (l : List κ) (s : σ) : l.foldl (fun s _ => s) s = s := by
  induction l with
  | nil => rfl
  | cons a t ih => exact ih

theorem cellFaceAngles_eq (m : TychoMesh) :
    cellFaceAngles m =
      (List.range m.nCells).flatMap fun cell =>
      (List.range m.nFacePerCell).flatMap fun face =>
      (List.range m.nAngles).map fun angle => (cell, face, angle) := by
  simp only [cellFaceAngles, List.product, List.map_flatMap, List.map_map]
  rfl

theorem buildRank_eq_foldl (m : TychoMesh) (adjRanks : List Nat) (i r : Nat)
    (hr : adjRanks[i]? = some r) (pl : PacketLists) :
    buildRank m adjRanks i pl =
      ((cellFaceAngles m).filter fun t => decide (m.getAdjRank t.1 t.2.1 = r)).foldl
        (buildStep m i)
        { pl with
          numSendPackets := store pl.numSendPackets i 0
          numRecvPackets := store pl.numRecvPackets i 0 } := by
  rw [foldl_filter_eq, cellFaceAngles_eq]
  unfold buildRank forLoop
  simp only [← foldl_flatMap_eq, List.foldl_map, hr, Option.some.injEq]
  congr 1; funext st cell; congr 1; funext st face
  by_cases h : m.getAdjRank cell face = r
  · simp [h]
  · simp [h, foldl_id]

theorem buildStep_foldl_entry (m : TychoMesh) (i : Nat) (l : List (Nat × Nat × Nat))
    (pl : PacketLists) :
    ((l.foldl (buildStep m i) pl).entry i =
      (pl.sendMetaData i ++ (l.filter fun t => m.isOutgoing t.2.2 t.1 t.2.1).map m.metaDataOf,
       pl.numSendPackets i + l.countP (fun t => m.isOutgoing t.2.2 t.1 t.2.1),
       pl.numRecvPackets i + l.countP (fun t => !m.isOutgoing t.2.2 t.1 t.2.1))) ∧
    ∀ j, j ≠ i → (l.foldl (buildStep m i) pl).entry j = pl.entry j := by
  induction l generalizing pl with
  | nil => simp [PacketLists.entry]
  | cons t l ih =>
    obtain ⟨h1, h2⟩ := ih (buildStep m i pl t)
    simp only [List.foldl_cons]
    refine ⟨?_, ?_⟩
    · rw [h1]
      cases hout : m.isOutgoing t.2.2 t.1 t.2.1 <;>
        simp [buildStep, hout, store, List.filter_cons, List.countP_cons] <;> omega
    · intro j hj
      rw [h2 j hj]
      cases hout : m.isOutgoing t.2.2 t.1 t.2.1 <;>
        simp [buildStep, hout, store, PacketLists.entry, hj]

theorem buildRank_entry (m : TychoMesh) (adjRanks : List Nat) (i r : Nat)
    (hr : adjRanks[i]? = some r) (pl : PacketLists) :
    ((buildRank m adjRanks i pl).entry i =
      (pl.sendMetaData i ++
        ((cellFaceAngles m).filter fun t =>
          decide (m.getAdjRank t.1 t.2.1 = r) && m.isOutgoing t.2.2 t.1 t.2.1).map m.metaDataOf,
       (cellFaceAngles m).countP (fun t =>
          decide (m.getAdjRank t.1 t.2.1 = r) && m.isOutgoing t.2.2 t.1 t.2.1),
       (cellFaceAngles m).countP (fun t =>
          decide (m.getAdjRank t.1 t.2.1 = r) && !m.isOutgoing t.2.2 t.1 t.2.1))) ∧
    ∀ j, j ≠ i → (buildRank m adjRanks i pl).entry j = pl.entry j := by
  rw [buildRank_eq_foldl m adjRanks i r hr]
  obtain ⟨h1, h2⟩ := buildStep_foldl_entry m i
    ((cellFaceAngles m).filter fun t => decide (m.getAdjRank t.1 t.2.1 = r))
    { pl with
      numSendPackets := store pl.numSendPackets i 0
      numRecvPackets := store pl.numRecvPackets i 0 }
  refine ⟨?_, ?_⟩
  · rw [h1]
    simp only [store, if_true, Nat.zero_add, List.filter_filter, List.countP_filter,
      Bool.and_comm]
  · intro j hj
    rw [h2 j hj]
    simp [PacketLists.entry, store, hj]

theorem buildLoop_untouched (m : TychoMesh) (adjRanks : List Nat) (pl : PacketLists) (n : Nat)
    (hn : n ≤ adjRanks.length) (i : Nat) (hi : n ≤ i) :
    (forLoop n (buildRank m adjRanks) pl).entry i = pl.entry i := by
  induction n with
  | zero => simp [forLoop]
  | succ n ih =>
    rw [forLoop_succ]
    have hlt : n < adjRanks.length := by omega
    have hr : adjRanks[n]? = some adjRanks[n] := List.getElem?_eq_getElem hlt
    rw [(buildRank_entry m adjRanks n _ hr _).2 i (by omega)]
    exact ih (by omega) (by omega)

theorem buildLoop_entry (m : TychoMesh) (adjRanks : List Nat) (n : Nat)
    (hn : n ≤ adjRanks.length) (i r : Nat) (hi : i < n) (hr : adjRanks[i]? = some r) :
    (forLoop n (buildRank m adjRanks)
      { sendMetaData := fun _ => [], numSendPackets := fun _ => 0,
        numRecvPackets := fun _ => 0 }).entry i =
      (((cellFaceAngles m).filter fun t =>
          decide (m.getAdjRank t.1 t.2.1 = r) && m.isOutgoing t.2.2 t.1 t.2.1).map m.metaDataOf,
       (cellFaceAngles m).countP (fun t =>
          decide (m.getAdjRank t.1 t.2.1 = r) && m.isOutgoing t.2.2 t.1 t.2.1),
       (cellFaceAngles m).countP (fun t =>
          decide (m.getAdjRank t.1 t.2.1 = r) && !m.isOutgoing t.2.2 t.1 t.2.1)) := by
  induction n with
  | zero => omega
  | succ n ih =>
    rw [forLoop_succ]
    have hlt : n < adjRanks.length := by omega
    have hrn : adjRanks[n]? = some adjRanks[n] := List.getElem?_eq_getElem hlt
    by_cases hin : i = n
    · subst hin
      have hr' : adjRanks[i]? = some r := hr
      rw [(buildRank_entry m adjRanks i r hr' _).1]
      have h0 := buildLoop_untouched m adjRanks
        { sendMetaData := fun _ => [], numSendPackets := fun _ => 0,
          numRecvPackets := fun _ => 0 } i (by omega) i (le_refl _)
      simp only [PacketLists.entry, Prod.mk.injEq] at h0
      rw [h0.1]
      simp
    · rw [(buildRank_entry m adjRanks n _ hrn _).2 i hin]
      exact ih (by omega) (by omega)

theorem buildPacketLists_entry (m : TychoMesh) (adjRanks : List Nat) (i r : Nat)
    (hr : adjRanks[i]? = some r) :
    (buildPacketLists m adjRanks).entry i =
      (((cellFaceAngles m).filter fun t =>
          decide (m.getAdjRank t.1 t.2.1 = r) && m.isOutgoing t.2.2 t.1 t.2.1).map m.metaDataOf,
       (cellFaceAngles m).countP (fun t =>
          decide (m.getAdjRank t.1 t.2.1 = r) && m.isOutgoing t.2.2 t.1 t.2.1),
       (cellFaceAngles m).countP (fun t =>
          decide (m.getAdjRank t.1 t.2.1 = r) && !m.isOutgoing t.2.2 t.1 t.2.1)) := by
  have hi : i < adjRanks.length := by
    by_contra h
    rw [List.getElem?_eq_none (by omega)] at hr
    exact Option.noConfusion hr
  rw [buildPacketLists_eq]
  exact buildLoop_entry m adjRanks adjRanks.length (le_refl _) i r hi hr

theorem mem_cellFaceAngles (m : TychoMesh) (t : Nat × Nat × Nat) :
    t ∈ cellFaceAngles m ↔ t.1 < m.nCells ∧ t.2.1 < m.nFacePerCell ∧ t.2.2 < m.nAngles := by
  obtain ⟨c, f, a⟩ := t
  simp [cellFaceAngles, List.mem_product]

theorem cellFaceAngles_nodup (m : TychoMesh) : (cellFaceAngles m).Nodup :=
  List.Nodup.product (List.nodup_range _)
    (List.Nodup.product (List.nodup_range _) (List.nodup_range _))

theorem metaDataOf_injective (m : TychoMesh) : Function.Injective m.metaDataOf := by
  rintro ⟨c, f, a⟩ ⟨c', f', a'⟩ h
  simp only [TychoMesh.metaDataOf, MetaData.mk.injEq] at h
  obtain ⟨_, rfl, rfl, rfl⟩ := h
  rfl

/-- C7. Build phase, send list: for every `rankIndex` with
`adjRanks[rankIndex] == r`, `sendMetaData[rankIndex]` is the list of records
`{getLGSide(getSide(cell, face)), angle, cell, face}` over all
`(cell, face, angle)`, cell-major, then face, then angle, with
`getAdjRank(cell, face) == r` and `isOutgoing(angle, cell, face)`; it holds
those records only and none twice. -/
theorem build_send_list (m : TychoMesh) (adjRanks : List Nat) (i r : Nat)
    (hr : adjRanks[i]? = some r) :
    (buildPacketLists m adjRanks).sendMetaData i =
      ((cellFaceAngles m).filter fun t =>
        decide (m.getAdjRank t.1 t.2.1 = r) && m.isOutgoing t.2.2 t.1 t.2.1).map m.metaDataOf ∧
    ((buildPacketLists m adjRanks).sendMetaData i).Nodup ∧
    ∀ md : MetaData, md ∈ (buildPacketLists m adjRanks).sendMetaData i ↔
      ∃ cell face angle, cell < m.nCells ∧ face < m.nFacePerCell ∧ angle < m.nAngles ∧
        m.getAdjRank cell face = r ∧ m.isOutgoing angle cell face = true ∧
        md = { gSide := m.getLGSide (m.getSide cell face), angle := angle, cell := cell,
               face := face } := by
  have h := buildPacketLists_entry m adjRanks i r hr
  simp only [PacketLists.entry, Prod.mk.injEq] at h
  refine ⟨h.1, ?_, ?_⟩
  · rw [h.1]
    exact ((cellFaceAngles_nodup m).filter _).map (metaDataOf_injective m)
  · intro md
    rw [h.1]
    simp only [List.mem_map, List.mem_filter, mem_cellFaceAngles, Bool.and_eq_true,
      decide_eq_true_eq]
    constructor
    · rintro ⟨⟨c, f, a⟩, ⟨⟨hc, hf, ha⟩, h1, h2⟩, rfl⟩
      exact ⟨c, f, a, hc, hf, ha, h1, h2, rfl⟩
    · rintro ⟨c, f, a, hc, hf, ha, h1, h2, rfl⟩
      exact ⟨(c, f, a), ⟨⟨hc, hf, ha⟩, h1, h2⟩, rfl⟩

theorem build_send_list_witness :
    getAdjRanks exampleMesh = [1, 2] ∧
    (buildPacketLists exampleMesh (getAdjRanks exampleMesh)).sendMetaData 0 =
      [{ gSide := 101, angle := 0, cell := 0, face := 1 }] :=
  ⟨by decide, (build_send_list exampleMesh (getAdjRanks exampleMesh) 0 1 (by decide)).1.trans
    (by decide)⟩

/-- C8. Build phase, receive count: on a mesh that reports a face as incoming
exactly when it is not outgoing, for every `rankIndex` with
`adjRanks[rankIndex] == r`, `numRecvPackets[rankIndex]` is the number of
`(cell, face, angle)` triples with `getAdjRank(cell, face) == r` and
`isIncoming(angle, cell, face)`. -/
theorem build_recv_count (m : TychoMesh) (hio : m.IncomingIffNotOutgoing) (adjRanks : List Nat)
    (i r : Nat) (hr : adjRanks[i]? = some r) :
    (buildPacketLists m adjRanks).numRecvPackets i =
      (cellFaceAngles m).countP fun t =>
        decide (m.getAdjRank t.1 t.2.1 = r) && m.isIncoming t.2.2 t.1 t.2.1 := by
  have h := buildPacketLists_entry m adjRanks i r hr
  simp only [PacketLists.entry, Prod.mk.injEq] at h
  rw [h.2.2]
  apply List.countP_congr
  intro t ht
  rw [mem_cellFaceAngles] at ht
  rw [hio t.1 ht.1 t.2.1 ht.2.1 t.2.2 ht.2.2]

theorem build_recv_count_witness :
    exampleMesh.IncomingIffNotOutgoing ∧
    (buildPacketLists exampleMesh (getAdjRanks exampleMesh)).numRecvPackets 1 = 1 :=
  ⟨by decide, (build_recv_count exampleMesh (by decide) (getAdjRanks exampleMesh) 1 2
    (by decide)).trans (by decide)⟩

/-! ## Claim C9: transport faults are fatal -/

theorem faultsFatal_running {σ : Type} (code : Nat → Int) (r : CommRun σ)
    (h : FaultsFatal code r) (hrun : r.status = .running) :
    ∀ k < r.calls.length, code k = MPI_SUCCESS := by
  intro k hk
  by_contra hne
  have := (h k hk hne).1
  rw [hrun] at this
  exact Status.noConfusion this

theorem faultsFatal_of_calls_eq {σ : Type} (code : Nat → Int) (r r' : CommRun σ)
    (h : FaultsFatal code r) (hrun : r.status = .running) (hc : r'.calls = r.calls) :
    FaultsFatal code r' := by
  intro k hk hne
  rw [hc] at hk
  exact absurd (faultsFatal_running code r h hrun k hk) hne

theorem faultsFatal_transportCall {σ : Type} (code : Nat → Int) (c : MpiCall) (r : CommRun σ)
    (h : FaultsFatal code r) (hrun : r.status = .running) :
    FaultsFatal code (transportCall code c r) := by
  intro k hk hne
  have hcalls : (transportCall code c r).calls = r.calls ++ [c] := rfl
  rw [hcalls, List.length_append, List.length_singleton] at hk ⊢
  by_cases hkl : k < r.calls.length
  · exact absurd (faultsFatal_running code r h hrun k hkl) hne
  · have hk' : k = r.calls.length := by omega
    subst hk'
    refine ⟨?_, rfl⟩
    unfold transportCall Insist
    dsimp only
    rw [if_neg (by simpa using hne)]

theorem faultsFatal_whenRunning {σ : Type} (code : Nat → Int) (f : CommRun σ → CommRun σ)
    (hf : ∀ r, FaultsFatal code r → r.status = .running → FaultsFatal code (f r))
    (r : CommRun σ) (h : FaultsFatal code r) : FaultsFatal code (whenRunning f r) := by
  unfold whenRunning
  split
  · rename_i hs; exact hf r h hs
  · exact h

theorem faultsFatal_forLoop {σ : Type} (code : Nat → Int) (n : Nat)
    (body : Nat → CommRun σ → CommRun σ)
    (hb : ∀ i r, FaultsFatal code r → FaultsFatal code (body i r))
    (r : CommRun σ) (h : FaultsFatal code r) : FaultsFatal code (forLoop n body r) := by
  induction n with
  | zero => simpa [forLoop] using h
  | succ n ih => rw [forLoop_succ]; exact hb n _ ih

theorem faultsFatal_resizePhase {σ : Type} (sd : SweepDataSchur σ) (code : Nat → Int)
    (n : Nat) (ns nr : Nat → Nat) (r : CommRun σ) (h : FaultsFatal code r) :
    FaultsFatal code (resizePhase sd n ns nr r) := by
  unfold resizePhase
  refine faultsFatal_forLoop code n _ (fun i r hr => ?_) r h
  exact hr

theorem faultsFatal_irecvPhase {σ : Type} (code : Nat → Int) (n : Nat) (r : CommRun σ)
    (h : FaultsFatal code r) : FaultsFatal code (irecvPhase code n r) := by
  unfold irecvPhase
  refine faultsFatal_forLoop code n _ (fun i r hr => ?_) _ h
  refine faultsFatal_whenRunning code _ (fun r hr hrun => ?_) r hr
  split
  · dsimp only
    apply faultsFatal_whenRunning
    · intro r' hr' hrun'
      exact faultsFatal_of_calls_eq code r' _ hr' hrun' rfl
    · exact faultsFatal_transportCall code _ r hr hrun
  · exact hr

theorem faultsFatal_isendPhase {σ : Type} (sd : SweepDataSchur σ) (code : Nat → Int) (n : Nat)
    (smd : Nat → List MetaData) (r : CommRun σ) (h : FaultsFatal code r) :
    FaultsFatal code (isendPhase sd code n smd r) := by
  unfold isendPhase
  refine faultsFatal_forLoop code n _ (fun i r hr => ?_) _ h
  refine faultsFatal_whenRunning code _ (fun r hr hrun => ?_) r hr
  split
  · split
    · exact faultsFatal_of_calls_eq code r _ hr hrun rfl
    · dsimp only
      apply faultsFatal_whenRunning
      · intro r' hr' hrun'
        exact faultsFatal_of_calls_eq code r' _ hr' hrun' rfl
      · exact faultsFatal_transportCall code _ _ hr hrun
  · exact hr

theorem faultsFatal_waitanyPhase {σ : Type} (m : TychoMesh) (sd : SweepDataSchur σ)
    (tr : Transport) (r : CommRun σ) (h : FaultsFatal tr.code r) :
    FaultsFatal tr.code (waitanyPhase m sd tr r) := by
  unfold waitanyPhase
  refine faultsFatal_forLoop tr.code _ _ (fun i r hr => ?_) _ h
  refine faultsFatal_whenRunning tr.code _ (fun r hr hrun => ?_) r hr
  unfold waitanyStep
  dsimp only
  apply faultsFatal_whenRunning
  · intro r' hr' hrun'
    exact faultsFatal_of_calls_eq tr.code r' _ hr' hrun' rfl
  · exact faultsFatal_transportCall tr.code _ r hr hrun

theorem faultsFatal_waitallPhase {σ : Type} (code : Nat → Int) (n : Nat) (r : CommRun σ)
    (h : FaultsFatal code r) : FaultsFatal code (waitallPhase code n r) := by
  unfold waitallPhase
  refine faultsFatal_whenRunning code _ (fun r hr hrun => ?_) r h
  split
  · exact faultsFatal_transportCall code _ r hr hrun
  · exact hr

theorem faultsFatal_commSides {σ : Type} (m : TychoMesh) (sd : SweepDataSchur σ)
    (tr : Transport) (adjRanks : List Nat) (sendMetaData : Nat → List MetaData)
    (numSendPackets numRecvPackets : Nat → Nat) (st : σ) :
    FaultsFatal tr.code
      (commSides m sd tr adjRanks sendMetaData numSendPackets numRecvPackets st) := by
  unfold commSides
  apply faultsFatal_waitallPhase
  apply faultsFatal_whenRunning _ _ (fun r hr _ => faultsFatal_waitanyPhase m sd tr r hr)
  apply faultsFatal_isendPhase
  apply faultsFatal_irecvPhase
  apply faultsFatal_resizePhase
  intro k hk
  simp at hk

/-- C9. Transport faults are fatal: `commSides` returns normally only if every
`MPI_Irecv`, `MPI_Isend`, `MPI_Waitany` and `MPI_Waitall` call it made returned
`MPI_SUCCESS`; a call that returns another code is the last transport call
made, and the process aborts at it. -/
theorem transport_faults_fatal {σ : Type} (m : TychoMesh) (sd : SweepDataSchur σ)
    (tr : Transport) (adjRanks : List Nat) (sendMetaData : Nat → List MetaData)
    (numSendPackets numRecvPackets : Nat → Nat) (st : σ) :
    ((commSides m sd tr adjRanks sendMetaData numSendPackets numRecvPackets st).status
        = .running →
      ∀ k < (commSides m sd tr adjRanks sendMetaData numSendPackets
          numRecvPackets st).calls.length, tr.code k = MPI_SUCCESS) ∧
    (∀ k < (commSides m sd tr adjRanks sendMetaData numSendPackets
          numRecvPackets st).calls.length, tr.code k ≠ MPI_SUCCESS →
      (commSides m sd tr adjRanks sendMetaData numSendPackets numRecvPackets st).status
        = .aborted ∧
      (commSides m sd tr adjRanks sendMetaData numSendPackets
          numRecvPackets st).calls.length = k + 1) :=
  ⟨faultsFatal_running _ _ (faultsFatal_commSides m sd tr adjRanks sendMetaData
      numSendPackets numRecvPackets st),
    faultsFatal_commSides m sd tr adjRanks sendMetaData numSendPackets numRecvPackets st⟩

/-! ## Claim C6: completion order of the receives -/

theorem forLoop_inv {σ : Type} (P : σ → Prop) (n : Nat) (body : Nat → σ → σ)
    (hb : ∀ i s, P s → P (body i s)) (s : σ) (h : P s) : P (forLoop n body s) := by
  induction n with
  | zero => simpa [forLoop] using h
  | succ n ih => rw [forLoop_succ]; exact hb n _ ih

theorem whenRunning_inv {σ : Type} (P : CommRun σ → Prop) (f : CommRun σ → CommRun σ)
    (hf : ∀ r, P r → P (f r)) (r : CommRun σ) (h : P r) : P (whenRunning f r) := by
  unfold whenRunning
  split
  · exact hf r h
  · exact h

theorem whenRunning_of_running {σ : Type} (f : CommRun σ → CommRun σ) (r : CommRun σ)
    (h : r.status = .running) : whenRunning f r = f r := by
  simp [whenRunning, h]

theorem whenRunning_of_not_running {σ : Type} (f : CommRun σ → CommRun σ) (r : CommRun σ)
    (h : r.status ≠ .running) : whenRunning f r = r := by
  unfold whenRunning
  split
  · rename_i hs; exact absurd hs h
  · rfl

theorem resizePhase_dataToRecv {σ : Type} (sd : SweepDataSchur σ) (n : Nat)
    (ns nr : Nat → Nat) (r : CommRun σ) (i : Nat) :
    ((resizePhase sd n ns nr r).dataToRecv i).length =
      if i < n then packetSize sd * nr i else (r.dataToRecv i).length := by
  unfold resizePhase
  induction n with
  | zero => simp [forLoop]
  | succ n ih =>
    rw [forLoop_succ]
    simp only [store]
    by_cases hin : i = n
    · subst hin; simp
    · rw [if_neg hin, ih]
      by_cases h : i < n
      · rw [if_pos h, if_pos (by omega)]
      · rw [if_neg h, if_neg (by omega)]

theorem irecvPhase_dataToRecv {σ : Type} (code : Nat → Int) (n : Nat) (r : CommRun σ) :
    (irecvPhase code n r).dataToRecv = r.dataToRecv ∧
    (irecvPhase code n r).sweepData = r.sweepData := by
  unfold irecvPhase
  refine forLoop_inv
    (fun r' : CommRun σ => r'.dataToRecv = r.dataToRecv ∧ r'.sweepData = r.sweepData)
    n _ (fun i r' hr' => ?_) _ ⟨rfl, rfl⟩
  refine whenRunning_inv
    (fun x : CommRun σ => x.dataToRecv = r.dataToRecv ∧ x.sweepData = r.sweepData)
    _ (fun r'' hr'' => ?_) r' hr'
  split
  · dsimp only
    apply whenRunning_inv
      (fun x : CommRun σ => x.dataToRecv = r.dataToRecv ∧ x.sweepData = r.sweepData)
    · intro x hx; exact hx
    · exact hr''
  · exact hr''

theorem isendPhase_dataToRecv {σ : Type} (sd : SweepDataSchur σ) (code : Nat → Int) (n : Nat)
    (smd : Nat → List MetaData) (r : CommRun σ) :
    (isendPhase sd code n smd r).dataToRecv = r.dataToRecv ∧
    (isendPhase sd code n smd r).sweepData = r.sweepData := by
  unfold isendPhase
  refine forLoop_inv
    (fun r' : CommRun σ => r'.dataToRecv = r.dataToRecv ∧ r'.sweepData = r.sweepData)
    n _ (fun i r' hr' => ?_) _ ⟨rfl, rfl⟩
  refine whenRunning_inv
    (fun x : CommRun σ => x.dataToRecv = r.dataToRecv ∧ x.sweepData = r.sweepData)
    _ (fun r'' hr'' => ?_) r' hr'
  split
  · split
    · exact hr''
    · dsimp only
      apply whenRunning_inv
        (fun x : CommRun σ => x.dataToRecv = r.dataToRecv ∧ x.sweepData = r.sweepData)
      · intro x hx; exact hx
      · exact hr''
  · exact hr''

theorem waitallPhase_frame {σ : Type} (code : Nat → Int) (n : Nat) (r : CommRun σ) :
    (waitallPhase code n r).sweepData = r.sweepData ∧
    (waitallPhase code n r).numToRecv = r.numToRecv := by
  unfold waitallPhase
  refine whenRunning_inv
    (fun x : CommRun σ => x.sweepData = r.sweepData ∧ x.numToRecv = r.numToRecv) _
    (fun x hx => ?_) r ⟨rfl, rfl⟩
  split
  · exact hx
  · exact hx

theorem transportCall_status_ok {σ : Type} (code : Nat → Int)
    (hok : ∀ k, code k = MPI_SUCCESS) (c : MpiCall) (r : CommRun σ)
    (hrun : r.status = .running) :
    (transportCall code c r).status = .running := by
  simp [transportCall, Insist, hok, hrun]

theorem resizePhase_frame {σ : Type} (sd : SweepDataSchur σ) (n : Nat)
    (ns nr : Nat → Nat) (r : CommRun σ) :
    (resizePhase sd n ns nr r).status = r.status ∧
    (resizePhase sd n ns nr r).sweepData = r.sweepData := by
  unfold resizePhase
  apply forLoop_inv (fun x : CommRun σ => x.status = r.status ∧ x.sweepData = r.sweepData)
  · intro i x hx; exact hx
  · exact ⟨rfl, rfl⟩

theorem irecvLoop_count {σ : Type} (code : Nat → Int) (hok : ∀ k, code k = MPI_SUCCESS)
    (r : CommRun σ) (hrun : r.status = .running) (n : Nat) :
    (irecvPhase code n r).status = .running ∧
    (irecvPhase code n r).numToRecv =
      ((List.range n).filter fun i => decide (0 < (r.dataToRecv i).length)).length := by
  have hd : ∀ k, (irecvPhase code k r).dataToRecv = r.dataToRecv :=
    fun k => (irecvPhase_dataToRecv code k r).1
  induction n with
  | zero => simp [irecvPhase, forLoop, hrun]
  | succ n ih =>
    have hstep : irecvPhase code (n + 1) r =
        whenRunning (fun r =>
          if (r.dataToRecv n).length > 0 then
            let r := transportCall code (.Irecv n) r
            whenRunning (fun r =>
              { r with
                mpiRecvRequests := store r.mpiRecvRequests n true
                numToRecv := r.numToRecv + 1 }) r
          else
            { r with mpiRecvRequests := store r.mpiRecvRequests n false })
          (irecvPhase code n r) := by
      simp only [irecvPhase, forLoop_succ]
    rw [hstep, whenRunning_of_running _ _ ih.1, hd n]
    rw [List.range_succ, List.filter_append, List.length_append]
    by_cases hpos : 0 < (r.dataToRecv n).length
    · rw [if_pos hpos]
      dsimp only
      rw [whenRunning_of_running _ (transportCall code (.Irecv n) (irecvPhase code n r))
        (transportCall_status_ok code hok _ _ ih.1)]
      refine ⟨transportCall_status_ok code hok (.Irecv n) _ ih.1, ?_⟩
      simp [transportCall, Insist, ih.2, hpos]
    · rw [if_neg hpos]
      refine ⟨ih.1, ?_⟩
      simp [ih.2, hpos]

theorem isendPhase_numToRecv {σ : Type} (sd : SweepDataSchur σ) (code : Nat → Int) (n : Nat)
    (smd : Nat → List MetaData) (r : CommRun σ) :
    (isendPhase sd code n smd r).numToRecv = r.numToRecv := by
  unfold isendPhase
  refine forLoop_inv (fun r' : CommRun σ => r'.numToRecv = r.numToRecv)
    n _ (fun i r' hr' => ?_) _ rfl
  refine whenRunning_inv (fun x : CommRun σ => x.numToRecv = r.numToRecv)
    _ (fun r'' hr'' => ?_) r' hr'
  split
  · split
    · exact hr''
    · dsimp only
      apply whenRunning_inv (fun x : CommRun σ => x.numToRecv = r.numToRecv)
      · intro x hx; exact hx
      · exact hr''
  · exact hr''

theorem delivered_length (tr : Transport) (i size : Nat) :
    (tr.delivered i size).length = size := by
  simp [Transport.delivered]

theorem waitanyStep_ok {σ : Type} (m : TychoMesh) (sd : SweepDataSchur σ) (tr : Transport)
    (hok : ∀ k, tr.code k = MPI_SUCCESS) (j : Nat) (r : CommRun σ)
    (hrun : r.status = .running) :
    (waitanyStep m sd tr j r).status = .running ∧
    (∀ i, ((waitanyStep m sd tr j r).dataToRecv i).length = (r.dataToRecv i).length) ∧
    (waitanyStep m sd tr j r).sweepData =
      processRecvBuffer m sd
        (tr.delivered (tr.waitIndex j) (r.dataToRecv (tr.waitIndex j)).length) r.sweepData := by
  unfold waitanyStep
  dsimp only
  have t1 := transportCall_status_ok tr.code hok .Waitany r hrun
  rw [whenRunning_of_running _ (transportCall tr.code .Waitany r) t1]
  refine ⟨t1, ?_, ?_⟩
  · intro i
    simp only [transportCall, Insist, store]
    split
    · rename_i hi
      rw [delivered_length, hi]
    · rfl
  · simp only [transportCall, Insist]

theorem waitanyLoop_ok {σ : Type} (m : TychoMesh) (sd : SweepDataSchur σ) (tr : Transport)
    (hok : ∀ k, tr.code k = MPI_SUCCESS) (r : CommRun σ) (hrun : r.status = .running)
    (n : Nat) :
    (forLoop n (fun numWaits => whenRunning (waitanyStep m sd tr numWaits)) r).status
      = .running ∧
    (∀ i, ((forLoop n (fun numWaits => whenRunning (waitanyStep m sd tr numWaits))
      r).dataToRecv i).length = (r.dataToRecv i).length) ∧
    (forLoop n (fun numWaits => whenRunning (waitanyStep m sd tr numWaits)) r).sweepData =
      ((List.range n).map tr.waitIndex).foldl
        (fun st i => processRecvBuffer m sd (tr.delivered i (r.dataToRecv i).length) st)
        r.sweepData := by
  induction n with
  | zero => simp [forLoop, hrun]
  | succ n ih =>
    obtain ⟨h1, h2, h3⟩ := ih
    rw [forLoop_succ, whenRunning_of_running _ _ h1]
    obtain ⟨g1, g2, g3⟩ := waitanyStep_ok m sd tr hok n
      (forLoop n (fun numWaits => whenRunning (waitanyStep m sd tr numWaits)) r) h1
    refine ⟨g1, fun i => (g2 i).trans (h2 i), ?_⟩
    rw [g3, h2, h3]
    simp only [List.range_succ, List.map_append, List.map_cons, List.map_nil,
      List.foldl_append, List.foldl_cons, List.foldl_nil]

theorem commSides_eq {σ : Type} (m : TychoMesh) (sd : SweepDataSchur σ) (tr : Transport)
    (adjRanks : List Nat) (smd : Nat → List MetaData) (ns nr : Nat → Nat) (st : σ) :
    commSides m sd tr adjRanks smd ns nr st =
      waitallPhase tr.code adjRanks.length
        (whenRunning (waitanyPhase m sd tr)
          (afterSends sd tr.code adjRanks.length smd ns nr st)) := rfl

theorem afterSends_facts {σ : Type} (sd : SweepDataSchur σ) (code : Nat → Int)
    (hok : ∀ k, code k = MPI_SUCCESS) (n : Nat) (smd : Nat → List MetaData)
    (ns nr : Nat → Nat) (st : σ) :
    (afterSends sd code n smd ns nr st).numToRecv = postedReceives sd n nr ∧
    (∀ i, ((afterSends sd code n smd ns nr st).dataToRecv i).length = recvSize sd n nr i) ∧
    (afterSends sd code n smd ns nr st).sweepData = st := by
  unfold afterSends
  have hlen : ∀ i, ((resizePhase sd n ns nr
      { status := .running, calls := [], numToRecv := 0,
        mpiRecvRequests := fun _ => false, mpiSendRequests := fun _ => false,
        dataToSend := fun _ => [], dataToRecv := fun _ => [], sweepData := st }).dataToRecv
          i).length = recvSize sd n nr i := by
    intro i
    rw [resizePhase_dataToRecv]
    simp [recvSize]
  refine ⟨?_, ?_, ?_⟩
  · rw [isendPhase_numToRecv, (irecvLoop_count code hok _ (resizePhase_frame sd n ns nr _).1 n).2]
    unfold postedReceives
    congr 1
    apply List.filter_congr
    intro i _
    rw [hlen]
  · intro i
    rw [(isendPhase_dataToRecv sd code n smd _).1, (irecvPhase_dataToRecv code n _).1, hlen]
  · rw [(isendPhase_dataToRecv sd code n smd _).2, (irecvPhase_dataToRecv code n _).2,
      (resizePhase_frame sd n ns nr _).2]

theorem commSides_sweepData_running {σ : Type} (m : TychoMesh) (sd : SweepDataSchur σ)
    (tr : Transport) (hok : ∀ k, tr.code k = MPI_SUCCESS) (adjRanks : List Nat)
    (smd : Nat → List MetaData) (ns nr : Nat → Nat) (st : σ)
    (hrun : (afterSends sd tr.code adjRanks.length smd ns nr st).status = .running) :
    (commSides m sd tr adjRanks smd ns nr st).sweepData =
      (completionOrder sd tr adjRanks.length nr).foldl
        (fun st i => processRecvBuffer m sd
          (tr.delivered i (recvSize sd adjRanks.length nr i)) st) st := by
  obtain ⟨f1, f2, f3⟩ := afterSends_facts sd tr.code hok adjRanks.length smd ns nr st
  rw [commSides_eq, (waitallPhase_frame _ _ _).1, whenRunning_of_running _ _ hrun]
  unfold waitanyPhase
  rw [(waitanyLoop_ok m sd tr hok _ hrun _).2.2, f1, f3]
  unfold completionOrder
  congr 1
  funext s i
  rw [f2]

theorem commSides_sweepData_stopped {σ : Type} (m : TychoMesh) (sd : SweepDataSchur σ)
    (tr : Transport) (hok : ∀ k, tr.code k = MPI_SUCCESS) (adjRanks : List Nat)
    (smd : Nat → List MetaData) (ns nr : Nat → Nat) (st : σ)
    (hrun : (afterSends sd tr.code adjRanks.length smd ns nr st).status ≠ .running) :
    (commSides m sd tr adjRanks smd ns nr st).sweepData = st := by
  rw [commSides_eq, (waitallPhase_frame _ _ _).1, whenRunning_of_not_running _ _ hrun]
  exact (afterSends_facts sd tr.code hok adjRanks.length smd ns nr st).2.2

theorem foldl_comm_single {σ κ : Type} (g : σ → κ → σ) (p : κ) (Q : List κ) (s : σ)
    (h : ∀ q ∈ Q, ∀ s, g (g s p) q = g (g s q) p) :
    Q.foldl g (g s p) = g (Q.foldl g s) p := by
  induction Q generalizing s with
  | nil => rfl
  | cons q Q ih =>
    simp only [List.foldl_cons]
    rw [h q (List.mem_cons_self _ _), ih _ (fun q' hq' => h q' (List.mem_cons_of_mem _ hq'))]

theorem foldl_comm_foldl {σ κ : Type} (g : σ → κ → σ) (P Q : List κ) (s : σ)
    (h : ∀ p ∈ P, ∀ q ∈ Q, ∀ s, g (g s p) q = g (g s q) p) :
    Q.foldl g (P.foldl g s) = P.foldl g (Q.foldl g s) := by
  induction P generalizing s with
  | nil => rfl
  | cons p P ih =>
    simp only [List.foldl_cons]
    rw [ih _ (fun p' hp' => h p' (List.mem_cons_of_mem _ hp')),
      foldl_comm_single g p Q s (h p (List.mem_cons_self _ _))]

theorem arrivingPackets_out_of_range {σ : Type} (sd : SweepDataSchur σ) (tr : Transport)
    (n : Nat) (nr : Nat → Nat) (i : Nat) (hi : ¬ i < n) :
    arrivingPackets sd tr n nr i = [] := by
  simp [arrivingPackets, recvSize, hi, receivedPackets, Transport.delivered]

theorem slots_disjoint {σ : Type} (m : TychoMesh) (sd : SweepDataSchur σ) (tr : Transport)
    (n : Nat) (nr : Nat → Nat) (hglobal : DistinctGlobalSides sd tr n nr)
    (hinj : GLSideInjective m sd tr n nr) (i j : Nat) (hij : i ≠ j)
    (p q : Nat × Nat × List Byte) (hp : p ∈ arrivingPackets sd tr n nr i)
    (hq : q ∈ arrivingPackets sd tr n nr j) :
    (m.getGLSide p.1, p.2.1) ≠ (m.getGLSide q.1, q.2.1) := by
  have hi : i < n := by
    by_contra h
    rw [arrivingPackets_out_of_range sd tr n nr i h] at hp
    simp at hp
  have hj : j < n := by
    by_contra h
    rw [arrivingPackets_out_of_range sd tr n nr j h] at hq
    simp at hq
  intro heq
  simp only [Prod.mk.injEq] at heq
  exact hglobal i hi j hj hij p hp q hq (hinj i hi j hj p hp q hq heq.1)

theorem process_commute {σ : Type} (m : TychoMesh) (sd : SweepDataSchur σ) (tr : Transport)
    (n : Nat) (nr : Nat → Nat) (hglobal : DistinctGlobalSides sd tr n nr)
    (hinj : GLSideInjective m sd tr n nr) (hslots : SlotWritesCommute sd) (i j : Nat) (st : σ) :
    processRecvBuffer m sd (tr.delivered j (recvSize sd n nr j))
        (processRecvBuffer m sd (tr.delivered i (recvSize sd n nr i)) st) =
      processRecvBuffer m sd (tr.delivered i (recvSize sd n nr i))
        (processRecvBuffer m sd (tr.delivered j (recvSize sd n nr j)) st) := by
  by_cases hij : i = j
  · subst hij; rfl
  · simp only [processRecvBuffer_eq_foldl]
    apply foldl_comm_foldl
    intro p hp q hq s
    exact hslots _ _ _ _ _ _ s (slots_disjoint m sd tr n nr hglobal hinj i j hij p q hp hq)

theorem completionOrder_reversed {σ : Type} (sd : SweepDataSchur σ) (tr : Transport) (n : Nat)
    (nr : Nat → Nat) :
    completionOrder sd (tr.reversed (postedReceives sd n nr)) n nr =
      (completionOrder sd tr n nr).reverse := by
  unfold completionOrder Transport.reversed
  apply List.ext_getElem
  · simp
  · intro i h1 h2
    simp only [List.length_map, List.length_range] at h1
    simp only [List.getElem_map, List.getElem_range, List.getElem_reverse, List.length_map,
      List.length_range]

theorem mem_sendMetaData (m : TychoMesh) (adjRanks : List Nat) (i r : Nat)
    (hr : adjRanks[i]? = some r) (md : MetaData)
    (hmd : md ∈ (buildPacketLists m adjRanks).sendMetaData i) :
    ∃ cell face angle, cell < m.nCells ∧ face < m.nFacePerCell ∧ angle < m.nAngles ∧
      m.getAdjRank cell face = r ∧ m.isOutgoing angle cell face = true ∧
      md = m.metaDataOf (cell, face, angle) := by
  have h := buildPacketLists_entry m adjRanks i r hr
  simp only [PacketLists.entry, Prod.mk.injEq] at h
  rw [h.1] at hmd
  simp only [List.mem_map, List.mem_filter, mem_cellFaceAngles, Bool.and_eq_true,
    decide_eq_true_eq] at hmd
  obtain ⟨⟨c, f, a⟩, ⟨⟨hc, hf, ha⟩, h1, h2⟩, rfl⟩ := hmd
  exact ⟨c, f, a, hc, hf, ha, h1, h2, rfl⟩

/-- The hypothesis `DistinctGlobalSides` of the exchange follows from the build
phase of the neighbors: when the bytes arriving from neighbor `i` are the
packets that neighbor packed from the send list its own build phase made for
this rank `me`, and faces of two distinct neighbors that border `me` have
distinct global side ids, no global side id arrives from two neighbors. -/
theorem distinctGlobalSides_of_build {σ : Type} (sd : SweepDataSchur σ) (tr : Transport)
    (n : Nat) (nr : Nat → Nat) (me : Nat) (senders : Nat → TychoMesh)
    (senderAdj : Nat → List Nat) (senderIdx : Nat → Nat) (senderState : Nat → σ)
    (hadj : ∀ i < n, (senderAdj i)[senderIdx i]? = some me)
    (hdeliv : ∀ i < n, tr.delivered i (recvSize sd n nr i) =
      ((buildPacketLists (senders i) (senderAdj i)).sendMetaData (senderIdx i)).flatMap
        (packetBytes sd (senderState i)))
    (hU : ∀ i < n, (senders i).nAngles ≤ 2 ^ 64 ∧
      ∀ c f, (senders i).getLGSide ((senders i).getSide c f) < 2 ^ 64)
    (hfaces : ∀ i < n, ∀ j < n, i ≠ j → ∀ c f c' f',
      (senders i).getAdjRank c f = me → (senders j).getAdjRank c' f' = me →
      (senders i).getLGSide ((senders i).getSide c f) ≠
        (senders j).getLGSide ((senders j).getSide c' f')) :
    DistinctGlobalSides sd tr n nr := by
  have key : ∀ i < n, ∀ p ∈ arrivingPackets sd tr n nr i, ∃ c f,
      (senders i).getAdjRank c f = me ∧
      p.1 = (senders i).getLGSide ((senders i).getSide c f) := by
    intro i hi p hp
    unfold arrivingPackets at hp
    rw [hdeliv i hi, receivedPackets_packets] at hp
    · simp only [List.mem_map] at hp
      obtain ⟨r, hr, rfl⟩ := hp
      obtain ⟨c, f, a, _, _, _, h1, _, rfl⟩ :=
        mem_sendMetaData (senders i) (senderAdj i) (senderIdx i) me (hadj i hi) r hr
      exact ⟨c, f, h1, rfl⟩
    · intro r hr
      obtain ⟨c, f, a, _, _, ha, _, _, rfl⟩ :=
        mem_sendMetaData (senders i) (senderAdj i) (senderIdx i) me (hadj i hi) r hr
      exact ⟨(hU i hi).2 c f, lt_of_lt_of_le ha (hU i hi).1⟩
  intro i hi j hj hij p hp q hq
  obtain ⟨c, f, h1, e1⟩ := key i hi p hp
  obtain ⟨c', f', h2, e2⟩ := key j hj q hq
  rw [e1, e2]
  exact hfaces i hi j hj hij c f c' f' h1 h2

theorem commSides_perm {σ : Type} (m : TychoMesh) (sd : SweepDataSchur σ)
    (tr tr' : Transport) (adjRanks : List Nat) (smd : Nat → List MetaData)
    (ns nr : Nat → Nat) (st : σ)
    (hok : ∀ k, tr.code k = MPI_SUCCESS) (hok' : ∀ k, tr'.code k = MPI_SUCCESS)
    (hbytes : tr'.recvByte = tr.recvByte)
    (hperm : (completionOrder sd tr' adjRanks.length nr).Perm
      (completionOrder sd tr adjRanks.length nr))
    (hglobal : DistinctGlobalSides sd tr adjRanks.length nr)
    (hinj : GLSideInjective m sd tr adjRanks.length nr) (hslots : SlotWritesCommute sd) :
    (commSides m sd tr' adjRanks smd ns nr st).sweepData =
      (commSides m sd tr adjRanks smd ns nr st).sweepData := by
  have hc : tr'.code = tr.code := funext fun k => (hok' k).trans (hok k).symm
  have hd : tr'.delivered = tr.delivered := by
    funext i size
    simp [Transport.delivered, hbytes]
  by_cases hrun : (afterSends sd tr.code adjRanks.length smd ns nr st).status = .running
  · rw [commSides_sweepData_running m sd tr hok adjRanks smd ns nr st hrun,
      commSides_sweepData_running m sd tr' hok' adjRanks smd ns nr st (by rw [hc]; exact hrun),
      hd]
    refine List.Perm.foldl_eq' hperm ?_ st
    intro x _ y _ z
    exact process_commute m sd tr adjRanks.length nr hglobal hinj hslots x y z
  · rw [commSides_sweepData_stopped m sd tr hok adjRanks smd ns nr st hrun,
      commSides_sweepData_stopped m sd tr' hok' adjRanks smd ns nr st (by rw [hc]; exact hrun)]

/-- C6. Packet disjointness and order independence: when no global side id
arrives from two distinct neighbors and `getGLSide` is injective on the arriving
ids, packets from two distinct neighbors never address the same `(side, angle)`
slot; hence, `setSideData` writing only the slot it is given and every transport
call succeeding, `commSides` ends with the same sweep data whatever order
`MPI_Waitany` reports the completed receives in, the reversed order included. -/
theorem completion_order_independent {σ : Type} (m : TychoMesh) (sd : SweepDataSchur σ)
    (tr tr' : Transport) (adjRanks : List Nat) (smd : Nat → List MetaData)
    (ns nr : Nat → Nat) (st : σ)
    (hok : ∀ k, tr.code k = MPI_SUCCESS) (hok' : ∀ k, tr'.code k = MPI_SUCCESS)
    (hbytes : tr'.recvByte = tr.recvByte)
    (hperm : (completionOrder sd tr' adjRanks.length nr).Perm
      (completionOrder sd tr adjRanks.length nr))
    (hglobal : DistinctGlobalSides sd tr adjRanks.length nr)
    (hinj : GLSideInjective m sd tr adjRanks.length nr) (hslots : SlotWritesCommute sd) :
    (∀ i j, i ≠ j →
      ∀ p ∈ arrivingPackets sd tr adjRanks.length nr i,
      ∀ q ∈ arrivingPackets sd tr adjRanks.length nr j,
        (m.getGLSide p.1, p.2.1) ≠ (m.getGLSide q.1, q.2.1)) ∧
    (commSides m sd tr' adjRanks smd ns nr st).sweepData =
      (commSides m sd tr adjRanks smd ns nr st).sweepData ∧
    (commSides m sd (tr.reversed (postedReceives sd adjRanks.length nr))
        adjRanks smd ns nr st).sweepData =
      (commSides m sd tr adjRanks smd ns nr st).sweepData := by
  refine ⟨?_, ?_, ?_⟩
  · intro i j hij p hp q hq
    exact slots_disjoint m sd tr adjRanks.length nr hglobal hinj i j hij p q hp hq
  · exact commSides_perm m sd tr tr' adjRanks smd ns nr st hok hok' hbytes hperm hglobal hinj
      hslots
  · refine commSides_perm m sd tr _ adjRanks smd ns nr st hok hok rfl ?_ hglobal hinj hslots
    rw [completionOrder_reversed]
    exact List.reverse_perm _

theorem exampleSweepData_commute : SlotWritesCommute exampleSweepData := by
  intro side angle side' angle' d d' st hne
  funext s a
  simp only [exampleSweepData]
  by_cases h1 : s = side' ∧ a = angle'
  · by_cases h2 : s = side ∧ a = angle
    · exfalso
      apply hne
      rw [← h1.1, ← h1.2, ← h2.1, ← h2.2]
    · rw [if_pos h1, if_neg h2, if_pos h1]
  · by_cases h2 : s = side ∧ a = angle
    · rw [if_neg h1, if_pos h2, if_pos h2]
    · rw [if_neg h1, if_neg h2, if_neg h2, if_neg h1]

theorem completion_order_independent_witness :
    (commSides exampleMesh exampleSweepData (exampleTransport.reversed 2) [1, 2]
        (buildPacketLists exampleMesh [1, 2]).sendMetaData
        (buildPacketLists exampleMesh [1, 2]).numSendPackets
        (buildPacketLists exampleMesh [1, 2]).numRecvPackets (fun _ _ => [])).sweepData =
      (commSides exampleMesh exampleSweepData exampleTransport [1, 2]
        (buildPacketLists exampleMesh [1, 2]).sendMetaData
        (buildPacketLists exampleMesh [1, 2]).numSendPackets
        (buildPacketLists exampleMesh [1, 2]).numRecvPackets (fun _ _ => [])).sweepData :=
  (completion_order_independent exampleMesh exampleSweepData exampleTransport
    (exampleTransport.reversed 2) [1, 2] _ _ _ (fun _ _ => [])
    (fun _ => rfl) (fun _ => rfl) rfl (by decide) (by decide) (by decide)
    exampleSweepData_commute).2.1

theorem transport_faults_fatal_witness :
    (commSides exampleMesh exampleSweepData faultyTransport [1, 2]
        (buildPacketLists exampleMesh [1, 2]).sendMetaData
        (buildPacketLists exampleMesh [1, 2]).numSendPackets
        (buildPacketLists exampleMesh [1, 2]).numRecvPackets (fun _ _ => [])).status
      = .aborted ∧
    (commSides exampleMesh exampleSweepData faultyTransport [1, 2]
        (buildPacketLists exampleMesh [1, 2]).sendMetaData
        (buildPacketLists exampleMesh [1, 2]).numSendPackets
        (buildPacketLists exampleMesh [1, 2]).numRecvPackets (fun _ _ => [])).calls
      = [.Irecv 0, .Irecv 1] :=
  ⟨((transport_faults_fatal exampleMesh exampleSweepData faultyTransport [1, 2]
      (buildPacketLists exampleMesh [1, 2]).sendMetaData
      (buildPacketLists exampleMesh [1, 2]).numSendPackets
      (buildPacketLists exampleMesh [1, 2]).numRecvPackets (fun _ _ => [])).2 1
      (by decide) (by decide)).1, by decide⟩

/-! ## Claim C10: the previous solution is the next initial guess -/

/-- C10. Initial-guess reuse: on a mesh whose inter-partition boundary faces
have pairwise distinct side ids, if a call of `SweeperSchur::sweep` ends with
Krylov solution `x`, then in the next call on an object holding the same
`c_psiBoundPrev` the initial guess written into the solver,
`psiBoundToVec` of `c_psiBoundPrev`, equals `x` at every index below
`getVecSize()`. -/
theorem initial_guess_reuse {α W : Type} [Zero α] [Sub α] (m : TychoMesh)
    (hd : m.DistinctSides) (env : Collaborators α W) (ks : KrylovSolver α W)
    (self next : SweeperSchur α W) (psi source psi' source' : PsiData α)
    (hnext : next.c_psiBoundPrev = (SweeperSchur.sweep m env ks self psi source).self.c_psiBoundPrev)
    (i : Nat) (hi : i < getVecSize m) :
    (SweeperSchur.sweep m env ks next psi' source').initialGuess i =
      (SweeperSchur.sweep m env ks self psi source).solution i := by
  simp only [SweeperSchur.sweep] at hnext ⊢
  rw [hnext]
  exact psiBoundToVec_vecToPsiBound m hd _ _ _ i hi

theorem initial_guess_reuse_witness :
    (SweeperSchur.sweep exampleMesh exampleCollaborators exampleSolver
      (SweeperSchur.sweep exampleMesh exampleCollaborators exampleSolver exampleSweeper
        (setToValue 0) (setToValue 1)).self (setToValue 0) (setToValue 1)).initialGuess 5 =
    (SweeperSchur.sweep exampleMesh exampleCollaborators exampleSolver exampleSweeper
        (setToValue 0) (setToValue 1)).solution 5 ∧
    (SweeperSchur.sweep exampleMesh exampleCollaborators exampleSolver exampleSweeper
        (setToValue 0) (setToValue 1)).solution 5 = 17 :=
  ⟨initial_guess_reuse exampleMesh (by decide) exampleCollaborators exampleSolver
    exampleSweeper _ (setToValue 0) (setToValue 1) (setToValue 0) (setToValue 1) rfl 5
    (by decide), by decide⟩

/-! ## Claim C11: the work counter of the plain driver -/

theorem runCalls_iters {α W : Type} [Zero α] [Sub α] (m : TychoMesh)
    (env : Collaborators α W) (ks : KrylovSolver α W) (calls : SweepCalls α)
    (self : SweeperSchur α W) :
    (SweeperSchur.runCalls m env ks calls self).1.c_iters =
      self.c_iters + (2 * (SweeperSchur.runCalls m env ks calls self).2.length +
        (SweeperSchur.runCalls m env ks calls self).2.sum) := by
  induction calls generalizing self with
  | done => simp [SweeperSchur.runCalls]
  | call psi source next ih =>
    simp only [SweeperSchur.runCalls, List.length_cons, List.sum_cons]
    rw [ih]
    simp only [SweeperSchur.sweep]
    omega

/-- C11. Work counter of the plain driver: a call of `SweeperSchur::sweep`
increases `c_iters` by exactly 2 plus the Krylov iteration count of that call,
and `SweeperSchur::solve`, which sets `c_iters` to 0 before iterating, ends
with `c_iters = 2 * k + its_1 + ... + its_k` for the `k` sweep calls made and
their iteration counts whatever value `c_iters` had before. -/
theorem work_counter {α W : Type} [Zero α] [Sub α] (m : TychoMesh)
    (env : Collaborators α W) (ks : KrylovSolver α W) (si : SourceIteration α)
    (freshX freshB : Nat → α) (self : SweeperSchur α W) (psi source : PsiData α) :
    (SweeperSchur.sweep m env ks self psi source).self.c_iters =
      self.c_iters + (2 + (SweeperSchur.sweep m env ks self psi source).its) ∧
    (SweeperSchur.solve m env ks si freshX freshB self).1.c_iters =
      2 * (SweeperSchur.solve m env ks si freshX freshB self).2.length +
        (SweeperSchur.solve m env ks si freshX freshB self).2.sum := by
  refine ⟨rfl, ?_⟩
  unfold SweeperSchur.solve
  dsimp only
  split <;> rw [runCalls_iters] <;> simp

theorem work_counter_example :
    (SweeperSchur.solve exampleMesh exampleCollaborators exampleSolver exampleSourceIteration
      (fun _ => 0) (fun _ => 0) { exampleSweeper with c_iters := 77 }).2 = [4, 4, 4] ∧
    (SweeperSchur.solve exampleMesh exampleCollaborators exampleSolver exampleSourceIteration
      (fun _ => 0) (fun _ => 0) { exampleSweeper with c_iters := 77 }).1.c_iters = 18 := by
  decide

/-! ## Claim C12: the inner iteration of the outer operator -/

theorem schurOuter_logged_step {α W : Type} [Zero α] [Sub α] (m : TychoMesh)
    (env : Collaborators α W) (x b : Nat → α) (data : SchurData α (W × List (InnerCall α))) :
    ∃ its : Nat,
      (SchurOuter m env.logged x b data).2.source = setToValue 0 ∧
      (SchurOuter m env.logged x b data).2.world.2 =
        data.world.2 ++ [InnerCall.mk env.useSourceIteration (setToValue 0) true its] ∧
      (SchurOuter m env.logged x b data).2.sourceIts = data.sourceIts ++ [its] := by
  cases h : env.useSourceIteration
  · exact ⟨(env.krylov data.world.1 data.psi (setToValue 0) true
        (vecToPsiBound m x data.psiBound).1).1, rfl,
      by simp [SchurOuter, schurOuterExchange, Collaborators.logged, h],
      by simp [SchurOuter, schurOuterExchange, Collaborators.logged, h]⟩
  · exact ⟨(env.fixedPoint data.world.1 data.psi (setToValue 0) true
        (vecToPsiBound m x data.psiBound).1).1, rfl,
      by simp [SchurOuter, schurOuterExchange, Collaborators.logged, h],
      by simp [SchurOuter, schurOuterExchange, Collaborators.logged, h]⟩

/-- C12. Step 2 of the outer operator: one application of `SchurOuter` leaves
every entry of the volumetric source zero, invokes the inner source iteration
exactly once (`fixedPoint` when `g_useSourceIteration` holds, `krylov`
otherwise) on the zero source with the flag `true`, and appends the count it
returns as the last entry of `sourceIts`; after `n` applications there were
exactly `n` invocations and `sourceIts` has grown by their `n` counts, in
application order. -/
theorem outer_inner_iteration {α W : Type} [Zero α] [Sub α] (m : TychoMesh)
    (env : Collaborators α W) (inputs : List ((Nat → α) × (Nat → α)))
    (data : SchurData α (W × List (InnerCall α))) :
    ∃ calls : List (InnerCall α),
      calls.length = inputs.length ∧
      (schurOuterRun m env.logged inputs data).world.2 = data.world.2 ++ calls ∧
      (schurOuterRun m env.logged inputs data).sourceIts =
        data.sourceIts ++ calls.map InnerCall.its ∧
      (∀ c ∈ calls, c.usedFixedPoint = env.useSourceIteration ∧ c.flag = true ∧
        ∀ vertex angle cell group, c.source vertex angle cell group = 0) ∧
      (inputs ≠ [] → ∀ vertex angle cell group,
        (schurOuterRun m env.logged inputs data).source vertex angle cell group = 0) := by
  induction inputs using List.reverseRecOn with
  | nil => exact ⟨[], rfl, by simp [schurOuterRun], by simp [schurOuterRun], by simp, by simp⟩
  | append_singleton xs xb ih =>
    obtain ⟨calls, h1, h2, h3, h4, _⟩ := ih
    obtain ⟨its, g1, g2, g3⟩ := schurOuter_logged_step m env xb.1 xb.2
      (schurOuterRun m env.logged xs data)
    have hrun : schurOuterRun m env.logged (xs ++ [xb]) data =
        (SchurOuter m env.logged xb.1 xb.2 (schurOuterRun m env.logged xs data)).2 := by
      simp [schurOuterRun, List.foldl_append]
    refine ⟨calls ++ [InnerCall.mk env.useSourceIteration (setToValue 0) true its],
      by simp [h1], ?_, ?_, ?_, ?_⟩
    · rw [hrun, g2, h2, List.append_assoc]
    · rw [hrun, g3, h3]; simp
    · intro c hc
      rw [List.mem_append] at hc
      rcases hc with hc | hc
      · exact h4 c hc
      · simp only [List.mem_singleton] at hc
        subst hc
        exact ⟨rfl, rfl, fun _ _ _ _ => rfl⟩
    · intro _ vertex angle cell group
      rw [hrun, g1]
      rfl

/-! ## Claim C13: linearity of the plain operator -/

theorem fromVec_foldl_value {α : Type} (m : TychoMesh) (l : List Tuple)
    (k : Nat × Nat × Nat × Nat) :
    (∀ t ∈ l, m.slotOf t ≠ k) ∨
    ∃ j, ∀ (x : Nat → α) (p : PsiBoundData α) (i : Nat),
      (l.foldl (fromVecStep m x) (p, i)).1.get k = x (i + j) := by
  induction l with
  | nil => left; simp
  | cons t r ih =>
    rcases ih with hoff | ⟨j, hj⟩
    · by_cases ht : m.slotOf t = k
      · right
        refine ⟨0, fun x p i => ?_⟩
        simp only [List.foldl_cons, fromVecStep]
        rw [fromVec_foldl_frame m x r _ _ k hoff, ← ht, setAt_get_same]
        rfl
      · left
        intro t' ht'
        rcases List.mem_cons.mp ht' with rfl | h
        · exact ht
        · exact hoff t' h
    · right
      refine ⟨j + 1, fun x p i => ?_⟩
      simp only [List.foldl_cons, fromVecStep]
      rw [hj]
      congr 1
      omega

theorem vecToPsiBound_linear {α : Type} [CommRing α] (m : TychoMesh) (pb : PsiBoundData α)
    (hzero : ZeroOffSlots m pb) (a b : α) (x1 x2 : Nat → α) :
    (vecToPsiBound m (fun k => a * x1 k + b * x2 k) pb).1 =
      fun g v n s =>
        a * (vecToPsiBound m x1 pb).1 g v n s + b * (vecToPsiBound m x2 pb).1 g v n s := by
  funext g v n s
  simp only [vecToPsiBound_eq_foldl]
  rcases fromVec_foldl_value (α := α) m (boundaryTuples m) (g, v, n, s) with hoff | ⟨j, hj⟩
  · have h0 : ∀ x : Nat → α,
        ((boundaryTuples m).foldl (fromVecStep m x) (pb, 0)).1 g v n s = 0 := by
      intro x
      have := fromVec_foldl_frame m x (boundaryTuples m) pb 0 (g, v, n, s) hoff
      exact this.trans (hzero (g, v, n, s) hoff)
    rw [h0, h0, h0]
    simp
  · have h1 : ∀ x : Nat → α,
        ((boundaryTuples m).foldl (fromVecStep m x) (pb, 0)).1 g v n s = x (0 + j) :=
      fun x => hj x pb 0
    rw [h1, h1, h1]

theorem schur_value {α W : Type} [Sub α] (m : TychoMesh) (env : Collaborators α W)
    (x b : Nat → α) (data : SchurData α W) (i : Nat) (hi : i < (boundaryTuples m).length) :
    (Schur m env x b data).1 i =
      x i - (sweepThenExchange env data (vecToPsiBound m x data.psiBound).1).get
        (m.slotOf (boundaryTuples m)[i]) := by
  have hn : i < getVecSize m := by rw [getVecSize_eq_length]; exact hi
  simp only [Schur, residualLoop_spec, if_pos hn]
  congr 1
  rw [psiBoundToVec_eq_foldl]
  have := toVec_foldl_at m (schurExchange m env x data).psiBound (boundaryTuples m) b 0 i _
    (List.getElem?_eq_getElem hi)
  rw [Nat.zero_add] at this
  exact this

theorem schur_linear {α W : Type} [CommRing α] (m : TychoMesh) (env : Collaborators α W)
    (data : SchurData α W) (hlin : LinearOnBoundary env data)
    (hzero : ZeroOffSlots m data.psiBound) (a b : α) (x1 x2 b0 : Nat → α) (i : Nat)
    (hi : i < getVecSize m) :
    (Schur m env (fun k => a * x1 k + b * x2 k) b0 data).1 i =
      a * (Schur m env x1 b0 data).1 i + b * (Schur m env x2 b0 data).1 i := by
  rw [getVecSize_eq_length] at hi
  rw [schur_value m env _ b0 data i hi, schur_value m env x1 b0 data i hi,
    schur_value m env x2 b0 data i hi, vecToPsiBound_linear m data.psiBound hzero, hlin]
  simp only [PsiBoundData.get]
  ring

/-- C13, as amended. Operator linearity (plain variant): when the
sweep-then-exchange step acts as a linear map on the boundary field and the
boundary field holds zero, before the application, at every slot outside the
serialized positions, `Schur` applied to `a*x1 + b*x2` equals
`a*Schur(x1) + b*Schur(x2)` at every index below `getVecSize()`, over exact
arithmetic. -/
theorem operator_linearity {α W : Type} [CommRing α] (m : TychoMesh)
    (env : Collaborators α W) (data : SchurData α W) (hlin : LinearOnBoundary env data)
    (hzero : ZeroOffSlots m data.psiBound) (a b : α) (x1 x2 b0 : Nat → α) (i : Nat)
    (hi : i < getVecSize m) :
    (Schur m env (fun k => a * x1 k + b * x2 k) b0 data).1 i =
      a * (Schur m env x1 b0 data).1 i + b * (Schur m env x2 b0 data).1 i :=
  schur_linear m env data hlin hzero a b x1 x2 b0 i hi

theorem linearCollaborators_linear (data : SchurData Int Unit) :
    LinearOnBoundary linearCollaborators data := by
  intro a b p q
  funext g v n s
  simp only [sweepThenExchange, linearCollaborators]
  ring

theorem operator_linearity_witness :
    (Schur exampleMesh linearCollaborators (fun k => 2 * (10 + k) + 5 * (k * k)) (fun _ => 0)
        exampleData).1 5 =
      2 * (Schur exampleMesh linearCollaborators (fun k => 10 + k) (fun _ => 0)
        exampleData).1 5 +
      5 * (Schur exampleMesh linearCollaborators (fun k => k * k) (fun _ => 0)
        exampleData).1 5 :=
  operator_linearity exampleMesh linearCollaborators exampleData
    (linearCollaborators_linear exampleData) (fun _ _ => rfl) 2 5 (fun k => 10 + k)
    (fun k => k * k) (fun _ => 0) 5 (by decide)

/-- C13, counterexample to the claim as stated. The sweep of
`offSlotCollaborators` is a linear map on the boundary field, yet with a
boundary field that held 1 at side 99 before the application,
`Schur(1*x1 + 1*x2)` and `1*Schur(x1) + 1*Schur(x2)` differ at index 0 for
`x1 = x2 = 0`. -/
theorem operator_linearity_counterexample :
    LinearOnBoundary offSlotCollaborators offSlotData ∧
    0 < getVecSize exampleMesh ∧
    (Schur exampleMesh offSlotCollaborators (fun _ => 1 * 0 + 1 * 0) (fun _ => 0)
        offSlotData).1 0 ≠
      1 * (Schur exampleMesh offSlotCollaborators (fun _ => 0) (fun _ => 0) offSlotData).1 0 +
      1 * (Schur exampleMesh offSlotCollaborators (fun _ => 0) (fun _ => 0)
        offSlotData).1 0 := by
  refine ⟨?_, by decide, by decide⟩
  intro a b p q
  funext g v n s
  simp only [sweepThenExchange, offSlotCollaborators]

/-! ## Claim C14: the canonical order -/

theorem allTuples_eq (m : TychoMesh) :
    allTuples m =
      (List.range m.nAngles).flatMap fun angle =>
      (List.range m.nCells).flatMap fun cell =>
      (List.range m.nGroups).flatMap fun group =>
      (List.range m.nFacePerCell).flatMap fun face =>
      (List.range m.nVrtxPerFace).map fun fvrtx => (angle, cell, group, face, fvrtx) := by
  simp only [allTuples, List.product, List.map_flatMap, List.map_map]
  rfl

theorem boundaryTuples_eq_canonical (m : TychoMesh) : boundaryTuples m = canonicalTuples m := by
  unfold canonicalTuples boundaryTuples
  rw [allTuples_eq]
  simp only [List.filter_flatMap, List.filter_map]
  congr 1; funext angle; congr 1; funext cell; congr 1; funext group; congr 1; funext face
  cases h : (m.isIncoming angle cell face && m.onInternalBoundary cell face)
  · have : (m.serialized ∘ fun fvrtx => (angle, cell, group, face, fvrtx)) = fun _ => false := by
      funext v; simpa [TychoMesh.serialized] using h
    simp [this]
  · have : (m.serialized ∘ fun fvrtx => (angle, cell, group, face, fvrtx)) = fun _ => true := by
      funext v; simpa [TychoMesh.serialized] using h
    simp [this]

theorem pairwise_flatMap_range {κ : Type} (R : κ → κ → Prop) (n : Nat) (f : Nat → List κ)
    (h1 : ∀ i, (f i).Pairwise R)
    (h2 : ∀ i j, i < j → ∀ x ∈ f i, ∀ y ∈ f j, R x y) :
    ((List.range n).flatMap f).Pairwise R := by
  rw [List.pairwise_flatMap]
  exact ⟨fun i _ => h1 i, (List.pairwise_lt_range n).imp (fun hij => h2 _ _ hij)⟩

theorem allTuples_sorted (m : TychoMesh) : (allTuples m).Pairwise tupleLt := by
  rw [allTuples_eq]
  refine pairwise_flatMap_range _ _ _ (fun a => ?_) ?_
  · refine pairwise_flatMap_range _ _ _ (fun c => ?_) ?_
    · refine pairwise_flatMap_range _ _ _ (fun g => ?_) ?_
      · refine pairwise_flatMap_range _ _ _ (fun f => ?_) ?_
        · rw [List.pairwise_map]
          refine (List.pairwise_lt_range _).imp ?_
          intro v v' hv
          exact Or.inr ⟨rfl, Or.inr ⟨rfl, Or.inr ⟨rfl, Or.inr ⟨rfl, hv⟩⟩⟩⟩
        · intro f f' hf x hx y hy
          simp only [List.mem_map] at hx hy
          obtain ⟨v, _, rfl⟩ := hx
          obtain ⟨v', _, rfl⟩ := hy
          exact Or.inr ⟨rfl, Or.inr ⟨rfl, Or.inr ⟨rfl, Or.inl hf⟩⟩⟩
      · intro g g' hg x hx y hy
        simp only [List.mem_flatMap, List.mem_map] at hx hy
        obtain ⟨f, _, v, _, rfl⟩ := hx
        obtain ⟨f', _, v', _, rfl⟩ := hy
        exact Or.inr ⟨rfl, Or.inr ⟨rfl, Or.inl hg⟩⟩
    · intro c c' hc x hx y hy
      simp only [List.mem_flatMap, List.mem_map] at hx hy
      obtain ⟨g, _, f, _, v, _, rfl⟩ := hx
      obtain ⟨g', _, f', _, v', _, rfl⟩ := hy
      exact Or.inr ⟨rfl, Or.inl hc⟩
  · intro a a' ha x hx y hy
    simp only [List.mem_flatMap, List.mem_map] at hx hy
    obtain ⟨c, _, g, _, f, _, v, _, rfl⟩ := hx
    obtain ⟨c', _, g', _, f', _, v', _, rfl⟩ := hy
    exact Or.inl ha

theorem mem_allTuples (m : TychoMesh) (t : Tuple) :
    t ∈ allTuples m ↔ t.1 < m.nAngles ∧ t.2.1 < m.nCells ∧ t.2.2.1 < m.nGroups ∧
      t.2.2.2.1 < m.nFacePerCell ∧ t.2.2.2.2 < m.nVrtxPerFace := by
  obtain ⟨a, c, g, f, v⟩ := t
  simp [allTuples, List.mem_product]

theorem fromVec_foldl_enum {α : Type} (m : TychoMesh) (x : Nat → α) (l : List Tuple)
    (q : PsiBoundData α) (i : Nat) :
    (l.foldl (fromVecStep m x) (q, i)).1 =
      (l.enumFrom i).foldl (fun q kt => q.setAt (m.slotOf kt.2) (x kt.1)) q := by
  induction l generalizing q i with
  | nil => rfl
  | cons t r ih => simp only [List.foldl_cons, List.enumFrom_cons, fromVecStep, ih]

theorem toVec_foldl_enum {α : Type} (m : TychoMesh) (p : PsiBoundData α) (l : List Tuple)
    (x : Nat → α) (i : Nat) :
    (l.foldl (toVecStep m p) (x, i)).1 =
      (l.enumFrom i).foldl (fun x kt => store x kt.1 (p.get (m.slotOf kt.2))) x := by
  induction l generalizing x i with
  | nil => rfl
  | cons t r ih => simp only [List.foldl_cons, List.enumFrom_cons, toVecStep, ih]

theorem psiBoundToVec_list {α : Type} (m : TychoMesh) (x : Nat → α) (p : PsiBoundData α) :
    (List.range (getVecSize m)).map (psiBoundToVec m x p).1 =
      (boundaryTuples m).map fun t => p.get (m.slotOf t) := by
  apply List.ext_getElem
  · simp [getVecSize_eq_length]
  · intro i h1 h2
    have hi : i < (boundaryTuples m).length := by simpa using h2
    simp only [List.getElem_map, List.getElem_range]
    rw [psiBoundToVec_eq_foldl]
    have := toVec_foldl_at m p (boundaryTuples m) x 0 i _ (List.getElem?_eq_getElem hi)
    rw [Nat.zero_add] at this
    exact this

/-- C14. Canonical order: the tuples `(angle, cell, group, face, fvrtx)` within
the loop bounds, listed in lexicographically increasing order and filtered by
"incoming with `adjCell == BOUNDARY_FACE` and `adjRank != BAD_RANK`", give the
positions of the vector: `psiBoundToVec` writes
`psiBound(group, fvrtx, angle, getSide(cell, face))` of the `k`-th such tuple at
index `k`, so the vector is the list of those values, and `vecToPsiBound`
assigns `x[k]` to the slot of that same `k`-th tuple. -/
theorem canonical_order {α : Type} (m : TychoMesh) (x : Nat → α) (p : PsiBoundData α) :
    (allTuples m).Pairwise tupleLt ∧
    (∀ t : Tuple, t ∈ allTuples m ↔ t.1 < m.nAngles ∧ t.2.1 < m.nCells ∧ t.2.2.1 < m.nGroups ∧
      t.2.2.2.1 < m.nFacePerCell ∧ t.2.2.2.2 < m.nVrtxPerFace) ∧
    (List.range (getVecSize m)).map (psiBoundToVec m x p).1 =
      (canonicalTuples m).map (fun t => p t.2.2.1 t.2.2.2.2 t.1 (m.getSide t.2.1 t.2.2.2.1)) ∧
    (psiBoundToVec m x p).1 =
      (canonicalTuples m).enum.foldl
        (fun x kt => store x kt.1
          (p kt.2.2.2.1 kt.2.2.2.2.2 kt.2.1 (m.getSide kt.2.2.1 kt.2.2.2.2.1))) x ∧
    (vecToPsiBound m x p).1 =
      (canonicalTuples m).enum.foldl
        (fun q kt => q.set kt.2.2.2.1 kt.2.2.2.2.2 kt.2.1 (m.getSide kt.2.2.1 kt.2.2.2.2.1)
          (x kt.1)) p := by
  refine ⟨allTuples_sorted m, mem_allTuples m, ?_, ?_, ?_⟩
  · rw [psiBoundToVec_list, boundaryTuples_eq_canonical]
    rfl
  · rw [psiBoundToVec_eq_foldl, toVec_foldl_enum, boundaryTuples_eq_canonical]
    rfl
  · rw [vecToPsiBound_eq_foldl, fromVec_foldl_enum, boundaryTuples_eq_canonical]
    rfl

theorem canonical_order_example :
    (List.range (getVecSize exampleMesh)).map
      (psiBoundToVec exampleMesh (fun _ => (0 : Int))
        (fun g v a s => 1000 * g + 100 * v + 10 * a + s)).1 =
      [2, 102, 1002, 1102, 11, 111, 1011, 1111] := by
  decide

/-! ## Theorems: the five loops of `SweeperSchurBoundary.cc` as folds -/

theorem vecSize_eq_length (m : TychoMesh) :
    SweeperSchurBoundary.vecSize m = (boundaryPositions m).length := by
  have h : SweeperSchurBoundary.vecSize m =
      (boundaryPositions m).foldl (fun size _ => size + 1) 0 := by
    unfold SweeperSchurBoundary.vecSize boundaryPositions forLoop
    simp only [← foldl_flatMap_eq]
    congr 1; funext st group; congr 1; funext st cell; congr 1; funext st face
    congr 1; funext st angle
    cases h1 : m.onBoundaryIncoming angle cell face <;> simp [List.foldl_map]
  rw [h, foldl_succ_eq_length]; simp

theorem inputXIn_eq_foldl {α : Type} (m : TychoMesh) (XIn : Nat → α) (psi : PsiData α) :
    SweeperSchurBoundary.inputXIn m XIn psi =
      (boundaryPositions m).foldl (gatherStep psi) (XIn, 0) := by
  unfold SweeperSchurBoundary.inputXIn boundaryPositions forLoop
  simp only [← foldl_flatMap_eq]
  congr 1; funext st group; congr 1; funext st cell; congr 1; funext st face
  congr 1; funext st angle
  cases h1 : m.onBoundaryIncoming angle cell face <;>
    simp [List.foldl_map, gatherStep, positionOf, PsiData.get]

theorem inputBIn_eq_inputXIn {α : Type} (m : TychoMesh) (BIn : Nat → α) (source : PsiData α) :
    SweeperSchurBoundary.inputBIn m BIn source = SweeperSchurBoundary.inputXIn m BIn source :=
  rfl

theorem outputXOut_eq_foldl {α : Type} (m : TychoMesh) (XOut : Nat → α) (psi : PsiData α) :
    SweeperSchurBoundary.outputXOut m XOut psi =
      (boundaryPositions m).foldl (scatterStep XOut) (psi, 0) := by
  unfold SweeperSchurBoundary.outputXOut boundaryPositions forLoop
  simp only [← foldl_flatMap_eq]
  congr 1; funext st group; congr 1; funext st cell; congr 1; funext st face
  congr 1; funext st angle
  cases h1 : m.onBoundaryIncoming angle cell face <;>
    simp [List.foldl_map, scatterStep, positionOf, PsiData.setAt]

theorem takeOut_eq_foldl {α : Type} (m : TychoMesh) (size : Nat) (Out : Nat → α)
    (s_psi : PsiData α) :
    SweeperSchurBoundary.takeOut m size Out s_psi =
      (boundaryPositions m).foldl (takeOutStep size s_psi)
        { Out := Out, count := 0, overrun := false } := by
  unfold SweeperSchurBoundary.takeOut boundaryPositions forLoop
  simp only [← foldl_flatMap_eq]
  congr 1; funext st group; congr 1; funext st cell; congr 1; funext st face
  congr 1; funext st angle
  cases h1 : m.onBoundaryIncoming angle cell face <;>
    simp [List.foldl_map, takeOutStep, positionOf, PsiData.get]

theorem gather_foldl_index {α : Type} (field : PsiData α) (l : List Tuple)
    (x : Nat → α) (i : Nat) : (l.foldl (gatherStep field) (x, i)).2 = i + l.length := by
  induction l generalizing x i with
  | nil => rfl
  | cons a t ih => simp [List.foldl_cons, gatherStep, ih]; omega

theorem gather_foldl_below {α : Type} (field : PsiData α) (l : List Tuple)
    (x : Nat → α) (i j : Nat) (hj : j < i) : (l.foldl (gatherStep field) (x, i)).1 j = x j := by
  induction l generalizing x i with
  | nil => rfl
  | cons a t ih =>
    simp only [List.foldl_cons, gatherStep]
    rw [ih _ _ (by omega)]
    simp [store]; omega

theorem gather_foldl_above {α : Type} (field : PsiData α) (l : List Tuple)
    (x : Nat → α) (i j : Nat) (hj : i + l.length ≤ j) :
    (l.foldl (gatherStep field) (x, i)).1 j = x j := by
  induction l generalizing x i with
  | nil => rfl
  | cons a t ih =>
    simp only [List.foldl_cons, gatherStep]
    simp only [List.length_cons] at hj
    rw [ih _ _ (by omega)]
    simp [store]; omega

theorem gather_foldl_at {α : Type} (field : PsiData α) (l : List Tuple)
    (x : Nat → α) (i k : Nat) (t : Tuple) (hk : l[k]? = some t) :
    (l.foldl (gatherStep field) (x, i)).1 (i + k) = field.get (positionOf t) := by
  induction l generalizing x i k with
  | nil => simp at hk
  | cons a r ih =>
    simp only [List.foldl_cons, gatherStep]
    cases k with
    | zero =>
      simp only [List.getElem?_cons_zero, Option.some.injEq] at hk
      subst hk
      rw [gather_foldl_below _ _ _ _ _ (by omega)]
      simp [store]
    | succ k =>
      simp only [List.getElem?_cons_succ] at hk
      have := ih (store x i (field.get (positionOf a))) (i + 1) k hk
      rw [show i + (k + 1) = i + 1 + k by omega]
      exact this

theorem psiData_setAt_get_same {α : Type} (p : PsiData α) (k : Nat × Nat × Nat × Nat) (v : α) :
    (p.setAt k v).get k = v := by
  simp [PsiData.setAt, PsiData.get, PsiData.set]

theorem psiData_setAt_get_other {α : Type} (p : PsiData α) (k k' : Nat × Nat × Nat × Nat)
    (v : α) (h : k' ≠ k) : (p.setAt k v).get k' = p.get k' := by
  obtain ⟨a, b, c, d⟩ := k
  obtain ⟨a', b', c', d'⟩ := k'
  simp only [PsiData.setAt, PsiData.get, PsiData.set]
  rw [if_neg]
  rintro ⟨rfl, rfl, rfl, rfl⟩
  exact h rfl

theorem scatter_foldl_index {α : Type} (x : Nat → α) (l : List Tuple)
    (p : PsiData α) (i : Nat) : (l.foldl (scatterStep x) (p, i)).2 = i + l.length := by
  induction l generalizing p i with
  | nil => rfl
  | cons a t ih => simp [List.foldl_cons, scatterStep, ih]; omega

theorem scatter_foldl_frame {α : Type} (x : Nat → α) (l : List Tuple)
    (p : PsiData α) (i : Nat) (k : Nat × Nat × Nat × Nat)
    (hk : ∀ t ∈ l, positionOf t ≠ k) :
    (l.foldl (scatterStep x) (p, i)).1.get k = p.get k := by
  induction l generalizing p i with
  | nil => rfl
  | cons a t ih =>
    simp only [List.foldl_cons, scatterStep]
    rw [ih _ _ (fun t ht => hk t (List.mem_cons_of_mem _ ht))]
    exact psiData_setAt_get_other _ _ _ _ (fun h => hk a (List.mem_cons_self _ _) h.symm)

theorem scatter_foldl_at {α : Type} (x : Nat → α) (l : List Tuple)
    (p : PsiData α) (i k : Nat) (t : Tuple) (hnd : (l.map positionOf).Nodup)
    (hk : l[k]? = some t) :
    (l.foldl (scatterStep x) (p, i)).1.get (positionOf t) = x (i + k) := by
  induction l generalizing p i k with
  | nil => simp at hk
  | cons a r ih =>
    simp only [List.foldl_cons, scatterStep]
    simp only [List.map_cons, List.nodup_cons, List.mem_map, not_exists, not_and] at hnd
    cases k with
    | zero =>
      simp only [List.getElem?_cons_zero, Option.some.injEq] at hk
      subst hk
      rw [scatter_foldl_frame _ _ _ _ _ (fun t ht => hnd.1 t ht)]
      simp [psiData_setAt_get_same]
    | succ k =>
      simp only [List.getElem?_cons_succ] at hk
      rw [ih _ (i + 1) k hnd.2 hk]
      congr 1; omega

theorem takeOut_foldl_gather {α : Type} (size : Nat) (s_psi : PsiData α) (l : List Tuple)
    (st : OutArray α) :
    ((l.foldl (takeOutStep size s_psi) st).Out, (l.foldl (takeOutStep size s_psi) st).count) =
      l.foldl (gatherStep s_psi) (st.Out, st.count) := by
  induction l generalizing st with
  | nil => rfl
  | cons a t ih =>
    simp only [List.foldl_cons]
    rw [ih]
    rfl

theorem takeOut_foldl_overrun {α : Type} (size : Nat) (s_psi : PsiData α) (l : List Tuple)
    (st : OutArray α) (h0 : st.overrun = false) (hfit : st.count + l.length ≤ size) :
    (l.foldl (takeOutStep size s_psi) st).overrun = false := by
  induction l generalizing st with
  | nil => exact h0
  | cons a t ih =>
    simp only [List.foldl_cons]
    simp only [List.length_cons] at hfit
    apply ih
    · simp only [takeOutStep, h0, Bool.false_or, decide_eq_false_iff_not]
      omega
    · simp only [takeOutStep]
      omega

/-! ## Theorems: the positions of the boundary vector of `SweeperSchurBoundary.cc` -/

theorem mem_boundaryPositions (m : TychoMesh) (t : Tuple) :
    t ∈ boundaryPositions m ↔
      t.1 < m.nGroups ∧ t.2.1 < m.nCells ∧ t.2.2.1 < m.nFacePerCell ∧ t.2.2.2.1 < m.nAngles ∧
      t.2.2.2.2 < m.nVrtxPerCell ∧ m.onBoundaryIncoming t.2.2.2.1 t.2.1 t.2.2.1 = true := by
  obtain ⟨g, c, f, a, v⟩ := t
  simp only [boundaryPositions, List.mem_flatMap, List.mem_range]
  constructor
  · rintro ⟨g', hg, c', hc, f', hf, a', ha, h⟩
    split at h
    · rename_i hp
      simp only [List.mem_map, List.mem_range, Prod.mk.injEq] at h
      obtain ⟨v', hv, rfl, rfl, rfl, rfl, rfl⟩ := h
      exact ⟨hg, hc, hf, ha, hv, hp⟩
    · simp at h
  · rintro ⟨hg, hc, hf, ha, hv, h1⟩
    refine ⟨g, hg, c, hc, f, hf, a, ha, ?_⟩
    simp [h1, hv]

theorem boundaryPositions_nodup (m : TychoMesh) : (boundaryPositions m).Nodup := by
  unfold boundaryPositions
  refine nodup_flatMap_of_key (fun t => t.1) _ _ (List.nodup_range _) (fun g _ => ?_) ?_
  · refine nodup_flatMap_of_key (fun t => t.2.1) _ _ (List.nodup_range _) (fun c _ => ?_) ?_
    · refine nodup_flatMap_of_key (fun t => t.2.2.1) _ _ (List.nodup_range _) (fun f _ => ?_) ?_
      · refine nodup_flatMap_of_key (fun t => t.2.2.2.1) _ _ (List.nodup_range _)
          (fun a _ => ?_) ?_
        · split
          · refine List.Nodup.map ?_ (List.nodup_range _)
            intro v v' h
            simpa using h
          · exact List.nodup_nil
        · intro a _ k hk
          split at hk
          · simp only [List.mem_map] at hk
            obtain ⟨v, _, rfl⟩ := hk
            rfl
          · simp at hk
      · intro f _ k hk
        simp only [List.mem_flatMap] at hk
        obtain ⟨a, _, hk⟩ := hk
        split at hk
        · simp only [List.mem_map] at hk
          obtain ⟨v, _, rfl⟩ := hk
          rfl
        · simp at hk
    · intro c _ k hk
      simp only [List.mem_flatMap] at hk
      obtain ⟨f, _, a, _, hk⟩ := hk
      split at hk
      · simp only [List.mem_map] at hk
        obtain ⟨v, _, rfl⟩ := hk
        rfl
      · simp at hk
  · intro g _ k hk
    simp only [List.mem_flatMap] at hk
    obtain ⟨c, _, f, _, a, _, hk⟩ := hk
    split at hk
    · simp only [List.mem_map] at hk
      obtain ⟨v, _, rfl⟩ := hk
      rfl
    · simp at hk

theorem positions_nodup (m : TychoMesh) (h1 : m.OneIncomingBoundaryFace) :
    ((boundaryPositions m).map positionOf).Nodup := by
  refine List.Nodup.map_on ?_ (boundaryPositions_nodup m)
  intro t ht t' ht' h
  rw [mem_boundaryPositions] at ht ht'
  obtain ⟨g, c, f, a, v⟩ := t
  obtain ⟨g', c', f', a', v'⟩ := t'
  simp only [positionOf, Prod.mk.injEq] at h
  obtain ⟨rfl, rfl, rfl, rfl⟩ := h
  have := h1 c ht.2.1 a ht.2.2.2.1 f ht.2.2.1 f' ht'.2.2.1 ht.2.2.2.2.2 ht'.2.2.2.2.2
  subst this
  rfl

theorem boundaryPositions_length (m : TychoMesh) :
    (boundaryPositions m).length = m.nGroups * m.nVrtxPerCell * numBoundaryIncoming m := by
  have hinner : ∀ g : Nat,
      ((List.range m.nCells).flatMap fun cell =>
        (List.range m.nFacePerCell).flatMap fun face =>
        (List.range m.nAngles).flatMap fun angle =>
          if m.onBoundaryIncoming angle cell face then
            (List.range m.nVrtxPerCell).map fun vertex => (g, cell, face, angle, vertex)
          else []).length = m.nVrtxPerCell * numBoundaryIncoming m := by
    intro g
    unfold numBoundaryIncoming
    rw [List.countP_eq_length_filter, cellFaceAngles_eq]
    simp only [List.filter_flatMap, List.filter_map]
    refine length_flatMap_mul _ _ _ _ (fun c _ => ?_)
    refine length_flatMap_mul _ _ _ _ (fun f _ => ?_)
    rw [length_flatMap_ite, List.length_map]
    rfl
  unfold boundaryPositions
  rw [length_flatMap_const _ _ _ (fun g _ => hinner g), List.length_range, Nat.mul_assoc]

/-! ## Claims C16, C17 and C19: the boundary vector of `SweeperSchurBoundary.cc` -/

/-- C16, as amended. Boundary predicate of `SweeperSchurBoundary.cc`: the
boundary vector has entries exactly for the `(group, cell, face, angle, vertex)`
within the loop bounds whose face has `adjCell == BOUNDARY_FACE` and is incoming
for the angle; `adjRank` is not tested, so a physical-boundary face contributes
like an inter-partition one, and `VecSize` and the numbers of entries of `XIn`,
`BIn`, `Out` and `XOut` all are `g_nGroups * g_nVrtxPerCell * N`, with `N` the
number of incoming `(cell, face, angle)` with `adjCell == BOUNDARY_FACE`. -/
theorem boundary_predicate {α : Type} (m : TychoMesh) (size : Nat) (X : Nat → α)
    (psi : PsiData α) :
    (∀ t : Tuple, t ∈ boundaryPositions m ↔
      t.1 < m.nGroups ∧ t.2.1 < m.nCells ∧ t.2.2.1 < m.nFacePerCell ∧ t.2.2.2.1 < m.nAngles ∧
      t.2.2.2.2 < m.nVrtxPerCell ∧ m.getAdjCell t.2.1 t.2.2.1 = m.BOUNDARY_FACE ∧
      m.isIncoming t.2.2.2.1 t.2.1 t.2.2.1 = true) ∧
    SweeperSchurBoundary.vecSize m = (boundaryPositions m).length ∧
    SweeperSchurBoundary.vecSize m = m.nGroups * m.nVrtxPerCell * numBoundaryIncoming m ∧
    (SweeperSchurBoundary.inputXIn m X psi).2 =
      m.nGroups * m.nVrtxPerCell * numBoundaryIncoming m ∧
    (SweeperSchurBoundary.inputBIn m X psi).2 =
      m.nGroups * m.nVrtxPerCell * numBoundaryIncoming m ∧
    (SweeperSchurBoundary.takeOut m size X psi).count =
      m.nGroups * m.nVrtxPerCell * numBoundaryIncoming m ∧
    (SweeperSchurBoundary.outputXOut m X psi).2 =
      m.nGroups * m.nVrtxPerCell * numBoundaryIncoming m := by
  refine ⟨fun t => ?_, vecSize_eq_length m, ?_, ?_, ?_, ?_, ?_⟩
  · rw [mem_boundaryPositions]
    simp only [TychoMesh.onBoundaryIncoming, Bool.and_eq_true, decide_eq_true_eq]
  · rw [vecSize_eq_length, boundaryPositions_length]
  · rw [inputXIn_eq_foldl, gather_foldl_index, boundaryPositions_length]; simp
  · rw [inputBIn_eq_inputXIn, inputXIn_eq_foldl, gather_foldl_index, boundaryPositions_length]
    simp
  · have := congrArg Prod.snd (takeOut_foldl_gather size psi (boundaryPositions m)
      { Out := X, count := 0, overrun := false })
    rw [takeOut_eq_foldl]
    simp only at this
    rw [this, gather_foldl_index, boundaryPositions_length]; simp
  · rw [outputXOut_eq_foldl, scatter_foldl_index, boundaryPositions_length]; simp

/-- C16, counterexample to the claim as stated. On `serialMesh` no face is an
inter-partition face (every `adjRank` is `BAD_RANK`), yet `VecSize` is 18 and
`XIn` receives 18 entries: the three incoming physical-boundary
`(cell, face, angle)` contribute `g_nVrtxPerCell = 3` entries for each of the 2
groups. -/
theorem boundary_predicate_counterexample :
    serialMesh.NoInternalBoundary ∧
    (∀ c < serialMesh.nCells, ∀ f < serialMesh.nFacePerCell,
      serialMesh.getAdjRank c f = serialMesh.BAD_RANK) ∧
    SweeperSchurBoundary.vecSize serialMesh = 18 ∧
    (SweeperSchurBoundary.inputXIn serialMesh (fun _ => (0 : Int)) (setToValue 0)).2 = 18 ∧
    (0, 0, 0, 0, 0) ∈ boundaryPositions serialMesh := by
  decide

/-- C17, as amended. Bijectivity of the serialization in
`SweeperSchurBoundary.cc`: on a mesh where no cell has two faces with
`adjCell == BOUNDARY_FACE` that are incoming for the same angle, scattering a
vector `v` into `psi` with the `XOut` loop and then gathering `psi` with the
`XIn` loop returns `v` at every index below `VecSize`. -/
theorem scatter_gather_round_trip {α : Type} (m : TychoMesh)
    (h1 : m.OneIncomingBoundaryFace) (v X0 : Nat → α) (psi : PsiData α) (i : Nat)
    (hi : i < SweeperSchurBoundary.vecSize m) :
    (SweeperSchurBoundary.inputXIn m X0 (SweeperSchurBoundary.outputXOut m v psi).1).1 i =
      v i := by
  rw [vecSize_eq_length] at hi
  have hk : (boundaryPositions m)[i]? = some (boundaryPositions m)[i] :=
    List.getElem?_eq_getElem hi
  rw [inputXIn_eq_foldl, outputXOut_eq_foldl]
  have hg := gather_foldl_at ((boundaryPositions m).foldl (scatterStep v) (psi, 0)).1
    (boundaryPositions m) X0 0 i _ hk
  have hs := scatter_foldl_at v (boundaryPositions m) psi 0 i _ (positions_nodup m h1) hk
  simp only [Nat.zero_add] at hg hs
  rw [hg, hs]

theorem scatter_gather_round_trip_witness :
    exampleMesh.OneIncomingBoundaryFace ∧ 17 < SweeperSchurBoundary.vecSize exampleMesh ∧
    (SweeperSchurBoundary.inputXIn exampleMesh (fun _ => (0 : Int))
      (SweeperSchurBoundary.outputXOut exampleMesh (fun k => Int.ofNat k + 1)
        (setToValue 0)).1).1 17 = Int.ofNat 17 + 1 :=
  ⟨by decide, by decide,
    scatter_gather_round_trip exampleMesh (by decide) _ _ _ 17 (by decide)⟩

/-- C17, counterexample to the claim as stated. On `cornerMesh` the only cell
has two physical-boundary faces, both incoming for the only angle, so
`VecSize` is 2 and both vector indices are mapped to `psi(0, 0, 0, 0)`:
scattering `v = (1, 2)` and gathering returns 2 at index 0. -/
theorem scatter_gather_counterexample :
    SweeperSchurBoundary.vecSize cornerMesh = 2 ∧
    (SweeperSchurBoundary.inputXIn cornerMesh (fun _ => (0 : Int))
      (SweeperSchurBoundary.outputXOut cornerMesh (fun k => Int.ofNat k + 1)
        (setToValue 0)).1).1 0 = 2 ∧
    (fun k => Int.ofNat k + 1 : Nat → Int) 0 = 1 ∧
    (boundaryPositions cornerMesh).map positionOf = [(0, 0, 0, 0), (0, 0, 0, 0)] := by
  decide

theorem scatter_foldl_enum {α : Type} (x : Nat → α) (l : List Tuple) (p : PsiData α) (i : Nat) :
    (l.foldl (scatterStep x) (p, i)).1 =
      (l.enumFrom i).foldl (fun p kt => p.setAt (positionOf kt.2) (x kt.1)) p := by
  induction l generalizing p i with
  | nil => rfl
  | cons t r ih => simp only [List.foldl_cons, List.enumFrom_cons, scatterStep, ih]

theorem takeOut_eq_inputXIn {α : Type} (m : TychoMesh) (size : Nat) (X : Nat → α)
    (psi : PsiData α) :
    ((SweeperSchurBoundary.takeOut m size X psi).Out,
      (SweeperSchurBoundary.takeOut m size X psi).count) =
      SweeperSchurBoundary.inputXIn m X psi := by
  rw [takeOut_eq_foldl, inputXIn_eq_foldl]
  exact takeOut_foldl_gather size psi (boundaryPositions m)
    { Out := X, count := 0, overrun := false }

theorem inputXIn_count {α : Type} (m : TychoMesh) (X : Nat → α) (psi : PsiData α) :
    (SweeperSchurBoundary.inputXIn m X psi).2 = SweeperSchurBoundary.vecSize m := by
  rw [inputXIn_eq_foldl, gather_foldl_index, vecSize_eq_length]; simp

theorem takeOut_count {α : Type} (m : TychoMesh) (size : Nat) (X : Nat → α) (psi : PsiData α) :
    (SweeperSchurBoundary.takeOut m size X psi).count = SweeperSchurBoundary.vecSize m := by
  have := congrArg Prod.snd (takeOut_eq_inputXIn m size X psi)
  simp only at this
  rw [this, inputXIn_count]

theorem takeOut_fits {α : Type} (m : TychoMesh) (size : Nat) (X : Nat → α) (psi : PsiData α)
    (h : SweeperSchurBoundary.vecSize m ≤ size) :
    (SweeperSchurBoundary.takeOut m size X psi).overrun = false := by
  rw [takeOut_eq_foldl]
  apply takeOut_foldl_overrun
  · rfl
  · rw [vecSize_eq_length] at h
    simpa using h

/-- C19. Constant vector length in `SweeperSchurBoundary.cc`: the final `count`
of the `Out` loop of the operator equals the `VecSize` computed by `sweep`, for
any allocated `size`; the `XIn`, `BIn` and `XOut` loops each end with
`count = VecSize`; the `k`-th entry each of the four loops visits belongs to
the same iteration, the `k`-th of `boundaryPositions`; and when `size` is
`VecSize` no write `Out[count]` falls outside the `size` entries of `Out`. -/
theorem constant_vector_length {α : Type} (m : TychoMesh) (size : Nat) (X : Nat → α)
    (psi : PsiData α) :
    (SweeperSchurBoundary.takeOut m size X psi).count = SweeperSchurBoundary.vecSize m ∧
    (SweeperSchurBoundary.inputXIn m X psi).2 = SweeperSchurBoundary.vecSize m ∧
    (SweeperSchurBoundary.inputBIn m X psi).2 = SweeperSchurBoundary.vecSize m ∧
    (SweeperSchurBoundary.outputXOut m X psi).2 = SweeperSchurBoundary.vecSize m ∧
    (boundaryPositions m).length = SweeperSchurBoundary.vecSize m ∧
    (∀ (k : Nat) (t : Tuple), (boundaryPositions m)[k]? = some t →
      (SweeperSchurBoundary.takeOut m size X psi).Out k = psi.get (positionOf t) ∧
      (SweeperSchurBoundary.inputXIn m X psi).1 k = psi.get (positionOf t) ∧
      (SweeperSchurBoundary.inputBIn m X psi).1 k = psi.get (positionOf t)) ∧
    (SweeperSchurBoundary.outputXOut m X psi).1 =
      (boundaryPositions m).enum.foldl (fun p kt => p.setAt (positionOf kt.2) (X kt.1)) psi ∧
    (SweeperSchurBoundary.takeOut m (SweeperSchurBoundary.vecSize m) X psi).overrun = false := by
  refine ⟨takeOut_count m size X psi, inputXIn_count m X psi, ?_, ?_,
    (vecSize_eq_length m).symm, ?_, ?_, takeOut_fits m _ X psi (le_refl _)⟩
  · rw [inputBIn_eq_inputXIn]; exact inputXIn_count m X psi
  · rw [outputXOut_eq_foldl, scatter_foldl_index, vecSize_eq_length]; simp
  · intro k t hk
    have hx : (SweeperSchurBoundary.inputXIn m X psi).1 k = psi.get (positionOf t) := by
      rw [inputXIn_eq_foldl]
      have := gather_foldl_at psi (boundaryPositions m) X 0 k t hk
      simpa using this
    refine ⟨?_, hx, ?_⟩
    · have := congrArg Prod.fst (takeOut_eq_inputXIn m size X psi)
      simp only at this
      rw [this, hx]
    · rw [inputBIn_eq_inputXIn]; exact hx
  · rw [outputXOut_eq_foldl, scatter_foldl_enum]
    rfl

theorem constant_vector_length_example :
    SweeperSchurBoundary.vecSize exampleMesh = 18 ∧
    (SweeperSchurBoundary.takeOut exampleMesh 18 (fun _ => (0 : Int)) (setToValue 1)).count = 18 ∧
    (SweeperSchurBoundary.takeOut exampleMesh 18 (fun _ => (0 : Int))
      (setToValue 1)).overrun = false ∧
    (SweeperSchurBoundary.takeOut exampleMesh 17 (fun _ => (0 : Int))
      (setToValue 1)).overrun = true := by
  decide

/-! ## Claims C15 and C18: the operator `Schur` of `SweeperSchurBoundary.cc` -/

theorem forLoop_store_spec {α : Type} (n : Nat) (f : Nat → α) (b : Nat → α) (i : Nat) :
    forLoop n (fun ind b => store b ind (f ind)) b i = if i < n then f i else b i := by
  induction n with
  | zero => simp [forLoop]
  | succ n ih =>
    rw [forLoop_succ]
    simp only [store]
    by_cases hin : i = n
    · subst hin
      simp
    · rw [if_neg hin, ih]
      by_cases h : i < n
      · rw [if_pos h, if_pos (by omega)]
      · rw [if_neg h, if_neg (by omega)]

theorem boundarySchur_running {α : Type} [Sub α] (m : TychoMesh)
    (sd : SweepDataSchur (SweepFields α)) (tr : Transport)
    (traverseGraph : SweepFields α → SweepFields α) (s : PacketStatics)
    (size : Nat) (In Out0 b : Nat → α) (fields : SweepFields α)
    (hrun : (commSides m sd tr s.s_adjRanks s.s_sendMetaData s.s_numSendPackets
      s.s_numRecvPackets (traverseGraph fields)).status = .running)
    (hsize : SweeperSchurBoundary.vecSize m ≤ size) :
    (SweeperSchurBoundary.Schur m sd tr traverseGraph s size In Out0 b fields).status =
      .running ∧
    (SweeperSchurBoundary.Schur m sd tr traverseGraph s size In Out0 b fields).count =
      SweeperSchurBoundary.vecSize m ∧
    ∀ ind : Nat,
      (SweeperSchurBoundary.Schur m sd tr traverseGraph s size In Out0 b fields).b ind =
        if ind < SweeperSchurBoundary.vecSize m then
          In ind -
            (SweeperSchurBoundary.Schur m sd tr traverseGraph s size In Out0 b fields).Out ind
        else b ind := by
  simp only [SweeperSchurBoundary.Schur, hrun, takeOut_fits m size Out0 _ hsize, takeOut_count]
  refine ⟨by simp, trivial, fun ind => ?_⟩
  simp only [Bool.false_eq_true, if_false]
  exact forLoop_store_spec _ (fun ind => In ind - _) b ind

/-- C15, what the code does. The operator `Schur` of `SweeperSchurBoundary.cc`
never writes its input `x` into a flux field: the sweep and the exchange run on
the file-scope fields as they are at the call, so the status, the fields after
the call, the array `Out` and `count` are the same for any two inputs, `Out`
is gathered from the `s_psi` that the sweep and the exchange leave from those
fields, and `b[ind]` is `In[ind] - Out[ind]` with that `Out`. -/
theorem boundary_schur_ignores_input {α : Type} [Sub α] (m : TychoMesh)
    (sd : SweepDataSchur (SweepFields α)) (tr : Transport)
    (traverseGraph : SweepFields α → SweepFields α) (s : PacketStatics)
    (size : Nat) (In In' Out0 b : Nat → α) (fields : SweepFields α) :
    (SweeperSchurBoundary.Schur m sd tr traverseGraph s size In Out0 b fields).status =
      (SweeperSchurBoundary.Schur m sd tr traverseGraph s size In' Out0 b fields).status ∧
    (SweeperSchurBoundary.Schur m sd tr traverseGraph s size In Out0 b fields).fields =
      (SweeperSchurBoundary.Schur m sd tr traverseGraph s size In' Out0 b fields).fields ∧
    (SweeperSchurBoundary.Schur m sd tr traverseGraph s size In Out0 b fields).Out =
      (SweeperSchurBoundary.Schur m sd tr traverseGraph s size In' Out0 b fields).Out ∧
    (SweeperSchurBoundary.Schur m sd tr traverseGraph s size In Out0 b fields).count =
      (SweeperSchurBoundary.Schur m sd tr traverseGraph s size In' Out0 b fields).count ∧
    (SweeperSchurBoundary.Schur m sd tr traverseGraph s size In Out0 b fields).fields =
      (commSides m sd tr s.s_adjRanks s.s_sendMetaData s.s_numSendPackets
        s.s_numRecvPackets (traverseGraph fields)).sweepData ∧
    ((SweeperSchurBoundary.Schur m sd tr traverseGraph s size In Out0 b fields).status =
        .running →
      (SweeperSchurBoundary.Schur m sd tr traverseGraph s size In Out0 b fields).Out =
        (SweeperSchurBoundary.inputXIn m Out0
          (commSides m sd tr s.s_adjRanks s.s_sendMetaData s.s_numSendPackets
            s.s_numRecvPackets (traverseGraph fields)).sweepData.s_psi).1 ∧
      ∀ ind : Nat,
        (SweeperSchurBoundary.Schur m sd tr traverseGraph s size In Out0 b fields).b ind =
          if ind < SweeperSchurBoundary.vecSize m then
            In ind - (SweeperSchurBoundary.inputXIn m Out0
              (commSides m sd tr s.s_adjRanks s.s_sendMetaData s.s_numSendPackets
                s.s_numRecvPackets (traverseGraph fields)).sweepData.s_psi).1 ind
          else b ind) := by
  have hout := fun psi : PsiData α => congrArg Prod.fst (takeOut_eq_inputXIn m size Out0 psi)
  simp only at hout
  cases hst : (commSides m sd tr s.s_adjRanks s.s_sendMetaData s.s_numSendPackets
      s.s_numRecvPackets (traverseGraph fields)).status
  · simp only [SweeperSchurBoundary.Schur, hst, takeOut_count, hout, true_and]
    intro hrun
    have hov : (SweeperSchurBoundary.takeOut m size Out0
        (commSides m sd tr s.s_adjRanks s.s_sendMetaData s.s_numSendPackets
          s.s_numRecvPackets (traverseGraph fields)).sweepData.s_psi).overrun = false := by
      cases h : (SweeperSchurBoundary.takeOut m size Out0
          (commSides m sd tr s.s_adjRanks s.s_sendMetaData s.s_numSendPackets
            s.s_numRecvPackets (traverseGraph fields)).sweepData.s_psi).overrun
      · rfl
      · rw [h] at hrun
        simp at hrun
    intro ind
    simp only [hov, Bool.false_eq_true, if_false]
    exact forLoop_store_spec _ (fun ind => In ind - _) b ind
  · simp [SweeperSchurBoundary.Schur, hst]
  · simp [SweeperSchurBoundary.Schur, hst]

/-- C15, the divergence on an input. On `exampleMesh`, with a sweep that leaves
the fields as they are, fields that are zero, and `x` equal to 7 at every
index, the operator returns `b[0] = 7 - 0 = 7`, and the same `Out[0] = 0` for
`x = 0`; with `x` deserialized into the guess the result would be
`x[0] - x[0] = 0`. -/
theorem boundary_schur_divergence :
    (SweeperSchurBoundary.Schur exampleMesh exampleFieldsData exampleTransport id
      exampleStatics 18 (fun _ => 7) (fun _ => 0) (fun _ => 0) zeroFields).status = .running ∧
    (SweeperSchurBoundary.Schur exampleMesh exampleFieldsData exampleTransport id
      exampleStatics 18 (fun _ => 7) (fun _ => 0) (fun _ => 0) zeroFields).count = 18 ∧
    (SweeperSchurBoundary.Schur exampleMesh exampleFieldsData exampleTransport id
      exampleStatics 18 (fun _ => 7) (fun _ => 0) (fun _ => 0) zeroFields).Out 0 = 0 ∧
    (SweeperSchurBoundary.Schur exampleMesh exampleFieldsData exampleTransport id
      exampleStatics 18 (fun _ => 7) (fun _ => 0) (fun _ => 0) zeroFields).b 0 = 7 ∧
    residualOfGuess exampleMesh exampleFieldsData exampleTransport id exampleStatics
      (fun _ => 7) (fun _ => 0) zeroFields 0 = 0 := by
  decide

/-- C18, as amended. A size mismatch is not checked: neither operator compares
the vector size with the number of positions it enumerates.  In
`SweeperSchurBoundary.cc`, when the exchange ends normally and the local size
of `x` is at least the number of entries written to `Out`, the operator returns
normally with `b[ind] = In[ind] - Out[ind]` for `ind < count` and the other
entries of `b` as they were.  In `SweeperSchur.cc` the operator receives no
vector length: it writes `b` at the indices below `getVecSize()` and leaves the
entries from `getVecSize()` on as they were. -/
theorem mismatch_not_checked {α W : Type} [Sub α] (m : TychoMesh)
    (sd : SweepDataSchur (SweepFields α)) (tr : Transport)
    (traverseGraph : SweepFields α → SweepFields α) (s : PacketStatics)
    (size : Nat) (In Out0 b : Nat → α) (fields : SweepFields α)
    (env : Collaborators α W) (data : SchurData α W)
    (hrun : (commSides m sd tr s.s_adjRanks s.s_sendMetaData s.s_numSendPackets
      s.s_numRecvPackets (traverseGraph fields)).status = .running)
    (hsize : SweeperSchurBoundary.vecSize m ≤ size) :
    (SweeperSchurBoundary.Schur m sd tr traverseGraph s size In Out0 b fields).status =
      .running ∧
    (SweeperSchurBoundary.Schur m sd tr traverseGraph s size In Out0 b fields).count =
      SweeperSchurBoundary.vecSize m ∧
    (∀ ind : Nat,
      (SweeperSchurBoundary.Schur m sd tr traverseGraph s size In Out0 b fields).b ind =
        if ind < SweeperSchurBoundary.vecSize m then
          In ind -
            (SweeperSchurBoundary.Schur m sd tr traverseGraph s size In Out0 b fields).Out ind
        else b ind) ∧
    (∀ i : Nat, getVecSize m ≤ i → (Schur m env In b data).1 i = b i) := by
  obtain ⟨h1, h2, h3⟩ := boundarySchur_running m sd tr traverseGraph s size In Out0 b fields
    hrun hsize
  refine ⟨h1, h2, h3, fun i hi => ?_⟩
  simp only [Schur, residualLoop_spec, if_neg (Nat.not_lt.mpr hi)]
  rw [psiBoundToVec_eq_foldl]
  apply toVec_foldl_above
  rw [getVecSize_eq_length] at hi
  simpa using hi

theorem mismatch_not_checked_witness :
    (commSides exampleMesh exampleFieldsData exampleTransport exampleStatics.s_adjRanks
      exampleStatics.s_sendMetaData exampleStatics.s_numSendPackets
      exampleStatics.s_numRecvPackets (id zeroFields)).status = .running ∧
    SweeperSchurBoundary.vecSize exampleMesh ≤ 20 ∧
    (SweeperSchurBoundary.Schur exampleMesh exampleFieldsData exampleTransport id
      exampleStatics 20 (fun _ => 7) (fun _ => 0) (fun _ => 3) zeroFields).status = .running ∧
    (SweeperSchurBoundary.Schur exampleMesh exampleFieldsData exampleTransport id
      exampleStatics 20 (fun _ => 7) (fun _ => 0) (fun _ => 3) zeroFields).count =
      SweeperSchurBoundary.vecSize exampleMesh :=
  ⟨by decide, by decide,
    (mismatch_not_checked exampleMesh exampleFieldsData exampleTransport id exampleStatics 20
      (fun _ => 7) (fun _ => 0) (fun _ => 3) zeroFields exampleCollaborators exampleData
      (by decide) (by decide)).1,
    (mismatch_not_checked exampleMesh exampleFieldsData exampleTransport id exampleStatics 20
      (fun _ => 7) (fun _ => 0) (fun _ => 3) zeroFields exampleCollaborators exampleData
      (by decide) (by decide)).2.1⟩

/-- C18, counterexample to the claim as stated. On `exampleMesh` the operator
enumerates 18 positions; called with a vector of local size 19 it returns
normally, with `count = 18` and `b[0] = In[0] - Out[0]`, and `b[18]` left as it
was. -/
theorem mismatch_counterexample :
    SweeperSchurBoundary.vecSize exampleMesh = 18 ∧
    (SweeperSchurBoundary.Schur exampleMesh exampleFieldsData exampleTransport id
      exampleStatics 19 (fun _ => 7) (fun _ => 0) (fun _ => 3) zeroFields).status = .running ∧
    (SweeperSchurBoundary.Schur exampleMesh exampleFieldsData exampleTransport id
      exampleStatics 19 (fun _ => 7) (fun _ => 0) (fun _ => 3) zeroFields).count = 18 ∧
    (SweeperSchurBoundary.Schur exampleMesh exampleFieldsData exampleTransport id
      exampleStatics 19 (fun _ => 7) (fun _ => 0) (fun _ => 3) zeroFields).b 0 = 7 ∧
    (SweeperSchurBoundary.Schur exampleMesh exampleFieldsData exampleTransport id
      exampleStatics 19 (fun _ => 7) (fun _ => 0) (fun _ => 3) zeroFields).b 18 = 3 := by
  decide

/-! ## Claim C20: the send buffers are written within their bounds -/

theorem resizePhase_dataToSend {σ : Type} (sd : SweepDataSchur σ) (n : Nat)
    (ns nr : Nat → Nat) (r : CommRun σ) (i : Nat) :
    ((resizePhase sd n ns nr r).dataToSend i).length =
      if i < n then packetSize sd * ns i else (r.dataToSend i).length := by
  unfold resizePhase
  induction n with
  | zero => simp [forLoop]
  | succ n ih =>
    rw [forLoop_succ]
    simp only [store]
    by_cases hin : i = n
    · subst hin; simp
    · rw [if_neg hin, ih]
      by_cases h : i < n
      · rw [if_pos h, if_pos (by omega)]
      · rw [if_neg h, if_neg (by omega)]

theorem numSendPackets_eq_length (m : TychoMesh) (adjRanks : List Nat) (i r : Nat)
    (hr : adjRanks[i]? = some r) :
    (buildPacketLists m adjRanks).numSendPackets i =
      ((buildPacketLists m adjRanks).sendMetaData i).length := by
  have h := buildPacketLists_entry m adjRanks i r hr
  simp only [PacketLists.entry, Prod.mk.injEq] at h
  rw [h.1, h.2.1, List.length_map, List.countP_eq_length_filter]

theorem packRecord_range {σ : Type} (sd : SweepDataSchur σ) (st : σ) (md : List MetaData)
    (k : Nat) (hk : k < md.length) (cur : List Byte)
    (hcur : cur.length = md.length * packetSize sd) :
    ∃ next : List Byte, packRecord sd st md k (some cur) = some next ∧
      next.length = cur.length ∧
      next.take (k * packetSize sd) = cur.take (k * packetSize sd) ∧
      next.drop ((k + 1) * packetSize sd) = cur.drop ((k + 1) * packetSize sd) ∧
      (next.drop (k * packetSize sd)).take (packetSize sd) = packetBytes sd st md[k] := by
  have hle : (k + 1) * packetSize sd ≤ md.length * packetSize sd :=
    Nat.mul_le_mul_right _ hk
  have hsucc : (k + 1) * packetSize sd = k * packetSize sd + packetSize sd := by ring
  have hP : (cur.take (k * packetSize sd)).length = k * packetSize sd := by
    rw [List.length_take, Nat.min_eq_left (by omega)]
  have hR : packetSize sd ≤ (cur.drop (k * packetSize sd)).length := by
    rw [List.length_drop]; omega
  have h := packRecord_append sd st md k md[k] (cur.take (k * packetSize sd))
    (cur.drop (k * packetSize sd)) (List.getElem?_eq_getElem hk) hP hR
  rw [List.take_append_drop] at h
  refine ⟨_, h, ?_, ?_, ?_, ?_⟩
  · simp only [List.length_append, List.length_take, List.length_drop, packetBytes_length]
    omega
  · rw [List.append_assoc, List.take_left' hP]
  · rw [hsucc, ← List.drop_drop, List.append_assoc, List.drop_left' hP,
      List.drop_left' (packetBytes_length sd st _), List.drop_drop, Nat.add_comm]
  · rw [List.append_assoc, List.drop_left' hP, List.take_left' (packetBytes_length sd st _)]

/-- C20. Send-buffer bounds: for the `adjRanks`, `sendMetaData` and
`numSendPackets` built by `SweeperSchurBoundary::sweep` and every neighbor index
`i`, `numSendPackets[i]` equals `sendMetaData[i].size()` and `commSides` sizes
`dataToSend[i]` to `packetSize * numSendPackets[i]` bytes; on a buffer of that
size, packing record `k` succeeds, keeps the size, and changes no byte outside
`[k * packetSize, (k + 1) * packetSize)`, where it leaves the packet of record
`k`; the packing loop writes no byte outside the buffer and, whatever the
buffer held before, leaves the packets of all records, which fill it. -/
theorem send_buffer_bounds {σ : Type} (m : TychoMesh) (sd : SweepDataSchur σ) (st : σ)
    (i r : Nat) (hr : (getAdjRanks m)[i]? = some r) (run : CommRun σ) (buf : List Byte)
    (hbuf : buf.length =
      packetSize sd * (buildPacketLists m (getAdjRanks m)).numSendPackets i) :
    (buildPacketLists m (getAdjRanks m)).numSendPackets i =
      ((buildPacketLists m (getAdjRanks m)).sendMetaData i).length ∧
    ((resizePhase sd (getAdjRanks m).length (buildPacketLists m (getAdjRanks m)).numSendPackets
        (buildPacketLists m (getAdjRanks m)).numRecvPackets run).dataToSend i).length =
      packetSize sd * (buildPacketLists m (getAdjRanks m)).numSendPackets i ∧
    (∀ (k : Nat) (hk : k < ((buildPacketLists m (getAdjRanks m)).sendMetaData i).length)
        (cur : List Byte), cur.length = buf.length →
      ∃ next : List Byte,
        packRecord sd st ((buildPacketLists m (getAdjRanks m)).sendMetaData i) k (some cur) =
          some next ∧
        next.length = cur.length ∧
        next.take (k * packetSize sd) = cur.take (k * packetSize sd) ∧
        next.drop ((k + 1) * packetSize sd) = cur.drop ((k + 1) * packetSize sd) ∧
        (next.drop (k * packetSize sd)).take (packetSize sd) =
          packetBytes sd st (((buildPacketLists m (getAdjRanks m)).sendMetaData i).get ⟨k, hk⟩)) ∧
    packSendBuffer sd st ((buildPacketLists m (getAdjRanks m)).sendMetaData i) buf =
      some (((buildPacketLists m (getAdjRanks m)).sendMetaData i).flatMap (packetBytes sd st)) ∧
    (((buildPacketLists m (getAdjRanks m)).sendMetaData i).flatMap (packetBytes sd st)).length =
      buf.length := by
  have hnum := numSendPackets_eq_length m (getAdjRanks m) i r hr
  have hi : i < (getAdjRanks m).length := by
    by_contra h
    rw [List.getElem?_eq_none (by omega)] at hr
    exact Option.noConfusion hr
  have hlen : buf.length =
      ((buildPacketLists m (getAdjRanks m)).sendMetaData i).length * packetSize sd := by
    rw [hbuf, hnum, Nat.mul_comm]
  refine ⟨hnum, ?_, ?_, packSendBuffer_eq sd st _ buf hlen, ?_⟩
  · rw [resizePhase_dataToSend, if_pos hi]
  · intro k hk cur hcur
    exact packRecord_range sd st _ k hk cur (hcur.trans hlen)
  · rw [packets_length, hlen]

theorem send_buffer_bounds_witness :
    (getAdjRanks exampleMesh)[0]? = some 1 ∧
    (List.replicate 18 7 : List Byte).length =
      packetSize exampleSweepData *
        (buildPacketLists exampleMesh (getAdjRanks exampleMesh)).numSendPackets 0 ∧
    packSendBuffer exampleSweepData (fun _ _ => [])
        ((buildPacketLists exampleMesh (getAdjRanks exampleMesh)).sendMetaData 0)
        (List.replicate 18 7) =
      some (((buildPacketLists exampleMesh (getAdjRanks exampleMesh)).sendMetaData 0).flatMap
        (packetBytes exampleSweepData (fun _ _ => []))) :=
  ⟨by decide, by decide,
    (send_buffer_bounds exampleMesh exampleSweepData (fun _ _ => []) 0 1 (by decide)
      { status := .running, calls := [], numToRecv := 0,
        mpiRecvRequests := fun _ => false, mpiSendRequests := fun _ => false,
        dataToSend := fun _ => [], dataToRecv := fun _ => [], sweepData := fun _ _ => [] }
      (List.replicate 18 7) (by decide)).2.2.2.1⟩

/-! ## Claim C21: the two ends of a connection agree on the packet count -/

theorem sharedFaces_eq (m : TychoMesh) (r : Nat) :
    sharedFaces m r =
      ((List.range m.nCells).flatMap fun cell =>
        (List.range m.nFacePerCell).map fun face => (cell, face)).filter fun cf =>
          decide (m.getAdjRank cf.1 cf.2 = r) := by
  simp only [sharedFaces, List.product]

theorem countP_face_angles (c : Nat) (fs angles : List Nat) (h : Nat → Nat → Bool)
    (q : Nat → Nat → Nat → Bool) :
    (fs.flatMap fun f => angles.map fun a => (c, f, a)).countP
        (fun t => h t.1 t.2.1 && q t.2.2 t.1 t.2.1) =
      (((fs.map fun f => (c, f)).filter fun cf => h cf.1 cf.2).map fun cf =>
        angles.countP fun a => q a cf.1 cf.2).sum := by
  induction fs with
  | nil => rfl
  | cons f r ih =>
    rw [List.flatMap_cons, List.countP_append, ih, List.countP_map, List.map_cons,
      List.filter_cons]
    cases hf : h c f
    · simp [Function.comp_def, hf]
    · simp [Function.comp_def, hf]

theorem countP_cell_face_angles (cs fs angles : List Nat) (h : Nat → Nat → Bool)
    (q : Nat → Nat → Nat → Bool) :
    (cs.flatMap fun c => fs.flatMap fun f => angles.map fun a => (c, f, a)).countP
        (fun t => h t.1 t.2.1 && q t.2.2 t.1 t.2.1) =
      (((cs.flatMap fun c => fs.map fun f => (c, f)).filter fun cf => h cf.1 cf.2).map fun cf =>
        angles.countP fun a => q a cf.1 cf.2).sum := by
  induction cs with
  | nil => rfl
  | cons c r ih =>
    rw [List.flatMap_cons, List.countP_append, ih, countP_face_angles, List.flatMap_cons,
      List.filter_append, List.map_append, List.sum_append]

theorem countP_sharedFaces (m : TychoMesh) (r : Nat) (q : Nat → Nat → Nat → Bool) :
    (cellFaceAngles m).countP
        (fun t => decide (m.getAdjRank t.1 t.2.1 = r) && q t.2.2 t.1 t.2.1) =
      ((sharedFaces m r).map fun cf =>
        (List.range m.nAngles).countP fun a => q a cf.1 cf.2).sum := by
  rw [cellFaceAngles_eq, sharedFaces_eq]
  exact countP_cell_face_angles _ _ _ (fun c f => decide (m.getAdjRank c f = r)) q

theorem send_count_eq_recv_count (A B : TychoMesh) (rankA rankB : Nat)
    (φ : Nat × Nat → Nat × Nat) (hagree : MeshesAgree A B rankA rankB φ) (i j : Nat)
    (hi : (getAdjRanks A)[i]? = some rankB) (hj : (getAdjRanks B)[j]? = some rankA) :
    (buildPacketLists A (getAdjRanks A)).numSendPackets i =
      (buildPacketLists B (getAdjRanks B)).numRecvPackets j := by
  obtain ⟨hangles, hfaces, hout⟩ := hagree
  have hA := buildPacketLists_entry A (getAdjRanks A) i rankB hi
  have hB := buildPacketLists_entry B (getAdjRanks B) j rankA hj
  simp only [PacketLists.entry, Prod.mk.injEq] at hA hB
  rw [hA.2.1, hB.2.2, countP_sharedFaces A rankB (fun a c f => A.isOutgoing a c f),
    countP_sharedFaces B rankA (fun a c f => !B.isOutgoing a c f)]
  rw [← (hfaces.map _).sum_eq, List.map_map]
  congr 1
  apply List.map_congr_left
  intro cf hcf
  simp only [Function.comp_apply, ← hangles]
  apply List.countP_congr
  intro a ha
  rw [hout cf hcf a (List.mem_range.mp ha)]

/-- C21. Cross-rank count agreement: for two ranks `A` and `B` whose meshes
agree on every shared face (same angles; the faces `A` assigns `adjRank` `B`
correspond one-to-one to the faces `B` assigns `adjRank` `A`; a shared face is
outgoing for an angle on `A` exactly when it is not outgoing for it on `B`),
the `numSendPackets` entry that the build phase of `A` computes for `B` equals
the `numRecvPackets` entry that the build phase of `B` computes for `A`, and,
the payload size being the same on both ranks, `commSides` on `A` sizes its
send buffer for `B` to the byte length that `commSides` on `B` gives its
receive buffer for `A`. -/
theorem cross_rank_count_agreement {σ τ : Type} (A B : TychoMesh) (rankA rankB : Nat)
    (φ : Nat × Nat → Nat × Nat) (hagree : MeshesAgree A B rankA rankB φ)
    (sdA : SweepDataSchur σ) (sdB : SweepDataSchur τ)
    (hsize : sdA.getDataSize = sdB.getDataSize) (i j : Nat)
    (hi : (getAdjRanks A)[i]? = some rankB) (hj : (getAdjRanks B)[j]? = some rankA)
    (runA : CommRun σ) (runB : CommRun τ) :
    (buildPacketLists A (getAdjRanks A)).numSendPackets i =
      (buildPacketLists B (getAdjRanks B)).numRecvPackets j ∧
    ((resizePhase sdA (getAdjRanks A).length (buildPacketLists A (getAdjRanks A)).numSendPackets
        (buildPacketLists A (getAdjRanks A)).numRecvPackets runA).dataToSend i).length =
      ((resizePhase sdB (getAdjRanks B).length
        (buildPacketLists B (getAdjRanks B)).numSendPackets
        (buildPacketLists B (getAdjRanks B)).numRecvPackets runB).dataToRecv j).length := by
  have hcount := send_count_eq_recv_count A B rankA rankB φ hagree i j hi hj
  have hlt : ∀ (l : List Nat) (k r : Nat), l[k]? = some r → k < l.length := by
    intro l k r h
    by_contra hn
    rw [List.getElem?_eq_none (by omega)] at h
    exact Option.noConfusion h
  refine ⟨hcount, ?_⟩
  rw [resizePhase_dataToSend, resizePhase_dataToRecv, if_pos (hlt _ _ _ hi),
    if_pos (hlt _ _ _ hj), hcount]
  simp only [packetSize, hsize]

theorem cross_rank_count_agreement_witness :
    MeshesAgree exampleMesh neighborMesh 0 1 (fun _ => (0, 0)) ∧
    (getAdjRanks exampleMesh)[0]? = some 1 ∧ (getAdjRanks neighborMesh)[0]? = some 0 ∧
    (buildPacketLists exampleMesh (getAdjRanks exampleMesh)).numSendPackets 0 =
      (buildPacketLists neighborMesh (getAdjRanks neighborMesh)).numRecvPackets 0 ∧
    (buildPacketLists exampleMesh (getAdjRanks exampleMesh)).numSendPackets 0 = 1 :=
  ⟨⟨by decide, by decide, by decide⟩, by decide, by decide,
    (cross_rank_count_agreement exampleMesh neighborMesh 0 1 (fun _ => (0, 0))
      ⟨by decide, by decide, by decide⟩ exampleSweepData exampleSweepData rfl 0 0
      (by decide) (by decide)
      { status := .running, calls := [], numToRecv := 0,
        mpiRecvRequests := fun _ => false, mpiSendRequests := fun _ => false,
        dataToSend := fun _ => [], dataToRecv := fun _ => [], sweepData := fun _ _ => [] }
      { status := .running, calls := [], numToRecv := 0,
        mpiRecvRequests := fun _ => false, mpiSendRequests := fun _ => false,
        dataToSend := fun _ => [], dataToRecv := fun _ => [], sweepData := fun _ _ => [] }).1,
    by decide⟩

/-! ## Claim C22: the frame of the serialization -/

/-- C22. Frame of the serialization (`SweeperSchur.cc`): a slot
`psiBound(group, fvrtx, angle, side)` whose value `vecToPsiBound` changes has
`group`, `fvrtx` and `angle` within the loop bounds and
`side == getSide(cell, face)` for a `(cell, face)` that is incoming for that
angle with `adjCell == BOUNDARY_FACE` and `adjRank != BAD_RANK`, so every other
slot keeps its value; `psiBoundToVec`, which takes the boundary field as a
constant, ends with `xArrayIndex == getVecSize()` and leaves every entry of its
output from index `getVecSize()` on as it was. -/
theorem serialization_frame {α : Type} (m : TychoMesh) (x : Nat → α) (p : PsiBoundData α) :
    (∀ group fvrtx angle side : Nat,
      (vecToPsiBound m x p).1 group fvrtx angle side ≠ p group fvrtx angle side →
      ∃ cell face : Nat, cell < m.nCells ∧ face < m.nFacePerCell ∧ angle < m.nAngles ∧
        group < m.nGroups ∧ fvrtx < m.nVrtxPerFace ∧ side = m.getSide cell face ∧
        m.isIncoming angle cell face = true ∧ m.getAdjCell cell face = m.BOUNDARY_FACE ∧
        m.getAdjRank cell face ≠ m.BAD_RANK) ∧
    (psiBoundToVec m x p).2 = getVecSize m ∧
    (∀ j : Nat, getVecSize m ≤ j → (psiBoundToVec m x p).1 j = x j) := by
  refine ⟨?_, ?_, ?_⟩
  · intro group fvrtx angle side hne
    by_contra hno
    apply hne
    rw [vecToPsiBound_eq_foldl]
    apply fromVec_foldl_frame m x (boundaryTuples m) p 0 (group, fvrtx, angle, side)
    intro t ht hslot
    apply hno
    rw [mem_boundaryTuples] at ht
    obtain ⟨a, c, g, f, v⟩ := t
    simp only [TychoMesh.slotOf, Prod.mk.injEq] at hslot
    obtain ⟨rfl, rfl, rfl, rfl⟩ := hslot
    obtain ⟨ha, hc, hg, hf, hv, hin, hb⟩ := ht
    simp only [TychoMesh.onInternalBoundary, Bool.and_eq_true, decide_eq_true_eq] at hb
    exact ⟨c, f, hc, hf, ha, hg, hv, rfl, hin, hb.1, hb.2⟩
  · rw [psiBoundToVec_eq_foldl, toVec_foldl_index, getVecSize_eq_length]; simp
  · intro j hj
    rw [psiBoundToVec_eq_foldl]
    apply toVec_foldl_above
    rw [getVecSize_eq_length] at hj
    simpa using hj

theorem serialization_frame_example :
    (vecToPsiBound exampleMesh (fun k => Int.ofNat k + 5) (setToValue 0)).1 0 0 0 2 = 5 ∧
    (vecToPsiBound exampleMesh (fun k => Int.ofNat k + 5) (setToValue 0)).1 0 0 0 0 = 0 ∧
    (vecToPsiBound exampleMesh (fun k => Int.ofNat k + 5) (setToValue 0)).1 0 0 1 2 = 0 ∧
    (psiBoundToVec exampleMesh (fun _ => (9 : Int)) (setToValue 0)).1 7 = 0 ∧
    (psiBoundToVec exampleMesh (fun _ => (9 : Int)) (setToValue 0)).1 8 = 9 := by
  decide

end Tycho2
